import Mathlib

/-!
Package `histogram` (go-histogram): binning of numeric samples and their
rendering.

A shallow embedding of `hist.go` (package `histogram`) and proofs about the
binning routine `create`, its entry points `CreateLinear` / `CreateLog`, the
bucket statistics, and the text rendering (`bar`, `Print`).

Go's generic numeric kind `T` is a record of operations (`Number T`), so that
every statement proved for an arbitrary `Number T` holds for integer and for
floating-point sample kinds alike.  The fixed-width integer kinds are given
concretely (`intNumber`) with wrap-around arithmetic.  A Go run-time panic
(integer division by zero, index out of range, `make` with a negative length)
is the result `none`.  Strings are byte sequences; the `float64` operations of
the logarithmic transform and of the width normalisation are a record of
abstract operations.
-/

namespace Hist

/-! ## Numeric kinds -/

/-- Operations of one Go numeric kind `T` (the constraint
`constraints.Float | constraints.Integer`): the arithmetic operators, the
comparisons, and the conversions from and to Go's `int`.  `div` is `none`
where Go panics (integer division by zero). -/
structure Number (T : Type) where
  add : T → T → T
  sub : T → T → T
  mul : T → T → T
  div : T → T → Option T
  lt : T → T → Bool
  eq : T → T → Bool
  ofInt : Int → T
  toInt : T → Int

/-- The `float64` operations used by the logarithmic transform of `CreateLog`
and by the non-linear branch of `create`; `ofT` is the conversion `float64(x)`
of a sample, `toT` the conversion `T(x)` back, `pow10 x` is `math.Pow(10, x)`.
`round` is `math.Round` and `toInt` the conversion `int(x)`.
They are kept abstract: what is proved holds for every behaviour of them. -/
structure Float64 (F T : Type) where
  ofT : T → F
  toT : F → T
  ofInt : Int → F
  add : F → F → F
  sub : F → F → F
  mul : F → F → F
  div : F → F → F
  log10 : F → F
  pow10 : F → F
  round : F → F
  toInt : F → Int

/-- Two's-complement reading of `x` in `w` bits (signed kinds). -/
def wrapS (w : Nat) (x : Int) : Int :=
  (x + ((2 ^ (w - 1) : Nat) : Int)) % ((2 ^ w : Nat) : Int) - ((2 ^ (w - 1) : Nat) : Int)

/-- Reduction of `x` modulo `2 ^ w` (unsigned kinds). -/
def wrapU (w : Nat) (x : Int) : Int :=
  x % ((2 ^ w : Nat) : Int)

/-- Go's `int` is 64 bits wide on the platforms the package targets. -/
def wrapInt (x : Int) : Int := wrapS 64 x

/-- The integer kinds of `constraints.Integer`. -/
inductive IntKind where
  | int8 | int16 | int32 | int64 | int
  | uint8 | uint16 | uint32 | uint64 | uint | uintptr
  deriving DecidableEq, Repr

namespace IntKind

def bits : IntKind → Nat
  | int8 => 8 | int16 => 16 | int32 => 32 | int64 => 64 | int => 64
  | uint8 => 8 | uint16 => 16 | uint32 => 32 | uint64 => 64 | uint => 64 | uintptr => 64

def signed : IntKind → Bool
  | int8 => true | int16 => true | int32 => true | int64 => true | int => true
  | _ => false

/-- Smallest value of the kind. -/
def minVal (k : IntKind) : Int :=
  if k.signed then -((2 ^ (k.bits - 1) : Nat) : Int) else 0

/-- Largest value of the kind. -/
def maxVal (k : IntKind) : Int :=
  if k.signed then ((2 ^ (k.bits - 1) : Nat) : Int) - 1 else ((2 ^ k.bits : Nat) : Int) - 1

/-- A value of the kind: an integer inside its range. -/
def InRange (k : IntKind) (x : Int) : Prop := k.minVal ≤ x ∧ x ≤ k.maxVal

instance (k : IntKind) (x : Int) : Decidable (k.InRange x) := by
  unfold InRange; infer_instance

/-- Wrap-around of an arithmetic result into the kind. -/
def wrap (k : IntKind) (x : Int) : Int :=
  if k.signed then wrapS k.bits x else wrapU k.bits x

end IntKind

/-- Go arithmetic of an integer kind: results wrap around, `/` truncates
toward zero and panics on a zero divisor, a conversion from `int` keeps the
low bits, a conversion to `int` reinterprets in 64 bits. -/
def intNumber (k : IntKind) : Number Int where
  add a b := k.wrap (a + b)
  sub a b := k.wrap (a - b)
  mul a b := k.wrap (a * b)
  div a b := if b = 0 then none else some (k.wrap (Int.tdiv a b))
  lt a b := decide (a < b)
  eq a b := decide (a = b)
  ofInt i := k.wrap i
  toInt x := wrapInt x

/-! ## Helpers of `hist.go` -/

section Defs

variable {T F : Type}

/-- Source `sum`: accumulate with `+=` from the zero value. -/
def sum (num : Number T) (s : List T) : T :=
  s.foldl num.add (num.ofInt 0)

/-- Source `apply`: fold `f` from the first element; `0` on an empty slice. -/
def apply (num : Number T) (s : List T) (f : T → T → T) : T :=
  match s with
  | [] => num.ofInt 0
  | x :: rest => rest.foldl f x

/-- Source `min`. -/
def min (num : Number T) (a b : T) : T :=
  if num.lt a b then a else b

/-- Source `max` (`a > b` is `b < a`). -/
def max (num : Number T) (a b : T) : T :=
  if num.lt b a then a else b

def minSlice (num : Number T) (s : List T) : T := apply num s (min num)

def maxSlice (num : Number T) (s : List T) : T := apply num s (max num)

/-- One element of a histogram.  `Count` is a Go `int`; it only ever counts
elements of a slice, so it cannot wrap and is a natural number here. -/
structure Bucket (T : Type) where
  Low : T
  High : T
  Min : T
  Max : T
  Count : Nat
  Sum : T
  deriving DecidableEq, Repr

/-- The zero value of `Bucket[T]`, as produced by `make`. -/
def Bucket.zero (num : Number T) : Bucket T :=
  { Low := num.ofInt 0, High := num.ofInt 0, Min := num.ofInt 0, Max := num.ofInt 0,
    Count := 0, Sum := num.ofInt 0 }

/-- Source `(*Bucket).add`. -/
def Bucket.add (num : Number T) (b : Bucket T) (value : T) : Bucket T :=
  let b := { b with Count := b.Count + 1, Sum := num.add b.Sum value }
  if b.Count = 1 then { b with Min := value, Max := value }
  else if num.lt value b.Min then { b with Min := value }
  else if num.lt b.Max value then { b with Max := value }
  else b

/-- An ordered slice of buckets. -/
abbrev Histogram (T : Type) := List (Bucket T)

/-- Source `Histogram.Edges`. -/
def Edges (h : Histogram T) : List T :=
  (h.enum.foldl
    (fun ret ib =>
      let ret := if ib.1 = 0 then ret ++ [ib.2.Low] else ret
      ret ++ [ib.2.High])
    [])

/-- Source `isInt`: `T(1)/T(3) == 0`.  The divisor `T(3)` is non-zero in every
Go kind, so the division cannot panic; a faulting `div` reads as `false`. -/
def isInt (num : Number T) : Bool :=
  match num.div (num.ofInt 1) (num.ofInt 3) with
  | some q => num.eq q (num.ofInt 0)
  | none => false

/-- Source `roundIfInt`. -/
def roundIfInt (num : Number T) (fl : Float64 F T) (value : F) : T :=
  if !isInt num then fl.toT value else fl.toT (fl.round value)

/-- Loop of Go's `sort.Search`: `h := int(uint(i+j) >> 1)`, then `i = h + 1`
when `f(h)` is false and `j = h` otherwise.  `j - i` shrinks in every round,
so a fuel of `j - i` rounds always reaches `i ≥ j`. -/
def searchLoop (f : Nat → Bool) : Nat → Nat → Nat → Nat
  | 0, i, _ => i
  | fuel + 1, i, j =>
    if i < j then
      let h := (i + j) / 2
      if !f h then searchLoop f fuel (h + 1) j else searchLoop f fuel i h
    else i

/-- Go's `sort.Search(n, f)`. -/
def Search (n : Nat) (f : Nat → Bool) : Nat := searchLoop f n 0 n

/-- Go's `make(Histogram[T], n)`: panics on a negative length. -/
def make (num : Number T) (n : Int) : Option (Histogram T) :=
  if n < 0 then none else some (List.replicate n.toNat (Bucket.zero num))

/-- In-place update `l[i] = f(l[i])` at a natural index; `none` when the index
is out of range. -/
def modifyAt {α : Type} : List α → Nat → (α → α) → Option (List α)
  | [], _, _ => none
  | a :: l, 0, f => some (f a :: l)
  | a :: l, n + 1, f => (modifyAt l n f).map (fun r => a :: r)

/-- In-place update at a Go `int` index, with the bounds check. -/
def updateAt {α : Type} (l : List α) (i : Int) (f : α → α) : Option (List α) :=
  if i < 0 then none else modifyAt l i.toNat f

/-- The loop `for i := 0; i < len(ret); i++ { ret[i].Low = low(i) }`,
started at index `i`. -/
def setLows (low : Nat → T) : Nat → Histogram T → Histogram T
  | _, [] => []
  | i, b :: rest => { b with Low := low i } :: setLows low (i + 1) rest

/-- The loop `for i := 0; i < len(ret)-1; i++ { ret[i].High = ret[i+1].Low }`. -/
def setHighs : Histogram T → Histogram T
  | b :: c :: rest => { b with High := c.Low } :: setHighs (c :: rest)
  | l => l

/-- The closure `func(i int) bool { return ret[i].Low > v }` handed to
`sort.Search`, which only calls it with `0 ≤ i < len(ret)`. -/
def lowAbove (num : Number T) (ret : Histogram T) (v : T) (i : Nat) : Bool :=
  match ret.get? i with
  | some b => num.lt v b.Low
  | none => false

/-- Body of the binning loop of `create` for one sample `v`. -/
def assign (num : Number T) (ret : Histogram T) (v : T) : Option (Histogram T) := do
  let first ← ret.head?
  let bucketIndex : Int :=
    if num.lt first.Low v then
      (Search ret.length (lowAbove num ret v) : Int) - 1
    else 0
  updateAt ret bucketIndex (fun b => b.add num v)

/-- Source `create`. -/
def create (num : Number T) (fl : Float64 F T) (inSlice : List T) (binCount : Int)
    (beforeCalc : Option (T → F)) (afterCalc : Option (F → T)) : Option (Histogram T) :=
  if inSlice.length = 0 then some [] else
  let min := minSlice num inSlice
  let max := maxSlice num inSlice
  let corr := isInt num && decide (num.toInt (num.sub max min) < binCount)
  let binCount := if corr then wrapInt (num.toInt (num.sub max min) + 1) else binCount
  let max := if corr then num.add max (num.ofInt 1) else max
  (make num binCount).bind fun ret =>
  (match beforeCalc with
    | none =>
      (num.div (num.sub max min) (num.ofInt binCount)).map fun spacing =>
        setLows (fun i => num.add min (num.mul (num.ofInt i) spacing)) 0 ret
    | some before =>
      let spacing := fl.div (fl.sub (before max) (before min)) (fl.ofInt binCount)
      match ret, afterCalc with
      | [], _ => some []
      | _ :: _, none => none
      | _ :: _, some after =>
        some (setLows (fun i => after (fl.add (before min) (fl.mul (fl.ofInt i) spacing))) 0 ret)
    ).bind fun ret =>
  (updateAt (setHighs ret) (binCount - 1) (fun b => { b with High := max })).bind fun ret =>
  inSlice.foldlM (assign num) ret

/-- With `nil` transforms `create` evaluates no `float64` operation; the
linear entry point fixes that unused parameter to this trivial one. -/
def noFloat (num0 : T) : Float64 Unit T where
  ofT _ := ()
  toT _ := num0
  ofInt _ := ()
  add _ _ := ()
  sub _ _ := ()
  mul _ _ := ()
  div _ _ := ()
  log10 _ := ()
  pow10 _ := ()
  round _ := ()
  toInt _ := 0

/-- Source `CreateLinear`. -/
def CreateLinear (num : Number T) (slice : List T) (binCount : Int) :
    Option (Histogram T) :=
  create num (noFloat (num.ofInt 0)) slice binCount none none

/-- State of the scan at the head of `CreateLog`:
`(nonzeroMin, absMinFound, absMin)`. -/
def logScan (num : Number T) (slice : List T) : T × Bool × T :=
  slice.foldl
    (fun st s =>
      let nonzeroMin :=
        if num.lt (num.ofInt 0) s then
          (if num.eq st.1 (num.ofInt 0) || num.lt s st.1 then s else st.1)
        else st.1
      if !st.2.1 || num.lt s st.2.2 then (nonzeroMin, true, s)
      else (nonzeroMin, st.2.1, st.2.2))
    (num.ofInt 0, false, num.ofInt 0)

/-- The tail of `CreateLog`: `if len(h) > 0 { h[0].Low = absMin }`. -/
def setFirstLow (absMin : T) : Histogram T → Histogram T
  | [] => []
  | b :: rest => { b with Low := absMin } :: rest

/-- Source `CreateLog`. -/
def CreateLog (num : Number T) (fl : Float64 F T) (slice : List T) (binCount : Int) :
    Option (Histogram T) :=
  let nonzeroMin := (logScan num slice).1
  let absMin := (logScan num slice).2.2
  (create num fl slice binCount
    (some fun x =>
      let x := if num.lt x nonzeroMin then nonzeroMin else x
      fl.log10 (fl.ofT x))
    (some fun x => roundIfInt num fl (fl.pow10 x))).map (setFirstLow absMin)

/-! ## A concrete `float64` to run the code on -/

/-- Number of decimal digits of `x` minus one, by repeated division. -/
def ilog10 : Nat → Nat → Nat
  | 0, _ => 0
  | fuel + 1, x => if x < 10 then 0 else ilog10 fuel (x / 10) + 1

/-- An integer-valued stand-in for `float64` on integer samples: a base-10
logarithm rounded down, exact powers of ten, truncating division.  It only
serves to evaluate `CreateLog` on concrete slices; every theorem about
`CreateLog` is stated for an arbitrary `Float64`. -/
def intFloat : Float64 Int Int where
  ofT x := x
  toT x := x
  ofInt i := i
  add a b := a + b
  sub a b := a - b
  mul a b := a * b
  div a b := Int.tdiv a b
  log10 x := (ilog10 x.toNat x.toNat : Nat)
  pow10 x := ((10 ^ x.toNat : Nat) : Int)
  round x := x
  toInt x := x

/-! ## Vocabulary of the statements -/

/-- Sum of `Count` over all buckets. -/
def totalCount (h : Histogram T) : Nat := (h.map Bucket.Count).sum

/-- Consecutive buckets share an edge: `h[i].High` is `h[i+1].Low`. -/
def Contiguous (h : Histogram T) : Prop :=
  ∀ i b c, h[i]? = some b → h[i + 1]? = some c → b.High = c.Low

/-- The guard of the integer edge-count correction in `create`:
`isInt[T]() && int(max-min) < binCount`. -/
def correctionApplies (num : Number T) (inSlice : List T) (binCount : Int) : Bool :=
  isInt num &&
    decide (num.toInt (num.sub (maxSlice num inSlice) (minSlice num inSlice)) < binCount)

/-- Value of `binCount` after the correction step of `create`. -/
def effBinCount (num : Number T) (inSlice : List T) (binCount : Int) : Int :=
  if correctionApplies num inSlice binCount then
    wrapInt (num.toInt (num.sub (maxSlice num inSlice) (minSlice num inSlice)) + 1)
  else binCount

/-- Value of `max` after the correction step of `create`. -/
def effMax (num : Number T) (inSlice : List T) (binCount : Int) : T :=
  if correctionApplies num inSlice binCount then
    num.add (maxSlice num inSlice) (num.ofInt 1)
  else maxSlice num inSlice

/-- The comparison `<` of the kind is asymmetric, as it is for every Go
integer kind and for IEEE floating point (NaN included). -/
def LtAsymm (num : Number T) : Prop :=
  ∀ a b, num.lt a b = true → num.lt b a = false

/-- The slice `samples` holds values of the integer kind `k`, its minimum is
`lo` and its maximum is `hi` (so it is not empty). -/
structure Samples (k : IntKind) (samples : List Int) (lo hi : Int) : Prop where
  inRange : ∀ v, v ∈ samples → k.InRange v
  lo_mem : lo ∈ samples
  lo_le : ∀ v, v ∈ samples → lo ≤ v
  hi_mem : hi ∈ samples
  le_hi : ∀ v, v ∈ samples → v ≤ hi

/-- Largest value of Go's `int`. -/
def maxInt : Int := 9223372036854775807

/-- The difference `hi - lo` is representable in the sample kind and in `int`:
neither `max - min` nor `int(max-min)` wraps. -/
def SpanFits (k : IntKind) (lo hi : Int) : Prop :=
  hi - lo ≤ k.maxVal ∧ hi - lo ≤ maxInt

/-- Where the edge-count correction applies (`hi - lo < n`), `hi + 1` is
representable in the sample kind: `max++` does not wrap. -/
def TopFits (k : IntKind) (lo hi n : Int) : Prop :=
  hi - lo < n → hi + 1 ≤ k.maxVal

instance (k : IntKind) (lo hi : Int) : Decidable (SpanFits k lo hi) := by
  unfold SpanFits; infer_instance

instance (k : IntKind) (lo hi n : Int) : Decidable (TopFits k lo hi n) := by
  unfold TopFits; infer_instance

/-- Number of buckets of a linear integer histogram: `n`, reduced to
`hi - lo + 1` when the range is narrower than `n`. -/
def linCount (lo hi n : Int) : Int := if hi - lo < n then hi - lo + 1 else n

/-- Spacing of the low edges of a linear integer histogram: the truncated
quotient `(hi - lo) / n`, and 1 after the correction. -/
def linSpacing (lo hi n : Int) : Int := if hi - lo < n then 1 else Int.tdiv (hi - lo) n

/-- Upper edge of the last bucket of a linear integer histogram: `hi`, and
`hi + 1` after the correction. -/
def linTop (lo hi n : Int) : Int := if hi - lo < n then hi + 1 else hi

/-- Number of samples that fall in bucket `i` of `len` buckets with low edges
`low`: at or above `low i` and, unless the bucket is the last, below
`low (i + 1)`. -/
def slotCount (low : Nat → Int) (len i : Nat) (samples : List Int) : Nat :=
  samples.countP (fun v => decide (low i ≤ v ∧ (i + 1 < len → v < low (i + 1))))

/-- Low edge of bucket `i` of a linear integer histogram. -/
def linLow (lo hi n : Int) (i : Nat) : Int := lo + (i : Int) * linSpacing lo hi n

/-- What the proofs use of a floating-point kind: `T(1)/T(3)` is not zero,
`<` is asymmetric, and `/` never panics. -/
structure FloatKind (num : Number T) : Prop where
  notInt : isInt num = false
  ltAsymm : LtAsymm num
  divTotal : ∀ a b, (num.div a b).isSome = true

/-- The variant of `Bucket.add` that the design notes compare it with: after
the first value, the check for a new minimum and the check for a new maximum
are made independently of each other instead of in an else-if chain. -/
def Bucket.addIndependent (num : Number T) (b : Bucket T) (value : T) : Bucket T :=
  let b := { b with Count := b.Count + 1, Sum := num.add b.Sum value }
  if b.Count = 1 then { b with Min := value, Max := value }
  else
    let b := if num.lt value b.Min then { b with Min := value } else b
    if num.lt b.Max value then { b with Max := value } else b

/-- The slice `counts` that `Print` fills from the buckets (`[]int`). -/
def printCounts (h : Histogram T) : List Int := h.map (fun b => (b.Count : Int))

/-- The slice `sums` that `Print` fills from the buckets. -/
def printSums (h : Histogram T) : List T := h.map Bucket.Sum

/-! ## Rendering -/

/-- A Go string, as the sequence of its bytes. -/
abbrev GoString := List Nat

/-- The conversion `string(r)` of a rune: its UTF-8 encoding, and the encoding
of U+FFFD for a value that is not a valid code point. -/
def runeString (r : Int) : GoString :=
  if r < 0 ∨ (55296 ≤ r ∧ r ≤ 57343) ∨ 1114111 < r then [239, 191, 189]
  else if r < 128 then [r.toNat]
  else if r < 2048 then [192 + (r / 64).toNat, 128 + (r % 64).toNat]
  else if r < 65536 then
    [224 + (r / 4096).toNat, 128 + (r / 64 % 64).toNat, 128 + (r % 64).toNat]
  else
    [240 + (r / 262144).toNat, 128 + (r / 4096 % 64).toNat, 128 + (r / 64 % 64).toNat,
      128 + (r % 64).toNat]

/-- Go's `strings.Repeat(s, count)` for a count that is not negative. -/
def Repeat (s : GoString) : Nat → GoString
  | 0 => []
  | n + 1 => s ++ Repeat s n

/-- The loop `for len(ret) < width { ret += " " }` of `bar`; every round adds
one byte, so `width - len(ret)` rounds are enough. -/
def padSpaces : Nat → GoString → Int → GoString
  | 0, ret, _ => ret
  | fuel + 1, ret, width =>
    if (ret.length : Int) < width then padSpaces fuel (ret ++ [32]) width else ret

/-- The slice expression `s[:k]`: panics unless `0 ≤ k ≤ len(s)`. -/
def sliceTo (s : GoString) (k : Int) : Option GoString :=
  if 0 ≤ k ∧ k ≤ s.length then some (s.take k.toNat) else none

/-- The slice expression `s[k:]`: panics unless `0 ≤ k ≤ len(s)`. -/
def sliceFrom (s : GoString) (k : Int) : Option GoString :=
  if 0 ≤ k ∧ k ≤ s.length then some (s.drop k.toNat) else none

/-- Source `bar`; runes are integers, `none` is a slice-bounds panic. -/
def bar (width val1 val2 : Int) (val1pad char1 char2 combinedChar : Int) : Option GoString :=
  let val1pad := if val1pad = 0 then 32 else val1pad
  let ret : GoString := if val1 > 0 then Repeat (runeString val1pad) val1.toNat else []
  let ret := ret ++ runeString char1
  let ret := padSpaces (width - ret.length).toNat ret width
  if char2 ≠ 0 then
    let char2 := if val1 = val2 ∧ combinedChar ≠ 0 then combinedChar else char2
    (sliceTo ret val2).bind fun front =>
    (sliceFrom ret (val2 + 1)).map fun back =>
    front ++ runeString char2 ++ back
  else some ret

/-- Source `normToWidth`, for a slice of kind `α` whose conversion
`float64(v)` is `conv`. -/
def normToWidth {α : Type} (num : Number α) (conv : α → F) (fl : Float64 F T)
    (s : List α) (width : Int) : List Int :=
  let max := conv (maxSlice num s)
  s.map fun v =>
    fl.toInt (fl.round (fl.mul (fl.div (conv v) max) (fl.sub (fl.ofInt width) (fl.ofInt 1))))

/-- Decimal digits of `n` in front of `acc`, most significant first. -/
def digitsLoop : Nat → Nat → GoString → GoString
  | 0, _, acc => acc
  | fuel + 1, n, acc =>
    if n < 10 then (48 + n) :: acc else digitsLoop fuel (n / 10) ((48 + n % 10) :: acc)

/-- Go's `strconv.Itoa`. -/
def Itoa (i : Int) : GoString :=
  if i < 0 then 45 :: digitsLoop (i.natAbs + 1) i.natAbs []
  else digitsLoop (i.toNat + 1) i.toNat []

/-- Source `PrintOptions`; a `nil` `Format` is `none`. -/
structure PrintOptions (T : Type) where
  Prefix : GoString
  Width : Int
  Symbol : Int
  PadSymbol : Int
  Format : Option (T → GoString)
  SumSymbol : Int
  CombinedSymbol : Int

/-- What a call of `Print` did: the writes to `w` in order, one per
`fmt.Fprintf`, and whether the call returned (`false`: it panicked after
these writes). -/
structure Printed where
  writes : List GoString
  returned : Bool
  deriving DecidableEq, Repr

/-- The loop `for len(sumText) < len(maxCountStr) { sumText = " " + sumText }`
of `Print`. -/
def leftPad : Nat → GoString → Nat → GoString
  | 0, s, _ => s
  | fuel + 1, s, len => if s.length < len then leftPad fuel (32 :: s) len else s

/-- The text between the parentheses of a bucket line of `Print`. -/
def sumText (opt : PrintOptions T) (format : T → GoString) (maxCountStr : GoString)
    (b : Bucket T) : GoString :=
  let sumText := leftPad (maxCountStr.length - (Itoa b.Count).length) (Itoa b.Count)
    maxCountStr.length
  if opt.SumSymbol ≠ 0 then sumText ++ [59, 32] ++ format b.Sum else sumText

/-- The bucket line of `Print`, format `"%s> %s: %s (%s)\n"`, for a rendered
bar. -/
def printLine (opt : PrintOptions T) (format : T → GoString) (maxCountStr : GoString)
    (b : Bucket T) (barStr : GoString) : GoString :=
  opt.Prefix ++ [62, 32] ++ format b.Low ++ [58, 32] ++ barStr ++ [32, 40] ++
    sumText opt format maxCountStr b ++ [41, 10]

/-- The loop of `Print` over the buckets, given in the order they are
visited, each with its normalised count and sum. -/
def printRows (opt : PrintOptions T) (format : T → GoString) (maxCountStr : GoString) :
    List (Bucket T × Int × Int) → Printed
  | [] => { writes := [], returned := true }
  | (b, c1, c2) :: rest =>
    match bar opt.Width c1 c2 opt.PadSymbol opt.Symbol opt.SumSymbol opt.CombinedSymbol with
    | none => { writes := [], returned := false }
    | some barStr =>
      let r := printRows opt format maxCountStr rest
      { writes := printLine opt format maxCountStr b barStr :: r.writes,
        returned := r.returned }

/-- Source `Print`.  `sprint` is `fmt.Sprintf("%v", ·)` on `T`, the default
of `opt.Format`. -/
def Print (num : Number T) (fl : Float64 F T) (sprint : T → GoString)
    (h : Histogram T) (opt : PrintOptions T) : Printed :=
  let format := match opt.Format with
    | none => sprint
    | some f => f
  match h.getLast? with
  | none => { writes := [], returned := true }
  | some last =>
    let counts := printCounts h
    let sums := printSums h
    let countsNorm := normToWidth (intNumber IntKind.int) fl.ofInt fl counts opt.Width
    let sumsNorm := normToWidth num fl.ofT fl sums opt.Width
    let maxCountStr := Itoa (maxSlice (intNumber IntKind.int) counts)
    let header := opt.Prefix ++ [32, 32] ++ format last.High ++ [10]
    let r := printRows opt format maxCountStr (h.zip (countsNorm.zip sumsNorm)).reverse
    { writes := header :: r.writes, returned := r.returned }

/-- Go's comparison `a <= b`: `a < b || a == b` (false when an operand is
NaN). -/
def Number.le (num : Number T) (a b : T) : Bool := num.lt a b || num.eq a b

/-- The values of `vs` are totally ordered by the comparisons of the kind:
`<` is asymmetric and transitive on them and any two of them are related by
`<`, `>` or `==`.  This holds of the values of every integer kind, and of
floating-point values exactly when none of them is NaN. -/
structure TotalOn (num : Number T) (vs : List T) : Prop where
  asymm : ∀ a, a ∈ vs → ∀ b, b ∈ vs → num.lt a b = true → num.lt b a = false
  trans : ∀ a, a ∈ vs → ∀ b, b ∈ vs → ∀ c, c ∈ vs →
    num.lt a b = true → num.lt b c = true → num.lt a c = true
  total : ∀ a, a ∈ vs → ∀ b, b ∈ vs →
    num.lt a b = true ∨ num.lt b a = true ∨ num.eq a b = true

end Defs

/-- The histogram `CreateLinear([]int{8}, 1)`: one bucket. -/
def oneBucket : Histogram Int :=
  [{ Low := 8, High := 9, Min := 8, Max := 8, Count := 1, Sum := 8 }]

/-- Options with the glyphs `|`, `-`, `S`, `$` of `GetBytesOptions(width, true)`,
an empty prefix and the default `Format`. -/
def sumOptions (width : Int) : PrintOptions Int :=
  { Prefix := [], Width := width, Symbol := 124, PadSymbol := 45, Format := none,
    SumSymbol := 83, CombinedSymbol := 36 }

/-- Exact rational arithmetic: an idealised floating kind (no rounding, no
infinities, no NaN), to instantiate the statements about floating-point kinds;
those statements are proved for every `FloatKind`. -/
def ratNumber : Number Rat where
  add a b := a + b
  sub a b := a - b
  mul a b := a * b
  div a b := some (a / b)
  lt a b := decide (a < b)
  eq a b := decide (a = b)
  ofInt i := (i : Rat)
  toInt x := Int.tdiv x.num x.den

/-! ## Floating-point values with infinities and NaN -/

/-- A floating-point value: a finite fraction `num / den` (`den > 0`), an
infinity, or NaN.  The negative zero is not told apart from zero. -/
inductive Flt where
  | fin (num : Int) (den : Nat)
  | posInf
  | negInf
  | nan
  deriving DecidableEq, Repr

namespace Flt

/-- The fraction `n / d` in lowest terms. -/
def norm (n : Int) (d : Nat) : Flt :=
  fin (n / (Nat.gcd n.natAbs d : Nat)) (d / Nat.gcd n.natAbs d)

def neg : Flt → Flt
  | fin n d => fin (-n) d
  | posInf => negInf
  | negInf => posInf
  | nan => nan

/-- IEEE-754 addition: `Inf + -Inf` is NaN. -/
def add : Flt → Flt → Flt
  | nan, _ => nan
  | _, nan => nan
  | posInf, negInf => nan
  | negInf, posInf => nan
  | posInf, _ => posInf
  | _, posInf => posInf
  | negInf, _ => negInf
  | _, negInf => negInf
  | fin a b, fin c d => norm (a * d + c * b) (b * d)

def sub (x y : Flt) : Flt := add x (neg y)

/-- An infinity with the sign of `s` (`s ≠ 0`). -/
def infOfSign (s : Int) : Flt := if s < 0 then negInf else posInf

/-- IEEE-754 multiplication: `0 * Inf` is NaN. -/
def mul : Flt → Flt → Flt
  | nan, _ => nan
  | _, nan => nan
  | fin a b, fin c d => norm (a * c) (b * d)
  | fin a _, posInf => if a = 0 then nan else infOfSign a
  | fin a _, negInf => if a = 0 then nan else infOfSign (-a)
  | posInf, fin c _ => if c = 0 then nan else infOfSign c
  | negInf, fin c _ => if c = 0 then nan else infOfSign (-c)
  | posInf, posInf => posInf
  | negInf, negInf => posInf
  | posInf, negInf => negInf
  | negInf, posInf => negInf

/-- IEEE-754 division: never a panic; `0/0` and `Inf/Inf` are NaN, a non-zero
value over zero is an infinity. -/
def div : Flt → Flt → Flt
  | nan, _ => nan
  | _, nan => nan
  | fin a b, fin c d =>
    if c = 0 then (if a = 0 then nan else infOfSign a)
    else if c < 0 then norm (-(a * d)) (b * c.natAbs)
    else norm (a * d) (b * c.natAbs)
  | fin _ _, posInf => fin 0 1
  | fin _ _, negInf => fin 0 1
  | posInf, fin c _ => if c < 0 then negInf else posInf
  | negInf, fin c _ => if c < 0 then posInf else negInf
  | posInf, posInf => nan
  | posInf, negInf => nan
  | negInf, posInf => nan
  | negInf, negInf => nan

/-- The comparison `<`: false when an operand is NaN. -/
def lt : Flt → Flt → Bool
  | nan, _ => false
  | _, nan => false
  | fin a b, fin c d => decide (a * d < c * b)
  | fin _ _, posInf => true
  | fin _ _, negInf => false
  | posInf, _ => false
  | negInf, negInf => false
  | negInf, _ => true

/-- The comparison `==`: false when an operand is NaN. -/
def eq : Flt → Flt → Bool
  | nan, _ => false
  | _, nan => false
  | fin a b, fin c d => decide (a * d = c * b)
  | posInf, posInf => true
  | negInf, negInf => true
  | _, _ => false

/-- The conversion `int(x)`: truncation for a finite value; for an infinity
or NaN the result depends on the platform (the smallest `int` on amd64). -/
def toInt : Flt → Int
  | fin a b => wrapInt (Int.tdiv a b)
  | _ => -9223372036854775808

end Flt

/-- A floating kind with the special values of IEEE-754 and exact arithmetic
on the finite ones (no rounding): it agrees with `float32`/`float64` on every
run in which each finite result is representable, and serves to run the code
on slices that hold an infinity or NaN. -/
def fltNumber : Number Flt where
  add := Flt.add
  sub := Flt.sub
  mul := Flt.mul
  div a b := some (Flt.div a b)
  lt := Flt.lt
  eq := Flt.eq
  ofInt i := Flt.fin i 1
  toInt := Flt.toInt

/-! ## In-place updates -/

section Gen
variable {T F : Type} {α : Type}

theorem modifyAt_length : ∀ (l : List α) (n : Nat) (f : α → α) (r : List α),
    modifyAt l n f = some r → r.length = l.length
  | [], _, _, _, h => by simp [modifyAt] at h
  | a :: l, 0, f, r, h => by
    simp [modifyAt] at h; subst h; simp
  | a :: l, n + 1, f, r, h => by
    simp only [modifyAt, Option.map_eq_some'] at h
    obtain ⟨r', hr', rfl⟩ := h
    simp [modifyAt_length l n f r' hr']

theorem modifyAt_lt : ∀ (l : List α) (n : Nat) (f : α → α) (r : List α),
    modifyAt l n f = some r → n < l.length
  | [], _, _, _, h => by simp [modifyAt] at h
  | a :: l, 0, f, r, h => by simp
  | a :: l, n + 1, f, r, h => by
    simp only [modifyAt, Option.map_eq_some'] at h
    obtain ⟨r', hr', rfl⟩ := h
    have := modifyAt_lt l n f r' hr'
    simp; omega

theorem modifyAt_of_lt : ∀ (l : List α) (n : Nat) (f : α → α),
    n < l.length → ∃ r, modifyAt l n f = some r
  | [], _, _, h => by simp at h
  | a :: l, 0, f, _ => ⟨_, rfl⟩
  | a :: l, n + 1, f, h => by
    obtain ⟨r, hr⟩ := modifyAt_of_lt l n f (by simpa using h)
    exact ⟨a :: r, by simp [modifyAt, hr]⟩

theorem modifyAt_getElem? : ∀ (l : List α) (n : Nat) (f : α → α) (r : List α),
    modifyAt l n f = some r → ∀ i, r[i]? = if i = n then l[i]?.map f else l[i]?
  | [], _, _, _, h => by simp [modifyAt] at h
  | a :: l, 0, f, r, h => by
    simp [modifyAt] at h; subst h
    intro i; cases i <;> simp
  | a :: l, n + 1, f, r, h => by
    simp only [modifyAt, Option.map_eq_some'] at h
    obtain ⟨r', hr', rfl⟩ := h
    intro i
    cases i with
    | zero => simp
    | succ i => simpa using modifyAt_getElem? l n f r' hr' i

theorem modifyAt_map_inv {β : Type} (g : α → β) : ∀ (l : List α) (n : Nat) (f : α → α) (r : List α),
    (∀ a, g (f a) = g a) → modifyAt l n f = some r → r.map g = l.map g
  | [], _, _, _, _, h => by simp [modifyAt] at h
  | a :: l, 0, f, r, hg, h => by
    simp [modifyAt] at h; subst h; simp [hg]
  | a :: l, n + 1, f, r, hg, h => by
    simp only [modifyAt, Option.map_eq_some'] at h
    obtain ⟨r', hr', rfl⟩ := h
    simp [modifyAt_map_inv g l n f r' hg hr']

theorem modifyAt_sum_succ (c : α → Nat) : ∀ (l : List α) (n : Nat) (f : α → α) (r : List α),
    (∀ a, c (f a) = c a + 1) → modifyAt l n f = some r → (r.map c).sum = (l.map c).sum + 1
  | [], _, _, _, _, h => by simp [modifyAt] at h
  | a :: l, 0, f, r, hc, h => by
    simp [modifyAt] at h; subst h; simp [hc]; omega
  | a :: l, n + 1, f, r, hc, h => by
    simp only [modifyAt, Option.map_eq_some'] at h
    obtain ⟨r', hr', rfl⟩ := h
    simp [modifyAt_sum_succ c l n f r' hc hr']; omega

end Gen

/-! ## Binary search -/

theorem searchLoop_ge (f : Nat → Bool) : ∀ fuel i j, i ≤ searchLoop f fuel i j
  | 0, i, j => by simp [searchLoop]
  | fuel + 1, i, j => by
    unfold searchLoop
    split
    · simp only []
      split
      · have := searchLoop_ge f fuel ((i + j) / 2 + 1) j
        omega
      · exact searchLoop_ge f fuel i ((i + j) / 2)
    · exact Nat.le_refl i

theorem searchLoop_le (f : Nat → Bool) : ∀ fuel i j, i ≤ j → searchLoop f fuel i j ≤ j
  | 0, i, j, h => by simpa [searchLoop] using h
  | fuel + 1, i, j, h => by
    unfold searchLoop
    split
    · simp only []
      split
      · exact searchLoop_le f fuel ((i + j) / 2 + 1) j (by omega)
      · have := searchLoop_le f fuel i ((i + j) / 2) (by omega)
        omega
    · exact h

theorem searchLoop_pos (f : Nat → Bool) (h0 : f 0 = false) :
    ∀ fuel i j, j - i ≤ fuel → (1 ≤ i ∨ 1 ≤ j) → 1 ≤ searchLoop f fuel i j
  | 0, i, j, hf, h => by
    simp only [searchLoop]; omega
  | fuel + 1, i, j, hf, h => by
    unfold searchLoop
    split
    · rename_i hij
      simp only []
      split
      · exact searchLoop_pos f h0 fuel _ j (by omega) (by omega)
      · rename_i hfh
        by_cases hz : (i + j) / 2 = 0
        · rw [hz, h0] at hfh; simp at hfh
        · by_cases hi : 1 ≤ i
          · have := searchLoop_ge f fuel i ((i + j) / 2); omega
          · exact searchLoop_pos f h0 fuel i _ (by omega) (by omega)
    · omega

theorem searchLoop_spec (f : Nat → Bool) (n : Nat)
    (mono : ∀ a b, a ≤ b → b < n → f a = true → f b = true) :
    ∀ fuel i j, j - i ≤ fuel → i ≤ j → j ≤ n →
      (∀ k, k < i → f k = false) → (∀ k, j ≤ k → k < n → f k = true) →
      (∀ k, k < searchLoop f fuel i j → f k = false) ∧
      (∀ k, searchLoop f fuel i j ≤ k → k < n → f k = true)
  | 0, i, j, hf, hij, hjn, hlo, hhi => by
    have : i = j := by omega
    subst this
    simp only [searchLoop]
    exact ⟨hlo, hhi⟩
  | fuel + 1, i, j, hf, hij, hjn, hlo, hhi => by
    unfold searchLoop
    split
    · rename_i hlt
      simp only []
      split
      · rename_i hfh
        have hfh' : f ((i + j) / 2) = false := by simpa using hfh
        apply searchLoop_spec f n mono fuel _ j (by omega) (by omega) hjn _ hhi
        intro k hk
        cases hfk : f k with
        | false => rfl
        | true =>
          have := mono k ((i + j) / 2) (by omega) (by omega) hfk
          rw [hfh'] at this; cases this
      · rename_i hfh
        have hfh' : f ((i + j) / 2) = true := by simpa using hfh
        apply searchLoop_spec f n mono fuel i _ (by omega) (by omega) (by omega) hlo
        intro k hk hkn
        exact mono _ k hk hkn hfh'
    · have : i = j := by omega
      subst this
      exact ⟨hlo, hhi⟩

theorem Search_le (n : Nat) (f : Nat → Bool) : Search n f ≤ n :=
  searchLoop_le f n 0 n (Nat.zero_le n)

theorem Search_pos (n : Nat) (f : Nat → Bool) (h0 : f 0 = false) (hn : 1 ≤ n) :
    1 ≤ Search n f :=
  searchLoop_pos f h0 n 0 n (by omega) (Or.inr hn)

theorem Search_spec (n : Nat) (f : Nat → Bool)
    (mono : ∀ a b, a ≤ b → b < n → f a = true → f b = true) :
    (∀ k, k < Search n f → f k = false) ∧ (∀ k, Search n f ≤ k → k < n → f k = true) :=
  searchLoop_spec f n mono n 0 n (by omega) (Nat.zero_le n) (Nat.le_refl n)
    (fun k hk => absurd hk (Nat.not_lt_zero k)) (fun k h1 h2 => absurd h2 (by omega))

/-! ## The bucket loops of `create` -/

section Loops

variable {T F : Type}

theorem setLows_length (low : Nat → T) : ∀ (i : Nat) (l : Histogram T),
    (setLows low i l).length = l.length
  | _, [] => rfl
  | i, b :: rest => by simp [setLows, setLows_length low (i + 1) rest]

theorem setLows_map_High (low : Nat → T) : ∀ (i : Nat) (l : Histogram T),
    (setLows low i l).map Bucket.High = l.map Bucket.High
  | _, [] => rfl
  | i, b :: rest => by simp [setLows, setLows_map_High low (i + 1) rest]

theorem setLows_map_Count (low : Nat → T) : ∀ (i : Nat) (l : Histogram T),
    (setLows low i l).map Bucket.Count = l.map Bucket.Count
  | _, [] => rfl
  | i, b :: rest => by simp [setLows, setLows_map_Count low (i + 1) rest]

theorem setLows_map_Low (low : Nat → T) : ∀ (i : Nat) (l : Histogram T),
    (setLows low i l).map Bucket.Low = (List.range' i l.length).map low
  | _, [] => rfl
  | i, b :: rest => by simp [setLows, setLows_map_Low low (i + 1) rest, List.range']

theorem setHighs_length : ∀ (l : Histogram T), (setHighs l).length = l.length
  | [] => rfl
  | [_] => rfl
  | b :: c :: rest => by simp [setHighs, setHighs_length (c :: rest)]

theorem setHighs_map_Low : ∀ (l : Histogram T),
    (setHighs l).map Bucket.Low = l.map Bucket.Low
  | [] => rfl
  | [_] => rfl
  | b :: c :: rest => by
    have := setHighs_map_Low (c :: rest)
    simp [setHighs, this]

theorem setHighs_map_Count : ∀ (l : Histogram T),
    (setHighs l).map Bucket.Count = l.map Bucket.Count
  | [] => rfl
  | [_] => rfl
  | b :: c :: rest => by
    have := setHighs_map_Count (c :: rest)
    simp [setHighs, this]

theorem setHighs_contiguous : ∀ (l : Histogram T), Contiguous (setHighs l)
  | [] => by intro i b c h; simp [setHighs] at h
  | [_] => by intro i b c _ h; simp [setHighs] at h
  | x :: y :: rest => by
    intro i b c hb hc
    have hlow := setHighs_map_Low (y :: rest)
    cases i with
    | zero =>
      simp only [setHighs, List.getElem?_cons_zero, Option.some.injEq] at hb
      simp only [setHighs, List.getElem?_cons_succ] at hc
      have h0 : ((setHighs (y :: rest)).map Bucket.Low)[0]? = some c.Low := by
        simp [List.getElem?_map, hc]
      rw [hlow] at h0
      simp at h0
      subst hb
      simpa using h0
    | succ i =>
      simp only [setHighs, List.getElem?_cons_succ] at hb hc
      exact setHighs_contiguous (y :: rest) i b c hb hc

/-- Contiguity only depends on the `Low` and `High` columns. -/
theorem contiguous_of_maps {h h' : Histogram T}
    (hl : h.map Bucket.Low = h'.map Bucket.Low) (hh : h.map Bucket.High = h'.map Bucket.High)
    (hc : Contiguous h') : Contiguous h := by
  intro i b c hb hcc
  have e1 : (h.map Bucket.High)[i]? = some b.High := by simp [List.getElem?_map, hb]
  have e2 : (h.map Bucket.Low)[i + 1]? = some c.Low := by simp [List.getElem?_map, hcc]
  rw [hh] at e1
  rw [hl] at e2
  simp only [List.getElem?_map, Option.map_eq_some'] at e1 e2
  obtain ⟨b', hb', e1⟩ := e1
  obtain ⟨c', hc', e2⟩ := e2
  rw [← e1, ← e2]
  exact hc i b' c' hb' hc'

theorem Bucket.add_Low (num : Number T) (b : Bucket T) (v : T) : (b.add num v).Low = b.Low := by
  unfold Bucket.add; simp only []; split_ifs <;> rfl

theorem Bucket.add_High (num : Number T) (b : Bucket T) (v : T) :
    (b.add num v).High = b.High := by
  unfold Bucket.add; simp only []; split_ifs <;> rfl

theorem Bucket.add_Count (num : Number T) (b : Bucket T) (v : T) :
    (b.add num v).Count = b.Count + 1 := by
  unfold Bucket.add; simp only []; split_ifs <;> rfl

theorem Bucket.add_Sum (num : Number T) (b : Bucket T) (v : T) :
    (b.add num v).Sum = num.add b.Sum v := by
  unfold Bucket.add; simp only []; split_ifs <;> rfl

/-- The index that the loop body of `create` computes for `v`; it reads only
the `Low` column. -/
theorem assign_eq (num : Number T) (ret : Histogram T) (v : T) :
    assign num ret v =
      match ret.head? with
      | none => none
      | some first =>
        updateAt ret
          (if num.lt first.Low v then
            (Search ret.length (lowAbove num ret v) : Int) - 1
          else 0)
          (fun b => b.add num v) := by
  unfold assign
  cases ret.head? <;> rfl

theorem updateAt_some {α : Type} (l : List α) (i : Int) (f : α → α) (r : List α)
    (h : updateAt l i f = some r) : 0 ≤ i ∧ modifyAt l i.toNat f = some r := by
  unfold updateAt at h
  split at h
  · cases h
  · exact ⟨by omega, h⟩

theorem assign_some (num : Number T) (ret r : Histogram T) (v : T)
    (h : assign num ret v = some r) :
    ∃ n, modifyAt ret n (fun b => b.add num v) = some r := by
  rw [assign_eq] at h
  split at h
  · cases h
  · exact ⟨_, (updateAt_some _ _ _ _ h).2⟩

theorem assign_length (num : Number T) (ret r : Histogram T) (v : T)
    (h : assign num ret v = some r) : r.length = ret.length := by
  obtain ⟨n, hn⟩ := assign_some num ret r v h
  exact modifyAt_length _ _ _ _ hn

theorem assign_map_Low (num : Number T) (ret r : Histogram T) (v : T)
    (h : assign num ret v = some r) : r.map Bucket.Low = ret.map Bucket.Low := by
  obtain ⟨n, hn⟩ := assign_some num ret r v h
  exact modifyAt_map_inv _ _ _ _ _ (fun b => Bucket.add_Low num b v) hn

theorem assign_map_High (num : Number T) (ret r : Histogram T) (v : T)
    (h : assign num ret v = some r) : r.map Bucket.High = ret.map Bucket.High := by
  obtain ⟨n, hn⟩ := assign_some num ret r v h
  exact modifyAt_map_inv _ _ _ _ _ (fun b => Bucket.add_High num b v) hn

theorem assign_totalCount (num : Number T) (ret r : Histogram T) (v : T)
    (h : assign num ret v = some r) : totalCount r = totalCount ret + 1 := by
  obtain ⟨n, hn⟩ := assign_some num ret r v h
  exact modifyAt_sum_succ _ _ _ _ _ (fun b => Bucket.add_Count num b v) hn

theorem foldlM_assign_inv (num : Number T) : ∀ (s : List T) (ret r : Histogram T),
    s.foldlM (assign num) ret = some r →
      r.length = ret.length ∧ r.map Bucket.Low = ret.map Bucket.Low ∧
      r.map Bucket.High = ret.map Bucket.High ∧ totalCount r = totalCount ret + s.length
  | [], ret, r, h => by
    simp only [List.foldlM, pure, Option.some.injEq] at h
    subst h; simp
  | v :: s, ret, r, h => by
    simp only [List.foldlM_cons] at h
    cases hv : assign num ret v with
    | none => rw [hv] at h; cases h
    | some r1 =>
      rw [hv] at h
      obtain ⟨h1, h2, h3, h4⟩ := foldlM_assign_inv num s r1 r h
      refine ⟨?_, ?_, ?_, ?_⟩
      · rw [h1, assign_length num ret r1 v hv]
      · rw [h2, assign_map_Low num ret r1 v hv]
      · rw [h3, assign_map_High num ret r1 v hv]
      · rw [h4, assign_totalCount num ret r1 v hv]; simp; omega

end Loops

/-! ## Shape of the result of `create` -/

section Shape

variable {T F : Type}

/-- The edge-generation step of `create` (both branches), on the freshly made
slice `ret`. -/
theorem create_eq (num : Number T) (fl : Float64 F T) (s : List T) (n : Int)
    (bc : Option (T → F)) (ac : Option (F → T)) :
    create num fl s n bc ac =
      if s.length = 0 then some [] else
      (make num (effBinCount num s n)).bind fun ret =>
      (match bc with
        | none =>
          (num.div (num.sub (effMax num s n) (minSlice num s))
              (num.ofInt (effBinCount num s n))).map fun spacing =>
            setLows (fun i => num.add (minSlice num s) (num.mul (num.ofInt i) spacing)) 0 ret
        | some before =>
          match ret, ac with
          | [], _ => some []
          | _ :: _, none => none
          | _ :: _, some after =>
            some (setLows (fun i => after (fl.add (before (minSlice num s))
              (fl.mul (fl.ofInt i)
                (fl.div (fl.sub (before (effMax num s n)) (before (minSlice num s)))
                  (fl.ofInt (effBinCount num s n)))))) 0 ret)
        ).bind fun ret =>
      (updateAt (setHighs ret) (effBinCount num s n - 1)
        (fun b => { b with High := effMax num s n })).bind fun ret =>
      s.foldlM (assign num) ret := rfl

theorem totalCount_replicate_zero (num : Number T) (n : Nat) :
    totalCount (List.replicate n (Bucket.zero num)) = 0 := by
  induction n with
  | zero => rfl
  | succ n ih =>
    simp only [totalCount, List.replicate_succ, List.map_cons, List.sum_cons] at ih ⊢
    rw [ih]; rfl

/-- What every run of `create` on a non-empty slice that returns has gone
through: a slice of `effBinCount` buckets with the edges set, then the binning
loop. -/
theorem create_some (num : Number T) (fl : Float64 F T) (s : List T) (n : Int)
    (bc : Option (T → F)) (ac : Option (F → T)) (h : Histogram T)
    (hs : s ≠ []) (hc : create num fl s n bc ac = some h) :
    ∃ ret : Histogram T,
      1 ≤ effBinCount num s n ∧ ret.length = (effBinCount num s n).toNat ∧
      Contiguous ret ∧ (ret.map Bucket.High).getLast? = some (effMax num s n) ∧
      totalCount ret = 0 ∧ s.foldlM (assign num) ret = some h ∧
      ret.map Bucket.Count = List.replicate (effBinCount num s n).toNat 0 ∧
      (bc = none → ∃ sp,
        num.div (num.sub (effMax num s n) (minSlice num s))
          (num.ofInt (effBinCount num s n)) = some sp ∧
        ret.map Bucket.Low = (List.range' 0 (effBinCount num s n).toNat).map
          (fun (i : Nat) => num.add (minSlice num s) (num.mul (num.ofInt (i : Int)) sp))) := by
  rw [create_eq] at hc
  have hlen : ¬ s.length = 0 := by
    intro h0; exact hs (List.length_eq_zero.mp h0)
  rw [if_neg hlen] at hc
  simp only [Option.bind_eq_some] at hc
  obtain ⟨ret1, hmake, ret2, hlows, ret3, hupd, hfold⟩ := hc
  -- the freshly made slice
  have hmake' : 0 ≤ effBinCount num s n ∧
      ret1 = List.replicate (effBinCount num s n).toNat (Bucket.zero num) := by
    unfold make at hmake
    split at hmake
    · cases hmake
    · simp only [Option.some.injEq] at hmake
      exact ⟨by omega, hmake.symm⟩
  obtain ⟨hnonneg, hret1⟩ := hmake'
  -- the edge step keeps length and counts
  have hret2 : ret2.length = ret1.length ∧
      ret2.map Bucket.Count = ret1.map Bucket.Count := by
    cases bc with
    | none =>
      simp only [Option.map_eq_some'] at hlows
      obtain ⟨sp, _, rfl⟩ := hlows
      exact ⟨setLows_length _ _ _, setLows_map_Count _ _ _⟩
    | some before =>
      simp only at hlows
      split at hlows
      · simp only [Option.some.injEq] at hlows
        subst hlows; exact ⟨rfl, rfl⟩
      · cases hlows
      · simp only [Option.some.injEq] at hlows
        subst hlows
        exact ⟨setLows_length _ _ _, setLows_map_Count _ _ _⟩
  obtain ⟨hlen2, hcnt2⟩ := hret2
  -- the write to the last bucket
  obtain ⟨hidx, hmod⟩ := updateAt_some _ _ _ _ hupd
  have hlt := modifyAt_lt _ _ _ _ hmod
  rw [setHighs_length, hlen2, hret1, List.length_replicate] at hlt
  have hge : 1 ≤ effBinCount num s n := by omega
  have hlen3 : ret3.length = (effBinCount num s n).toNat := by
    rw [modifyAt_length _ _ _ _ hmod, setHighs_length, hlen2, hret1, List.length_replicate]
  have hget := modifyAt_getElem? _ _ _ _ hmod
  have e1 : ret3.map Bucket.Count = (setHighs ret2).map Bucket.Count :=
    modifyAt_map_inv Bucket.Count _ _
      (fun b => { b with High := effMax num s n }) _ (fun _ => rfl) hmod
  have e2 : ret3.map Bucket.Low = (setHighs ret2).map Bucket.Low :=
    modifyAt_map_inv Bucket.Low _ _
      (fun b => { b with High := effMax num s n }) _ (fun _ => rfl) hmod
  have hzero : ret1.map Bucket.Count = List.replicate (effBinCount num s n).toNat 0 := by
    rw [hret1, List.map_replicate]; rfl
  refine ⟨ret3, hge, hlen3, ?_, ?_, ?_, hfold, ?_, ?_⟩
  rotate_left 3
  · rw [e1, setHighs_map_Count, hcnt2, hzero]
  · intro hbc
    subst hbc
    simp only [Option.map_eq_some'] at hlows
    obtain ⟨sp, hsp, rfl⟩ := hlows
    refine ⟨sp, hsp, ?_⟩
    rw [e2, setHighs_map_Low, setLows_map_Low, hret1, List.length_replicate]
  · -- contiguity
    intro i b c hb hcc
    have hi : i + 1 < ret3.length := by
      by_contra hcon
      have : ret3[i + 1]? = none := List.getElem?_eq_none (by omega)
      rw [this] at hcc; cases hcc
    have hb' := hget i
    have hc' := hget (i + 1)
    rw [hb] at hb'
    rw [hcc] at hc'
    have hne : ¬ i = (effBinCount num s n - 1).toNat := by omega
    rw [if_neg hne] at hb'
    by_cases hlast : i + 1 = (effBinCount num s n - 1).toNat
    · rw [if_pos hlast] at hc'
      cases hx : (setHighs ret2)[i + 1]? with
      | none => rw [hx] at hc'; cases hc'
      | some c0 =>
        rw [hx] at hc'
        simp only [Option.map_some', Option.some.injEq] at hc'
        have := setHighs_contiguous ret2 i b c0 hb'.symm hx
        rw [this, hc']
    · rw [if_neg hlast] at hc'
      exact setHighs_contiguous ret2 i b c hb'.symm hc'.symm
  · -- the last High
    rw [List.getLast?_eq_getElem?, List.length_map, hlen3, List.getElem?_map]
    have hl := hget ((effBinCount num s n).toNat - 1)
    have he : (effBinCount num s n).toNat - 1 = (effBinCount num s n - 1).toNat := by omega
    rw [if_pos he] at hl
    rw [hl]
    have hin : (effBinCount num s n).toNat - 1 < (setHighs ret2).length := by
      rw [setHighs_length, hlen2, hret1, List.length_replicate]; omega
    rw [List.getElem?_eq_getElem hin]
    rfl
  · -- counts are still zero
    unfold totalCount
    rw [e1, setHighs_map_Count, hcnt2, hret1]
    exact totalCount_replicate_zero num _

theorem create_nil (num : Number T) (fl : Float64 F T) (n : Int)
    (bc : Option (T → F)) (ac : Option (F → T)) : create num fl [] n bc ac = some [] := rfl

/-- Shape of every histogram returned by `create` for a non-empty slice. -/
theorem create_inv (num : Number T) (fl : Float64 F T) (s : List T) (n : Int)
    (bc : Option (T → F)) (ac : Option (F → T)) (h : Histogram T)
    (hs : s ≠ []) (hc : create num fl s n bc ac = some h) :
    1 ≤ effBinCount num s n ∧ h.length = (effBinCount num s n).toNat ∧
    Contiguous h ∧ (h.map Bucket.High).getLast? = some (effMax num s n) ∧
    totalCount h = s.length := by
  obtain ⟨ret, h1, h2, h3, h4, h5, h6, _, _⟩ := create_some num fl s n bc ac h hs hc
  obtain ⟨i1, i2, i3, i4⟩ := foldlM_assign_inv num s ret h h6
  refine ⟨h1, by rw [i1, h2], contiguous_of_maps i2 i3 h3, by rw [i3, h4], by rw [i4, h5]; simp⟩

end Shape

/-! ## When `create` returns -/

section Totality

variable {T F : Type}

theorem updateAt_of_lt {α : Type} (l : List α) (i : Int) (f : α → α)
    (h0 : 0 ≤ i) (h1 : i < l.length) : ∃ r, updateAt l i f = some r := by
  unfold updateAt
  rw [if_neg (by omega)]
  exact modifyAt_of_lt l i.toNat f (by omega)

theorem assign_isSome (num : Number T) (hasym : LtAsymm num) (ret : Histogram T) (v : T)
    (hne : ret ≠ []) : ∃ r, assign num ret v = some r := by
  rw [assign_eq]
  cases ret with
  | nil => exact absurd rfl hne
  | cons first rest =>
    simp only [List.head?_cons]
    by_cases hlt : num.lt first.Low v = true
    · rw [if_pos hlt]
      have h0 : lowAbove num (first :: rest) v 0 = false := by
        simp only [lowAbove, List.get?_cons_zero]
        exact hasym _ _ hlt
      have hpos := Search_pos (first :: rest).length (lowAbove num (first :: rest) v) h0
        (by simp)
      have hle := Search_le (first :: rest).length (lowAbove num (first :: rest) v)
      apply updateAt_of_lt
      · omega
      · omega
    · rw [if_neg hlt]
      apply updateAt_of_lt
      · omega
      · simp

theorem foldlM_assign_isSome (num : Number T) (hasym : LtAsymm num) :
    ∀ (s : List T) (ret : Histogram T), ret ≠ [] → ∃ r, s.foldlM (assign num) ret = some r
  | [], ret, _ => ⟨ret, rfl⟩
  | v :: s, ret, hne => by
    obtain ⟨r1, hr1⟩ := assign_isSome num hasym ret v hne
    have hne1 : r1 ≠ [] := by
      intro h
      have := assign_length num ret r1 v hr1
      rw [h] at this
      exact hne (List.length_eq_zero.mp this.symm)
    obtain ⟨r, hr⟩ := foldlM_assign_isSome num hasym s r1 hne1
    exact ⟨r, by simp only [List.foldlM_cons, hr1]; exact hr⟩

theorem setHighs_update_isSome (ret : Histogram T) (e : Int) (x : T)
    (he : 1 ≤ e) (hlen : ret.length = e.toNat) :
    ∃ r, updateAt (setHighs ret) (e - 1) (fun b => { b with High := x }) = some r ∧ r ≠ [] := by
  obtain ⟨r, hr⟩ := updateAt_of_lt (setHighs ret) (e - 1) (fun b => { b with High := x })
    (by omega) (by rw [setHighs_length, hlen]; omega)
  refine ⟨r, hr, ?_⟩
  intro h
  have := modifyAt_length _ _ _ _ (updateAt_some _ _ _ _ hr).2
  rw [h, setHighs_length, hlen] at this
  simp at this
  omega

/-- The linear branch of `create` returns as soon as the effective bucket
count is positive and the spacing division does not fault. -/
theorem create_linear_isSome (num : Number T) (fl : Float64 F T) (hasym : LtAsymm num)
    (s : List T) (n : Int) (hs : s ≠ []) (he : 1 ≤ effBinCount num s n)
    (hdiv : (num.div (num.sub (effMax num s n) (minSlice num s))
      (num.ofInt (effBinCount num s n))).isSome = true) :
    ∃ h, create num fl s n none none = some h := by
  rw [create_eq]
  have hlen : ¬ s.length = 0 := fun h0 => hs (List.length_eq_zero.mp h0)
  rw [if_neg hlen]
  obtain ⟨sp, hsp⟩ := Option.isSome_iff_exists.mp hdiv
  have hmake : make num (effBinCount num s n) =
      some (List.replicate (effBinCount num s n).toNat (Bucket.zero num)) := by
    unfold make; rw [if_neg (by omega)]
  obtain ⟨r, hr, hrne⟩ := setHighs_update_isSome
    (setLows (fun i => num.add (minSlice num s) (num.mul (num.ofInt i) sp)) 0
      (List.replicate (effBinCount num s n).toNat (Bucket.zero num)))
    (effBinCount num s n) (effMax num s n) he
    (by rw [setLows_length, List.length_replicate])
  obtain ⟨h, hh⟩ := foldlM_assign_isSome num hasym s r hrne
  exact ⟨h, by simp only [hmake, hsp, Option.some_bind, Option.map_some', hr]; exact hh⟩

/-- The transformed branch of `create` (the one `CreateLog` uses) returns as
soon as the effective bucket count is positive. -/
theorem create_calc_isSome (num : Number T) (fl : Float64 F T) (hasym : LtAsymm num)
    (s : List T) (n : Int) (before : T → F) (after : F → T)
    (hs : s ≠ []) (he : 1 ≤ effBinCount num s n) :
    ∃ h, create num fl s n (some before) (some after) = some h := by
  rw [create_eq]
  have hlen : ¬ s.length = 0 := fun h0 => hs (List.length_eq_zero.mp h0)
  rw [if_neg hlen]
  have hmake : make num (effBinCount num s n) =
      some (List.replicate (effBinCount num s n).toNat (Bucket.zero num)) := by
    unfold make; rw [if_neg (by omega)]
  obtain ⟨m, hm⟩ : ∃ m, (effBinCount num s n).toNat = m + 1 := ⟨(effBinCount num s n).toNat - 1, by omega⟩
  obtain ⟨r, hr, hrne⟩ := setHighs_update_isSome
    (setLows (fun i => after (fl.add (before (minSlice num s))
      (fl.mul (fl.ofInt i)
        (fl.div (fl.sub (before (effMax num s n)) (before (minSlice num s)))
          (fl.ofInt (effBinCount num s n)))))) 0
      (List.replicate (effBinCount num s n).toNat (Bucket.zero num)))
    (effBinCount num s n) (effMax num s n) he
    (by rw [setLows_length, List.length_replicate])
  obtain ⟨h, hh⟩ := foldlM_assign_isSome num hasym s r hrne
  refine ⟨h, ?_⟩
  simp only [hmake, Option.some_bind]
  rw [hm] at hr ⊢
  simp only [List.replicate_succ, Option.some_bind]
  simp only [List.replicate_succ] at hr
  rw [hr]
  exact hh

end Totality

/-! ## Integer kinds -/

section IntKinds

theorem IntKind.wrap_of_inRange (k : IntKind) (x : Int) (h : k.InRange x) : k.wrap x = x := by
  unfold IntKind.InRange IntKind.minVal IntKind.maxVal at h
  unfold IntKind.wrap wrapS wrapU
  cases k <;> simp only [IntKind.signed, IntKind.bits] at h ⊢ <;> norm_num at h ⊢ <;> omega

theorem IntKind.wrap_inRange (k : IntKind) (x : Int) : k.InRange (k.wrap x) := by
  unfold IntKind.InRange IntKind.minVal IntKind.maxVal
  unfold IntKind.wrap wrapS wrapU
  cases k <;> simp only [IntKind.signed, IntKind.bits] <;> norm_num <;> omega

theorem wrapInt_of_range (x : Int) (h1 : -9223372036854775808 ≤ x) (h2 : x ≤ 9223372036854775807) :
    wrapInt x = x := by
  unfold wrapInt wrapS
  norm_num
  omega

theorem IntKind.maxVal_ge (k : IntKind) : 127 ≤ k.maxVal := by
  unfold IntKind.maxVal
  cases k <;> simp only [IntKind.signed, IntKind.bits] <;> norm_num

theorem IntKind.minVal_le (k : IntKind) : k.minVal ≤ 0 := by
  unfold IntKind.minVal
  cases k <;> simp only [IntKind.signed, IntKind.bits] <;> norm_num

theorem IntKind.maxVal_le (k : IntKind) : k.maxVal ≤ 18446744073709551615 := by
  unfold IntKind.maxVal
  cases k <;> simp only [IntKind.signed, IntKind.bits] <;> norm_num

theorem IntKind.minVal_ge (k : IntKind) : -9223372036854775808 ≤ k.minVal := by
  unfold IntKind.minVal
  cases k <;> simp only [IntKind.signed, IntKind.bits] <;> norm_num

theorem isInt_intNumber (k : IntKind) : isInt (intNumber k) = true := by
  cases k <;> decide

theorem ltAsymm_intNumber (k : IntKind) : LtAsymm (intNumber k) := by
  intro a b h
  simp only [intNumber, decide_eq_true_eq, decide_eq_false_iff_not] at h ⊢
  omega

end IntKinds

/-! ## Minimum and maximum of an integer slice -/

section MinMax

theorem foldl_min_int (k : IntKind) : ∀ (rest : List Int) (x : Int),
    (rest.foldl (min (intNumber k)) x = x ∨ rest.foldl (min (intNumber k)) x ∈ rest) ∧
    rest.foldl (min (intNumber k)) x ≤ x ∧
    ∀ y, y ∈ rest → rest.foldl (min (intNumber k)) x ≤ y
  | [], x => by simp
  | a :: rest, x => by
    obtain ⟨h1, h2, h3⟩ := foldl_min_int k rest (min (intNumber k) x a)
    have hm : min (intNumber k) x a = x ∧ x ≤ a ∨ min (intNumber k) x a = a ∧ a ≤ x := by
      unfold min
      simp only [intNumber, decide_eq_true_eq]
      split
      · left; exact ⟨rfl, by omega⟩
      · right; exact ⟨rfl, by omega⟩
    simp only [List.foldl_cons, List.mem_cons]
    refine ⟨?_, ?_, ?_⟩
    · rcases h1 with h1 | h1
      · rcases hm with ⟨e, _⟩ | ⟨e, _⟩
        · left; rw [h1, e]
        · right; left; rw [h1, e]
      · right; right; exact h1
    · rcases hm with ⟨e, _⟩ | ⟨e, _⟩ <;> omega
    · intro y hy
      rcases hy with rfl | hy
      · rcases hm with ⟨e, _⟩ | ⟨e, _⟩ <;> omega
      · exact h3 y hy

theorem foldl_max_int (k : IntKind) : ∀ (rest : List Int) (x : Int),
    (rest.foldl (max (intNumber k)) x = x ∨ rest.foldl (max (intNumber k)) x ∈ rest) ∧
    x ≤ rest.foldl (max (intNumber k)) x ∧
    ∀ y, y ∈ rest → y ≤ rest.foldl (max (intNumber k)) x
  | [], x => by simp
  | a :: rest, x => by
    obtain ⟨h1, h2, h3⟩ := foldl_max_int k rest (max (intNumber k) x a)
    have hm : max (intNumber k) x a = x ∧ a ≤ x ∨ max (intNumber k) x a = a ∧ x ≤ a := by
      unfold max
      simp only [intNumber, decide_eq_true_eq]
      split
      · left; exact ⟨rfl, by omega⟩
      · right; exact ⟨rfl, by omega⟩
    simp only [List.foldl_cons, List.mem_cons]
    refine ⟨?_, ?_, ?_⟩
    · rcases h1 with h1 | h1
      · rcases hm with ⟨e, _⟩ | ⟨e, _⟩
        · left; rw [h1, e]
        · right; left; rw [h1, e]
      · right; right; exact h1
    · rcases hm with ⟨e, _⟩ | ⟨e, _⟩ <;> omega
    · intro y hy
      rcases hy with rfl | hy
      · rcases hm with ⟨e, _⟩ | ⟨e, _⟩ <;> omega
      · exact h3 y hy

theorem minSlice_int (k : IntKind) (s : List Int) (lo hi : Int) (hs : Samples k s lo hi) :
    minSlice (intNumber k) s = lo := by
  cases s with
  | nil => exact absurd hs.lo_mem (List.not_mem_nil lo)
  | cons x rest =>
    obtain ⟨h1, h2, h3⟩ := foldl_min_int k rest x
    have hmem : minSlice (intNumber k) (x :: rest) ∈ x :: rest := by
      show rest.foldl (min (intNumber k)) x ∈ x :: rest
      rcases h1 with h1 | h1
      · rw [h1]; exact List.mem_cons_self x rest
      · exact List.mem_cons_of_mem x h1
    have hle : minSlice (intNumber k) (x :: rest) ≤ lo := by
      show rest.foldl (min (intNumber k)) x ≤ lo
      rcases List.mem_cons.mp hs.lo_mem with e | e
      · rw [e]; exact h2
      · exact h3 lo e
    have := hs.lo_le _ hmem
    omega

theorem maxSlice_int (k : IntKind) (s : List Int) (lo hi : Int) (hs : Samples k s lo hi) :
    maxSlice (intNumber k) s = hi := by
  cases s with
  | nil => exact absurd hs.lo_mem (List.not_mem_nil lo)
  | cons x rest =>
    obtain ⟨h1, h2, h3⟩ := foldl_max_int k rest x
    have hmem : maxSlice (intNumber k) (x :: rest) ∈ x :: rest := by
      show rest.foldl (max (intNumber k)) x ∈ x :: rest
      rcases h1 with h1 | h1
      · rw [h1]; exact List.mem_cons_self x rest
      · exact List.mem_cons_of_mem x h1
    have hle : hi ≤ maxSlice (intNumber k) (x :: rest) := by
      show hi ≤ rest.foldl (max (intNumber k)) x
      rcases List.mem_cons.mp hs.hi_mem with e | e
      · rw [e]; exact h2
      · exact h3 hi e
    have := hs.le_hi _ hmem
    omega

theorem Samples.ne_nil {k : IntKind} {s : List Int} {lo hi : Int} (hs : Samples k s lo hi) :
    s ≠ [] := by
  intro h
  have := hs.lo_mem
  rw [h] at this
  exact absurd this (List.not_mem_nil lo)

theorem Samples.lo_le_hi {k : IntKind} {s : List Int} {lo hi : Int} (hs : Samples k s lo hi) :
    lo ≤ hi := hs.le_hi lo hs.lo_mem

end MinMax

/-! ## Exact arithmetic of the linear integer histogram -/

section IntExact

theorem lin_facts (lo hi n : Int) (hlohi : lo ≤ hi) (hn : 1 ≤ n) :
    1 ≤ linSpacing lo hi n ∧ 1 ≤ linCount lo hi n ∧ linCount lo hi n ≤ n ∧
    linSpacing lo hi n ≤ hi - lo + 1 ∧
    (linCount lo hi n - 1) * linSpacing lo hi n ≤ hi - lo := by
  unfold linSpacing linCount
  by_cases hc : hi - lo < n
  · simp only [if_pos hc]
    refine ⟨le_refl _, by omega, by omega, by omega, by omega⟩
  · simp only [if_neg hc]
    have h0 : (0 : Int) ≤ hi - lo := by omega
    have hn0 : (0 : Int) ≤ n := by omega
    rw [Int.tdiv_eq_ediv h0 hn0]
    have h1 : 1 ≤ (hi - lo) / n := by
      apply Int.le_ediv_of_mul_le (by omega)
      omega
    have h2 : (hi - lo) / n * n ≤ hi - lo := Int.ediv_mul_le _ (by omega)
    have h3 : (hi - lo) / n ≤ hi - lo := by nlinarith
    refine ⟨h1, hn, le_refl _, by omega, ?_⟩
    nlinarith

theorem lin_index_bound (lo hi n : Int) (hlohi : lo ≤ hi) (hn : 1 ≤ n) (i : Nat)
    (hi' : (i : Int) < linCount lo hi n) :
    0 ≤ (i : Int) * linSpacing lo hi n ∧ (i : Int) * linSpacing lo hi n ≤ hi - lo := by
  obtain ⟨h1, h2, h3, h4, h5⟩ := lin_facts lo hi n hlohi hn
  have hi0 : (0 : Int) ≤ i := Int.ofNat_nonneg i
  constructor
  · positivity
  · nlinarith

theorem linLow_strictMono (lo hi n : Int) (hlohi : lo ≤ hi) (hn : 1 ≤ n) (i j : Nat)
    (hij : i < j) : linLow lo hi n i < linLow lo hi n j := by
  obtain ⟨h1, _⟩ := lin_facts lo hi n hlohi hn
  unfold linLow
  have : (i : Int) + 1 ≤ j := by omega
  nlinarith

theorem IntKind.wrap_sub_wrap (k : IntKind) (a b : Int) :
    k.wrap (k.wrap a - b) = k.wrap (a - b) := by
  unfold IntKind.wrap wrapS wrapU
  cases k <;> simp only [IntKind.signed, IntKind.bits] <;> norm_num <;> omega

theorem IntKind.wrap_ne_zero (k : IntKind) (y : Int) (h1 : 1 ≤ y) (h2 : y ≤ k.maxVal + 1)
    (h3 : k.minVal = 0 → y ≤ k.maxVal) : k.wrap y ≠ 0 := by
  intro h0
  unfold IntKind.maxVal at h2 h3
  unfold IntKind.minVal at h3
  unfold IntKind.wrap wrapS wrapU at h0
  cases k <;> simp only [IntKind.signed, IntKind.bits] at h2 h3 h0 <;>
    simp only [Nat.reducePow, Nat.cast_ofNat, Nat.reduceSub, if_true, if_false,
      Bool.false_eq_true, forall_const] at h2 h3 h0 <;> omega

variable {k : IntKind} {s : List Int} {lo hi n : Int}

theorem Samples.lo_inRange (hs : Samples k s lo hi) : k.InRange lo := hs.inRange lo hs.lo_mem

theorem Samples.hi_inRange (hs : Samples k s lo hi) : k.InRange hi := hs.inRange hi hs.hi_mem

/-- Without a wrap in `max - min`, the guard of the correction is `hi - lo < n`. -/
theorem int_span (hs : Samples k s lo hi) (hf : SpanFits k lo hi) :
    (intNumber k).toInt ((intNumber k).sub (maxSlice (intNumber k) s) (minSlice (intNumber k) s))
      = hi - lo := by
  rw [minSlice_int k s lo hi hs, maxSlice_int k s lo hi hs]
  have hle := hs.lo_le_hi
  have hr : k.InRange (hi - lo) := ⟨by have := k.minVal_le; omega, hf.1⟩
  show wrapInt (k.wrap (hi - lo)) = hi - lo
  rw [k.wrap_of_inRange _ hr]
  have := hf.2
  unfold maxInt at this
  exact wrapInt_of_range _ (by omega) (by omega)

theorem int_correctionApplies (hs : Samples k s lo hi) (hf : SpanFits k lo hi) :
    correctionApplies (intNumber k) s n = decide (hi - lo < n) := by
  unfold correctionApplies
  rw [int_span hs hf, isInt_intNumber]
  simp

theorem int_effBinCount (hs : Samples k s lo hi) (hf : SpanFits k lo hi) (hn' : n ≤ maxInt) :
    effBinCount (intNumber k) s n = linCount lo hi n := by
  unfold effBinCount linCount
  rw [int_correctionApplies hs hf, int_span hs hf]
  by_cases hc : hi - lo < n
  · simp only [hc, decide_True, if_true]
    have hle := hs.lo_le_hi
    unfold maxInt at hn'
    exact wrapInt_of_range _ (by omega) (by omega)
  · simp [hc]

theorem int_effMax (hs : Samples k s lo hi) (hf : SpanFits k lo hi) :
    effMax (intNumber k) s n = k.wrap (linTop lo hi n) := by
  unfold effMax linTop
  rw [int_correctionApplies hs hf, maxSlice_int k s lo hi hs]
  by_cases hc : hi - lo < n
  · simp only [hc, decide_True, if_true]
    show k.wrap (hi + k.wrap 1) = k.wrap (hi + 1)
    rw [k.wrap_of_inRange 1 ⟨by have := k.minVal_le; omega, by have := k.maxVal_ge; omega⟩]
  · simp only [hc, decide_False, if_false]
    exact (k.wrap_of_inRange hi hs.hi_inRange).symm

theorem int_effMax_exact (hs : Samples k s lo hi) (hf : SpanFits k lo hi)
    (ht : TopFits k lo hi n) : effMax (intNumber k) s n = linTop lo hi n := by
  rw [int_effMax hs hf]
  apply k.wrap_of_inRange
  have hr := hs.hi_inRange
  unfold linTop
  by_cases hc : hi - lo < n
  · rw [if_pos hc]
    exact ⟨by have := hr.1; omega, ht hc⟩
  · rw [if_neg hc]; exact hr

theorem int_spacing (hs : Samples k s lo hi) (hf : SpanFits k lo hi)
    (ht : TopFits k lo hi n) (hn : 1 ≤ n) (hn' : n ≤ maxInt) :
    (intNumber k).div ((intNumber k).sub (effMax (intNumber k) s n) (minSlice (intNumber k) s))
      ((intNumber k).ofInt (effBinCount (intNumber k) s n)) = some (linSpacing lo hi n) := by
  rw [int_effBinCount hs hf hn', int_effMax hs hf, minSlice_int k s lo hi hs]
  have hle := hs.lo_le_hi
  unfold linTop linCount linSpacing
  by_cases hc : hi - lo < n
  · simp only [if_pos hc]
    show (if k.wrap (hi - lo + 1) = 0 then none
      else some (k.wrap (Int.tdiv (k.wrap (k.wrap (hi + 1) - lo)) (k.wrap (hi - lo + 1)))))
        = some 1
    have hx : k.wrap (hi - lo + 1) ≠ 0 :=
      k.wrap_ne_zero _ (by omega) (by have := hf.1; omega)
        (fun h0 => by have := hs.lo_inRange.1; have := ht hc; omega)
    rw [if_neg hx, k.wrap_sub_wrap]
    have e : hi + 1 - lo = hi - lo + 1 := by ring
    rw [e, Int.tdiv_self hx]
    rw [k.wrap_of_inRange 1 ⟨by have := k.minVal_le; omega, by have := k.maxVal_ge; omega⟩]
  · simp only [if_neg hc]
    have hnr : k.InRange n := ⟨by have := k.minVal_le; omega, by have := hf.1; omega⟩
    have hdr : k.InRange (hi - lo) := ⟨by have := k.minVal_le; omega, hf.1⟩
    show (if k.wrap n = 0 then none
      else some (k.wrap (Int.tdiv (k.wrap (k.wrap hi - lo)) (k.wrap n)))) = some _
    rw [k.wrap_of_inRange n hnr, k.wrap_sub_wrap, k.wrap_of_inRange _ hdr, if_neg (by omega)]
    have h0 : (0 : Int) ≤ hi - lo := by omega
    have hn0 : (0 : Int) ≤ n := by omega
    have hq0 : 0 ≤ (hi - lo) / n := Int.ediv_nonneg h0 hn0
    have hq1 : (hi - lo) / n * n ≤ hi - lo := Int.ediv_mul_le _ (by omega)
    have hq2 : (hi - lo) / n ≤ hi - lo := by nlinarith
    rw [Int.tdiv_eq_ediv h0 hn0,
      k.wrap_of_inRange _ ⟨by have := k.minVal_le; omega, by have := hf.1; omega⟩]

theorem int_low (hs : Samples k s lo hi) (hf : SpanFits k lo hi) (hn : 1 ≤ n) (i : Nat)
    (hi' : (i : Int) < linCount lo hi n) :
    (intNumber k).add (minSlice (intNumber k) s)
      ((intNumber k).mul ((intNumber k).ofInt (i : Int)) (linSpacing lo hi n))
      = linLow lo hi n i := by
  rw [minSlice_int k s lo hi hs]
  have hle := hs.lo_le_hi
  obtain ⟨h1, h2, h3, h4, h5⟩ := lin_facts lo hi n hle hn
  obtain ⟨b0, b1⟩ := lin_index_bound lo hi n hle hn i hi'
  have hmin := k.minVal_le
  have hlo := hs.lo_inRange
  have hhi := hs.hi_inRange
  have hi0 : (0 : Int) ≤ i := Int.ofNat_nonneg i
  have hir : k.InRange (i : Int) := by
    refine ⟨by omega, ?_⟩
    have : (i : Int) ≤ (i : Int) * linSpacing lo hi n := by nlinarith
    have := hf.1
    omega
  show k.wrap (lo + k.wrap (k.wrap (i : Int) * linSpacing lo hi n)) = linLow lo hi n i
  rw [k.wrap_of_inRange _ hir,
    k.wrap_of_inRange ((i : Int) * linSpacing lo hi n) ⟨by omega, by have := hf.1; omega⟩,
    k.wrap_of_inRange (lo + (i : Int) * linSpacing lo hi n)
      ⟨by have := hlo.1; omega, by have := hhi.2; omega⟩]
  rfl

end IntExact

/-! ## The binning loop over increasing integer edges -/

section IntAssign

theorem assign_int (k : IntKind) (ret : Histogram Int) (low : Nat → Int) (v : Int)
    (hne : ret ≠ [])
    (hlow : ∀ i b, ret[i]? = some b → b.Low = low i)
    (hmono : ∀ i j, i < j → low i < low j)
    (hv : low 0 ≤ v) :
    ∃ i, i < ret.length ∧ low i ≤ v ∧ (i + 1 < ret.length → v < low (i + 1)) ∧
      assign (intNumber k) ret v = modifyAt ret i (fun b => b.add (intNumber k) v) := by
  rw [assign_eq]
  cases ret with
  | nil => exact absurd rfl hne
  | cons first rest =>
    have hfirst : first.Low = low 0 := hlow 0 first (by simp)
    have hmono' : ∀ i j, i ≤ j → low i ≤ low j := by
      intro i j hij
      rcases Nat.eq_or_lt_of_le hij with e | e
      · rw [e]
      · exact le_of_lt (hmono i j e)
    simp only [List.head?_cons]
    by_cases hlt : (intNumber k).lt first.Low v = true
    · rw [if_pos hlt]
      have hlt' : low 0 < v := by
        rw [← hfirst]; simpa [intNumber] using hlt
      obtain ⟨g, hg⟩ : ∃ g : Nat → Bool, g = lowAbove (intNumber k) (first :: rest) v :=
        ⟨_, rfl⟩
      rw [← hg]
      have hgi : ∀ i, i < (first :: rest).length → g i = decide (v < low i) := by
        intro i hi
        rw [hg]
        simp only [lowAbove, List.get?_eq_getElem?, List.getElem?_eq_getElem hi]
        rw [hlow i _ (List.getElem?_eq_getElem hi)]
        rfl
      have hmonog : ∀ a b, a ≤ b → b < (first :: rest).length → g a = true → g b = true := by
        intro a b hab hb ha
        rw [hgi a (by omega)] at ha
        rw [hgi b hb]
        simp only [decide_eq_true_eq] at ha ⊢
        have := hmono' a b hab
        omega
      have hg0 : g 0 = false := by
        rw [hgi 0 (by simp)]
        simp only [decide_eq_false_iff_not]
        omega
      have hpos := Search_pos (first :: rest).length g hg0 (by simp)
      have hle := Search_le (first :: rest).length g
      obtain ⟨hs1, hs2⟩ := Search_spec (first :: rest).length g hmonog
      refine ⟨Search (first :: rest).length g - 1, by omega, ?_, ?_, ?_⟩
      · have := hs1 (Search (first :: rest).length g - 1) (by omega)
        rw [hgi _ (by omega)] at this
        simpa using this
      · intro hnext
        have e : Search (first :: rest).length g - 1 + 1 = Search (first :: rest).length g := by
          omega
        rw [e] at hnext ⊢
        have := hs2 (Search (first :: rest).length g) (le_refl _) hnext
        rw [hgi _ hnext] at this
        simpa using this
      · unfold updateAt
        rw [if_neg (by omega)]
        congr 1
        omega
    · rw [if_neg hlt]
      have hv0 : v = low 0 := by
        have : ¬ low 0 < v := by
          intro h; apply hlt; rw [hfirst]; simpa [intNumber] using h
        omega
      refine ⟨0, by simp, hv, ?_, ?_⟩
      · intro _
        rw [hv0]
        exact hmono 0 1 (by omega)
      · unfold updateAt
        rw [if_neg (by omega)]
        rfl

theorem slotCount_cons (low : Nat → Int) (len i : Nat) (v : Int) (s : List Int) :
    slotCount low len i (v :: s) =
      slotCount low len i s +
        (if low i ≤ v ∧ (i + 1 < len → v < low (i + 1)) then 1 else 0) := by
  unfold slotCount
  rw [List.countP_cons]
  simp only [decide_eq_true_eq]

theorem foldlM_assign_int (k : IntKind) (low : Nat → Int)
    (hmono : ∀ i j, i < j → low i < low j) :
    ∀ (s : List Int) (ret : Histogram Int), ret ≠ [] →
      (∀ i b, ret[i]? = some b → b.Low = low i) →
      (∀ v, v ∈ s → low 0 ≤ v) →
      ∃ h, s.foldlM (assign (intNumber k)) ret = some h ∧
        ∀ i, (h[i]?).map Bucket.Count =
          (ret[i]?).map (fun b => b.Count + slotCount low ret.length i s)
  | [], ret, _, _, _ => by
    refine ⟨ret, rfl, ?_⟩
    intro i
    cases ret[i]? <;> simp [slotCount]
  | v :: s, ret, hne, hlow, hv => by
    have hmono' : ∀ i j, i ≤ j → low i ≤ low j := by
      intro i j hij
      rcases Nat.eq_or_lt_of_le hij with e | e
      · rw [e]
      · exact le_of_lt (hmono i j e)
    obtain ⟨i0, hi0, hs1, hs2, hassign⟩ :=
      assign_int k ret low v hne hlow hmono (hv v (List.mem_cons_self v s))
    obtain ⟨r1, hr1⟩ := modifyAt_of_lt ret i0 (fun b => b.add (intNumber k) v) hi0
    have hlen1 := modifyAt_length _ _ _ _ hr1
    have hget1 := modifyAt_getElem? _ _ _ _ hr1
    have hne1 : r1 ≠ [] := by
      intro h
      rw [h] at hlen1
      exact hne (List.length_eq_zero.mp hlen1.symm)
    have hlow1 : ∀ i b, r1[i]? = some b → b.Low = low i := by
      intro i b hb
      rw [hget1 i] at hb
      split at hb
      · cases hx : ret[i]? with
        | none => rw [hx] at hb; cases hb
        | some b0 =>
          rw [hx] at hb
          simp only [Option.map_some', Option.some.injEq] at hb
          rw [← hb, Bucket.add_Low]
          exact hlow i b0 hx
      · exact hlow i b hb
    obtain ⟨h, hfold, hcount⟩ := foldlM_assign_int k low hmono s r1 hne1 hlow1
      (fun w hw => hv w (List.mem_cons_of_mem v hw))
    refine ⟨h, ?_, ?_⟩
    · simp only [List.foldlM_cons]
      rw [hassign, hr1]
      exact hfold
    · intro i
      rw [hcount i, hget1 i, hlen1, slotCount_cons]
      by_cases hi : i < ret.length
      · have hex : ret[i]? = some ret[i] := List.getElem?_eq_getElem hi
        rw [hex]
        by_cases hii : i = i0
        · subst hii
          rw [if_pos rfl, if_pos ⟨hs1, hs2⟩]
          simp only [Option.map_some', Bucket.add_Count, Option.some.injEq]
          omega
        · rw [if_neg hii]
          have hnot : ¬ (low i ≤ v ∧ (i + 1 < ret.length → v < low (i + 1))) := by
            rintro ⟨a1, a2⟩
            rcases Nat.lt_or_gt_of_ne hii with hlt | hgt
            · have := a2 (by omega)
              have := hmono' (i + 1) i0 (by omega)
              omega
            · have := hs2 (by omega)
              have := hmono' (i0 + 1) i (by omega)
              omega
          rw [if_neg hnot]
          simp
      · have hex : ret[i]? = none := List.getElem?_eq_none (by omega)
        rw [hex]
        split <;> simp

end IntAssign

/-! ## The linear histogram of an integer slice -/

section IntLinear

variable {k : IntKind} {s : List Int} {lo hi n : Int}

/-- Without overflow, `CreateLinear` on an integer slice returns, and every
column of the result is known: the low edges `linLow`, the high edges (the
next low edge, `linTop` for the last bucket) and the counts `slotCount`. -/
theorem createLinear_int (hs : Samples k s lo hi)
    (hf : SpanFits k lo hi) (ht : TopFits k lo hi n) (hn : 1 ≤ n) (hn' : n ≤ maxInt) :
    ∃ h, CreateLinear (intNumber k) s n = some h ∧
      h.length = (linCount lo hi n).toNat ∧
      ∀ i b, h[i]? = some b →
        b.Low = linLow lo hi n i ∧
        b.High = (if i + 1 < h.length then linLow lo hi n (i + 1) else linTop lo hi n) ∧
        b.Count = slotCount (linLow lo hi n) h.length i s := by
  have hle := hs.lo_le_hi
  obtain ⟨f1, f2, f3, f4, f5⟩ := lin_facts lo hi n hle hn
  have heff := int_effBinCount (n := n) hs hf hn'
  have hsp := int_spacing hs hf ht hn hn'
  obtain ⟨h, hh⟩ := create_linear_isSome (intNumber k)
    (noFloat ((intNumber k).ofInt 0)) (ltAsymm_intNumber k) s n hs.ne_nil
    (by rw [heff]; exact f2) (by rw [hsp]; rfl)
  obtain ⟨ret, r1, r2, r3, r4, _, r6, r7, r8⟩ :=
    create_some (intNumber k) (noFloat ((intNumber k).ofInt 0)) s n none none h hs.ne_nil hh
  obtain ⟨sp, hsp', hlows⟩ := r8 rfl
  rw [hsp] at hsp'
  have hspe : sp = linSpacing lo hi n := by
    simp only [Option.some.injEq] at hsp'; exact hsp'.symm
  subst hspe
  rw [heff] at r2 r7 hlows
  rw [int_effMax_exact hs hf ht] at r4
  obtain ⟨i1, i2, i3, _⟩ := foldlM_assign_inv (intNumber k) s ret h r6
  have hlen : h.length = (linCount lo hi n).toNat := by rw [i1, r2]
  have hmono : ∀ i j, i < j → linLow lo hi n i < linLow lo hi n j :=
    fun i j hij => linLow_strictMono lo hi n hle hn i j hij
  -- the low column of the slice the loop starts from
  have hretLow : ∀ i b, ret[i]? = some b → b.Low = linLow lo hi n i := by
    intro i b hb
    have e1 : (ret.map Bucket.Low)[i]? = some b.Low := by simp [List.getElem?_map, hb]
    rw [hlows] at e1
    have hib : i < (linCount lo hi n).toNat := by
      by_contra hc
      have : ret[i]? = none := List.getElem?_eq_none (by omega)
      rw [this] at hb; cases hb
    rw [List.getElem?_map, List.getElem?_range' _ _ hib] at e1
    simp only [Option.map_some', Option.some.injEq, Nat.zero_add, Nat.one_mul] at e1
    rw [← e1]
    exact int_low hs hf hn i (by omega)
  have hretne : ret ≠ [] := by
    intro h0
    rw [h0] at r2
    simp at r2
    omega
  have hv : ∀ v, v ∈ s → linLow lo hi n 0 ≤ v := by
    intro v hv
    have := hs.lo_le v hv
    simp only [linLow, Nat.cast_zero, zero_mul, add_zero]
    exact this
  obtain ⟨h', hfold', hcount⟩ := foldlM_assign_int k (linLow lo hi n) hmono s ret hretne hretLow hv
  rw [r6] at hfold'
  simp only [Option.some.injEq] at hfold'
  subst hfold'
  refine ⟨h, hh, hlen, ?_⟩
  intro i b hb
  have hib : i < h.length := by
    by_contra hc
    have : h[i]? = none := List.getElem?_eq_none (by omega)
    rw [this] at hb; cases hb
  have hri : i < ret.length := by omega
  refine ⟨?_, ?_, ?_⟩
  · -- Low
    have e1 : (h.map Bucket.Low)[i]? = some b.Low := by simp [List.getElem?_map, hb]
    rw [i2, List.getElem?_map, List.getElem?_eq_getElem hri] at e1
    simp only [Option.map_some', Option.some.injEq] at e1
    rw [← e1]
    exact hretLow i _ (List.getElem?_eq_getElem hri)
  · -- High
    by_cases hnext : i + 1 < h.length
    · rw [if_pos hnext]
      have hc := contiguous_of_maps i2 i3 r3
      have hb1 : h[i + 1]? = some h[i + 1] := List.getElem?_eq_getElem hnext
      rw [hc i b _ hb hb1]
      have e1 : (h.map Bucket.Low)[i + 1]? = some (h[i + 1]).Low := by
        simp [List.getElem?_map, hb1]
      rw [i2, List.getElem?_map, List.getElem?_eq_getElem (by omega : i + 1 < ret.length)] at e1
      simp only [Option.map_some', Option.some.injEq] at e1
      rw [← e1]
      exact hretLow (i + 1) _ (List.getElem?_eq_getElem (by omega))
    · rw [if_neg hnext]
      have e1 : (h.map Bucket.High).getLast? = some (linTop lo hi n) := by rw [i3, r4]
      rw [List.getLast?_eq_getElem?, List.length_map, List.getElem?_map] at e1
      have e2 : h.length - 1 = i := by omega
      rw [e2, hb] at e1
      simpa using e1
  · -- Count
    have e1 := hcount i
    rw [hb, List.getElem?_eq_getElem hri] at e1
    simp only [Option.map_some', Option.some.injEq] at e1
    have e0 : (ret.map Bucket.Count)[i]? = some (ret[i]).Count := by
      simp [List.getElem?_map, List.getElem?_eq_getElem hri]
    rw [r7, List.getElem?_replicate] at e0
    rw [if_pos (by omega)] at e0
    simp only [Option.some.injEq] at e0
    rw [e1, ← e0, i1]
    simp

end IntLinear

/-! ## `CreateLinear` and `CreateLog` -/

section Entry

variable {T F : Type}

theorem setFirstLow_totalCount (x : T) (h : Histogram T) :
    totalCount (setFirstLow x h) = totalCount h := by
  cases h <;> rfl

theorem setFirstLow_length (x : T) (h : Histogram T) :
    (setFirstLow x h).length = h.length := by
  cases h <;> rfl

theorem setFirstLow_map_High (x : T) (h : Histogram T) :
    (setFirstLow x h).map Bucket.High = h.map Bucket.High := by
  cases h <;> rfl

theorem setFirstLow_contiguous (x : T) (h : Histogram T) (hc : Contiguous h) :
    Contiguous (setFirstLow x h) := by
  cases h with
  | nil => exact hc
  | cons a rest =>
    intro i b c hb hcc
    simp only [setFirstLow, List.getElem?_cons_succ] at hcc
    cases i with
    | zero =>
      simp only [setFirstLow, List.getElem?_cons_zero, Option.some.injEq] at hb
      subst hb
      exact hc 0 a c (by simp) (by simpa using hcc)
    | succ i =>
      simp only [setFirstLow, List.getElem?_cons_succ] at hb
      exact hc (i + 1) b c (by simpa using hb) (by simpa using hcc)

/-- A histogram returned by `CreateLog` is one returned by `create`, with the
first low edge overwritten. -/
theorem createLog_some (num : Number T) (fl : Float64 F T) (s : List T) (n : Int)
    (h : Histogram T) (hc : CreateLog num fl s n = some h) :
    ∃ before after h0, create num fl s n (some before) (some after) = some h0 ∧
      h = setFirstLow (logScan num s).2.2 h0 := by
  unfold CreateLog at hc
  simp only [Option.map_eq_some'] at hc
  obtain ⟨h0, hh0, rfl⟩ := hc
  exact ⟨_, _, h0, hh0, rfl⟩

/-- The constructor `CreateLog` returns as soon as the effective bucket count is positive. -/
theorem createLog_isSome (num : Number T) (fl : Float64 F T) (hasym : LtAsymm num)
    (s : List T) (n : Int) (hs : s ≠ []) (he : 1 ≤ effBinCount num s n) :
    ∃ h, CreateLog num fl s n = some h := by
  unfold CreateLog
  obtain ⟨h0, hh0⟩ := create_calc_isSome num fl hasym s n
    (fun x => fl.log10 (fl.ofT (if num.lt x (logScan num s).1 then (logScan num s).1 else x)))
    (fun x => roundIfInt num fl (fl.pow10 x)) hs he
  exact ⟨setFirstLow (logScan num s).2.2 h0, by simp only []; rw [hh0]; rfl⟩

end Entry

/-! ## C1: every sample is counted once -/

/-- C1: for every sample kind, every non-empty sample slice and every
`binCount ≥ 1`, a histogram returned by `CreateLinear`, and likewise one
returned by `CreateLog`, has counts that add up to `len(samples)`.  The last
two parts say when a histogram is returned: always when the comparison is
asymmetric, the bucket count after the integer correction is positive and, in
the linear case, the spacing division does not fault. -/
theorem create_counts_total {T F : Type} (num : Number T) (fl : Float64 F T)
    (samples : List T) (binCount : Int) (hne : samples ≠ []) (hb : 1 ≤ binCount) :
    (∀ h, CreateLinear num samples binCount = some h → totalCount h = samples.length) ∧
    (∀ h, CreateLog num fl samples binCount = some h → totalCount h = samples.length) ∧
    (LtAsymm num → 1 ≤ effBinCount num samples binCount →
      (num.div (num.sub (effMax num samples binCount) (minSlice num samples))
        (num.ofInt (effBinCount num samples binCount))).isSome = true →
      ∃ h, CreateLinear num samples binCount = some h) ∧
    (LtAsymm num → 1 ≤ effBinCount num samples binCount →
      ∃ h, CreateLog num fl samples binCount = some h) := by
  have _ := hb
  refine ⟨?_, ?_, ?_, ?_⟩
  · intro h hc
    exact (create_inv num _ samples binCount none none h hne hc).2.2.2.2
  · intro h hc
    obtain ⟨before, after, h0, hh0, rfl⟩ := createLog_some num fl samples binCount h hc
    rw [setFirstLow_totalCount]
    exact (create_inv num fl samples binCount _ _ h0 hne hh0).2.2.2.2
  · intro hasym he hdiv
    exact create_linear_isSome num _ hasym samples binCount hne he hdiv
  · intro hasym he
    exact createLog_isSome num fl hasym samples binCount hne he

/-- C1 at `[]int{1, 10, 100, 1000, 5, 50}` with 3 buckets: both constructors
return and the six samples are counted. -/
theorem create_counts_total_witness :
    ([1, 10, 100, 1000, 5, 50] : List Int) ≠ [] ∧ (1 : Int) ≤ 3 ∧
    (∃ h, CreateLinear (intNumber IntKind.int) [1, 10, 100, 1000, 5, 50] 3 = some h ∧
      totalCount h = 6) ∧
    (∃ h, CreateLog (intNumber IntKind.int) intFloat [1, 10, 100, 1000, 5, 50] 3 = some h ∧
      totalCount h = 6) :=
  ⟨by decide, by decide,
    ⟨_, rfl,
      (create_counts_total (intNumber IntKind.int) intFloat [1, 10, 100, 1000, 5, 50] 3
        (by decide) (by decide)).1 _ rfl⟩,
    ⟨_, rfl,
      (create_counts_total (intNumber IntKind.int) intFloat [1, 10, 100, 1000, 5, 50] 3
        (by decide) (by decide)).2.1 _ rfl⟩⟩

theorem floatKind_ratNumber : FloatKind ratNumber := by
  refine ⟨?_, ?_, fun _ _ => rfl⟩
  · simp only [isInt, ratNumber]
    norm_num
  · intro a b h
    simp only [ratNumber, decide_eq_true_eq, decide_eq_false_iff_not] at h ⊢
    exact not_lt_of_lt h

theorem effBinCount_of_not_isInt {T : Type} (num : Number T) (s : List T) (n : Int)
    (h : isInt num = false) : effBinCount num s n = n := by
  unfold effBinCount correctionApplies
  rw [h]
  rfl

theorem effMax_of_not_isInt {T : Type} (num : Number T) (s : List T) (n : Int)
    (h : isInt num = false) : effMax num s n = maxSlice num s := by
  unfold effMax correctionApplies
  rw [h]
  rfl

/-- A floating-point kind never panics in `CreateLinear`, and keeps the
requested bucket count. -/
theorem createLinear_float {T : Type} (num : Number T) (hk : FloatKind num)
    (s : List T) (n : Int) (hs : s ≠ []) (hn : 1 ≤ n) :
    ∃ h, CreateLinear num s n = some h ∧ (h.length : Int) = n := by
  have he := effBinCount_of_not_isInt num s n hk.notInt
  obtain ⟨h, hh⟩ := create_linear_isSome num (noFloat (num.ofInt 0)) hk.ltAsymm s n hs
    (by rw [he]; exact hn) (hk.divTotal _ _)
  refine ⟨h, hh, ?_⟩
  have := (create_inv num _ s n none none h hs hh).2.1
  rw [this, he]
  omega

theorem getElem?_lt {α : Type} {l : List α} {i : Nat} {a : α} (h : l[i]? = some a) :
    i < l.length := by
  by_contra hc
  have : l[i]? = none := List.getElem?_eq_none (by omega)
  rw [this] at h; cases h

theorem samples_pair (k : IntKind) (a b : Int) (hab : a ≤ b) (ha : k.InRange a)
    (hb : k.InRange b) : Samples k [a, b] a b :=
  ⟨by intro v hv; simp only [List.mem_cons, List.mem_singleton, List.not_mem_nil, or_false] at hv
      rcases hv with rfl | rfl
      · exact ha
      · exact hb,
    by simp,
    by intro v hv; simp only [List.mem_cons, List.mem_singleton, List.not_mem_nil, or_false] at hv
       rcases hv with rfl | rfl <;> omega,
    by simp,
    by intro v hv; simp only [List.mem_cons, List.mem_singleton, List.not_mem_nil, or_false] at hv
       rcases hv with rfl | rfl <;> omega⟩

/-! ## C2: number of buckets -/

/-- C2 (amended): for an integer slice with minimum `lo` and maximum `hi`
and `1 ≤ n`, where `hi - lo` is representable in the sample kind and in `int`
and, when `hi - lo < n`, so is `hi + 1` in the sample kind, `CreateLinear`
returns exactly `n` buckets when `hi - lo ≥ n` and exactly `hi - lo + 1`
buckets when `hi - lo < n`; for a floating-point kind it returns exactly `n`
buckets. -/
theorem createLinear_length :
    (∀ (k : IntKind) (samples : List Int) (lo hi n : Int),
      Samples k samples lo hi → SpanFits k lo hi → TopFits k lo hi n →
      1 ≤ n → n ≤ maxInt →
      ∃ h, CreateLinear (intNumber k) samples n = some h ∧
        ((h.length : Int) = if hi - lo < n then hi - lo + 1 else n) ∧
        1 ≤ (h.length : Int) ∧ (h.length : Int) ≤ n) ∧
    (∀ (T : Type) (num : Number T) (samples : List T) (n : Int),
      FloatKind num → samples ≠ [] → 1 ≤ n →
      ∃ h, CreateLinear num samples n = some h ∧ (h.length : Int) = n) := by
  constructor
  · intro k samples lo hi n hs hf ht hn hn'
    obtain ⟨h, hh, hlen, _⟩ := createLinear_int hs hf ht hn hn'
    have h2 := (lin_facts lo hi n hs.lo_le_hi hn).2.1
    have h3 := (lin_facts lo hi n hs.lo_le_hi hn).2.2.1
    have e : (h.length : Int) = linCount lo hi n := by rw [hlen]; omega
    refine ⟨h, hh, ?_, by omega, by omega⟩
    rw [e]
    rfl
  · intro T num samples n hk hs hn
    exact createLinear_float num hk samples n hs hn

/-- C2 at `[]int{0, 1}` with 5 buckets (two buckets are returned) and at the
rational slice `[0, 1]` with 5 buckets. -/
theorem createLinear_length_witness :
    (∃ h, CreateLinear (intNumber IntKind.int) [0, 1] 5 = some h ∧
      ((h.length : Int) = if (1 : Int) - 0 < 5 then 1 - 0 + 1 else 5) ∧
      1 ≤ (h.length : Int) ∧ (h.length : Int) ≤ 5) ∧
    (∃ h, CreateLinear ratNumber [0, 1] 5 = some h ∧ (h.length : Int) = 5) :=
  ⟨createLinear_length.1 IntKind.int [0, 1] 0 1 5
      (samples_pair IntKind.int 0 1 (by decide) (by decide) (by decide))
      (by decide) (by decide) (by decide) (by decide),
    createLinear_length.2 Rat ratNumber [0, 1] 5 floatKind_ratNumber (by decide) (by decide)⟩

/-- C2 as stated fails: `[]int{-2^62, 2^62}` has `hi - lo = 2^63 ≥ 3`, yet with
3 buckets `max - min` wraps to a negative number, the correction sets a
negative bucket count and `make` panics. -/
theorem createLinear_length_counterexample :
    Samples IntKind.int [-4611686018427387904, 4611686018427387904]
      (-4611686018427387904) 4611686018427387904 ∧
    (3 : Int) ≤ 4611686018427387904 - (-4611686018427387904) ∧
    CreateLinear (intNumber IntKind.int) [-4611686018427387904, 4611686018427387904] 3 = none :=
  ⟨samples_pair IntKind.int _ _ (by decide) (by decide) (by decide), by decide, by decide⟩

/-! ## C3: what each bucket counts -/

/-- C3 (amended): for an integer slice with minimum `lo` and maximum `hi`
and `1 ≤ n`, where `hi - lo` is representable in the sample kind and in `int`
and, when `hi - lo < n`, so is `hi + 1` in the sample kind, `CreateLinear`
returns a histogram in which every bucket but the last counts the samples `v`
with `Low ≤ v < High`, and the last bucket counts those with
`Low ≤ v ≤ High`. -/
theorem createLinear_counts (k : IntKind) (samples : List Int) (lo hi n : Int)
    (hs : Samples k samples lo hi) (hf : SpanFits k lo hi) (ht : TopFits k lo hi n)
    (hn : 1 ≤ n) (hn' : n ≤ maxInt) :
    ∃ h, CreateLinear (intNumber k) samples n = some h ∧
      ∀ i b, h[i]? = some b →
        b.Count = samples.countP (fun v =>
          if i + 1 < h.length then decide (b.Low ≤ v ∧ v < b.High)
          else decide (b.Low ≤ v ∧ v ≤ b.High)) := by
  obtain ⟨h, hh, hlen, hcols⟩ := createLinear_int hs hf ht hn hn'
  refine ⟨h, hh, ?_⟩
  intro i b hb
  obtain ⟨hLow, hHigh, hCount⟩ := hcols i b hb
  rw [hCount]
  unfold slotCount
  apply List.countP_congr
  intro v hv
  by_cases hnext : i + 1 < h.length
  · rw [if_pos hnext] at hHigh
    simp only [hnext, if_true, decide_eq_true_eq, hLow, hHigh, forall_const]
  · rw [if_neg hnext] at hHigh
    simp only [hnext, if_false, decide_eq_true_eq, hLow, hHigh, false_implies, and_true]
    have := hs.le_hi v hv
    have htop : hi ≤ linTop lo hi n := by unfold linTop; split <;> omega
    constructor
    · intro h1; exact ⟨h1, by omega⟩
    · intro h1; exact h1.1

/-- C3 at `[]int{0, 0, 1, 2, 8}` with 4 buckets. -/
theorem createLinear_counts_witness :
    ∃ h, CreateLinear (intNumber IntKind.int) [0, 0, 1, 2, 8] 4 = some h ∧
      ∀ i b, h[i]? = some b →
        b.Count = ([0, 0, 1, 2, 8] : List Int).countP (fun v =>
          if i + 1 < h.length then decide (b.Low ≤ v ∧ v < b.High)
          else decide (b.Low ≤ v ∧ v ≤ b.High)) :=
  createLinear_counts IntKind.int [0, 0, 1, 2, 8] 0 8 4
    ⟨by decide, by decide, by decide, by decide, by decide⟩
    (by decide) (by decide) (by decide) (by decide)

/-- C3 as stated fails: for `[]int{2^63 - 6, 2^63 - 1}` with 10 buckets,
`max++` wraps to `-2^63`; the last bucket has `Low = 2^63 - 1`,
`High = -2^63` and counts one sample, while no sample lies in
`Low ≤ v ≤ High`. -/
theorem createLinear_counts_counterexample :
    ∃ h b, CreateLinear (intNumber IntKind.int)
        [9223372036854775802, 9223372036854775807] 10 = some h ∧
      h.length = 6 ∧ h[5]? = some b ∧ b.Count = 1 ∧
      ([9223372036854775802, 9223372036854775807] : List Int).countP
        (fun v => decide (b.Low ≤ v ∧ v ≤ b.High)) = 0 :=
  ⟨_, _, rfl, rfl, rfl, rfl, by decide⟩

/-! ## C4: consecutive buckets share an edge -/

/-- C4: for every sample kind, every non-empty sample slice and every
`binCount ≥ 1`, a histogram `h` returned by `CreateLinear` or by `CreateLog`
has `h[i].High` equal to `h[i+1].Low` for every `i` with `i + 1 < len(h)`;
the overwrite of `h[0].Low` in `CreateLog` does not touch any of these. -/
theorem create_contiguous {T F : Type} (num : Number T) (fl : Float64 F T)
    (samples : List T) (binCount : Int) (hne : samples ≠ []) (hb : 1 ≤ binCount) :
    (∀ h, CreateLinear num samples binCount = some h →
      ∀ i b c, h[i]? = some b → h[i + 1]? = some c → b.High = c.Low) ∧
    (∀ h, CreateLog num fl samples binCount = some h →
      ∀ i b c, h[i]? = some b → h[i + 1]? = some c → b.High = c.Low) := by
  have _ := hb
  constructor
  · intro h hc
    exact (create_inv num _ samples binCount none none h hne hc).2.2.1
  · intro h hc
    obtain ⟨before, after, h0, hh0, rfl⟩ := createLog_some num fl samples binCount h hc
    exact setFirstLow_contiguous _ h0
      (create_inv num fl samples binCount _ _ h0 hne hh0).2.2.1

/-- C4 at `[]int{0, 1, 10, 100, 1000, 5, 50}` with 3 buckets: both
constructors return, `CreateLog` with the first low edge overwritten by 0. -/
theorem create_contiguous_witness :
    ([0, 1, 10, 100, 1000, 5, 50] : List Int) ≠ [] ∧ (1 : Int) ≤ 3 ∧
    (∃ h, CreateLinear (intNumber IntKind.int) [0, 1, 10, 100, 1000, 5, 50] 3 = some h ∧
      ∀ i b c, h[i]? = some b → h[i + 1]? = some c → b.High = c.Low) ∧
    (∃ h, CreateLog (intNumber IntKind.int) intFloat [0, 1, 10, 100, 1000, 5, 50] 3 = some h ∧
      h.map Bucket.Low = [0, 10, 100] ∧
      ∀ i b c, h[i]? = some b → h[i + 1]? = some c → b.High = c.Low) :=
  ⟨by decide, by decide,
    ⟨_, rfl,
      (create_contiguous (intNumber IntKind.int) intFloat [0, 1, 10, 100, 1000, 5, 50] 3
        (by decide) (by decide)).1 _ rfl⟩,
    ⟨_, rfl, rfl,
      (create_contiguous (intNumber IntKind.int) intFloat [0, 1, 10, 100, 1000, 5, 50] 3
        (by decide) (by decide)).2 _ rfl⟩⟩

/-! ## C5: the edges bracket the data -/

/-- The integer half of C5: without overflow the first low edge is the
minimum and the last high edge is at least the maximum. -/
theorem createLinear_brackets_int (k : IntKind) (samples : List Int) (lo hi n : Int)
    (hs : Samples k samples lo hi) (hf : SpanFits k lo hi) (ht : TopFits k lo hi n)
    (hn : 1 ≤ n) (hn' : n ≤ maxInt) :
    ∃ h, CreateLinear (intNumber k) samples n = some h ∧
      ∀ first last, h.head? = some first → h.getLast? = some last →
        first.Low ≤ lo ∧ first.Low = lo ∧ hi ≤ last.High := by
  obtain ⟨h, hh, hlen, hcols⟩ := createLinear_int hs hf ht hn hn'
  refine ⟨h, hh, ?_⟩
  intro first last hfirst hlast
  rw [List.head?_eq_getElem?] at hfirst
  rw [List.getLast?_eq_getElem?] at hlast
  obtain ⟨hLow, _, _⟩ := hcols 0 first hfirst
  obtain ⟨_, hHigh, _⟩ := hcols (h.length - 1) last hlast
  have hpos := getElem?_lt hfirst
  rw [if_neg (by omega)] at hHigh
  have hlow0 : linLow lo hi n 0 = lo := by simp [linLow]
  have htop : hi ≤ linTop lo hi n := by unfold linTop; split <;> omega
  rw [hLow, hHigh, hlow0]
  exact ⟨le_refl _, rfl, htop⟩

theorem ltAsymm_fltNumber : LtAsymm fltNumber := by
  intro a b h
  cases a <;> cases b <;> simp only [fltNumber, Flt.lt, decide_eq_true_eq,
    decide_eq_false_iff_not, Bool.false_eq_true] at h ⊢
  omega

theorem floatKind_fltNumber : FloatKind fltNumber :=
  ⟨by decide, ltAsymm_fltNumber, fun _ _ => rfl⟩

/-- The floating half of C5: a floating-point kind gets the first low edge
`min + T(0)*spacing` and the last high edge `max`. -/
theorem createLinear_float_edges {T : Type} (num : Number T) (hk : FloatKind num)
    (s : List T) (n : Int) (hs : s ≠ []) (hn : 1 ≤ n) :
    ∃ h sp first last, CreateLinear num s n = some h ∧
      h.head? = some first ∧ h.getLast? = some last ∧
      num.div (num.sub (maxSlice num s) (minSlice num s)) (num.ofInt n) = some sp ∧
      first.Low = num.add (minSlice num s) (num.mul (num.ofInt 0) sp) ∧
      last.High = maxSlice num s := by
  obtain ⟨h, hh, hlen⟩ := createLinear_float num hk s n hs hn
  have he := effBinCount_of_not_isInt num s n hk.notInt
  have hm := effMax_of_not_isInt num s n hk.notInt
  obtain ⟨ret, r1, r2, _, _, _, r6, _, r8⟩ :=
    create_some num (noFloat (num.ofInt 0)) s n none none h hs hh
  obtain ⟨sp, hsp, hlows⟩ := r8 rfl
  obtain ⟨i1, i2, i3, _⟩ := foldlM_assign_inv num s ret h r6
  have hinv := (create_inv num _ s n none none h hs hh).2.2.2.1
  rw [he] at hsp hlows r2
  rw [hm] at hsp hinv
  have hpos : 0 < h.length := by omega
  obtain ⟨first, hfirst⟩ : ∃ first, h[0]? = some first :=
    ⟨h[0], List.getElem?_eq_getElem hpos⟩
  obtain ⟨last, hlast⟩ : ∃ last, h.getLast? = some last := by
    cases hl : h.getLast? with
    | none =>
      have := List.getLast?_eq_none_iff.mp hl
      rw [this] at hpos; simp at hpos
    | some last => exact ⟨last, rfl⟩
  refine ⟨h, sp, first, last, hh, by rw [List.head?_eq_getElem?]; exact hfirst, hlast, hsp,
    ?_, ?_⟩
  · have e1 : (h.map Bucket.Low)[0]? = some first.Low := by
      simp [List.getElem?_map, hfirst]
    rw [i2, hlows, List.getElem?_map, List.getElem?_range' _ _ (by omega)] at e1
    simp only [Option.map_some', Option.some.injEq, Nat.zero_add, Nat.mul_zero,
      Nat.cast_zero] at e1
    exact e1.symm
  · rw [List.getLast?_map, hlast] at hinv
    simpa using hinv

/-- C5 (amended): for an integer slice with minimum `lo` and maximum `hi`
and `1 ≤ n`, where `hi - lo` is representable in the sample kind and in `int`
and, when `hi - lo < n`, so is `hi + 1` in the sample kind, `CreateLinear`
returns a histogram whose first low edge is at most `lo` (it is `lo`) and
whose last high edge is at least `hi`.  For a floating-point kind, a
non-empty slice and `n ≥ 1` it returns a histogram whose first low edge is
`min + T(0)*spacing` and whose last high edge is `max`, so the edges bracket
the data (`Low <= min`, `max <= High` as Go compares) whenever these compare
equal to `min` and to `max`: no NaN among them and a finite spacing. -/
theorem createLinear_brackets :
    (∀ (k : IntKind) (samples : List Int) (lo hi n : Int),
      Samples k samples lo hi → SpanFits k lo hi → TopFits k lo hi n →
      1 ≤ n → n ≤ maxInt →
      ∃ h, CreateLinear (intNumber k) samples n = some h ∧
        ∀ first last, h.head? = some first → h.getLast? = some last →
          first.Low ≤ lo ∧ first.Low = lo ∧ hi ≤ last.High) ∧
    (∀ (T : Type) (num : Number T) (samples : List T) (n : Int),
      FloatKind num → samples ≠ [] → 1 ≤ n →
      ∃ h sp first last, CreateLinear num samples n = some h ∧
        h.head? = some first ∧ h.getLast? = some last ∧
        num.div (num.sub (maxSlice num samples) (minSlice num samples)) (num.ofInt n)
          = some sp ∧
        first.Low = num.add (minSlice num samples) (num.mul (num.ofInt 0) sp) ∧
        last.High = maxSlice num samples ∧
        (num.eq (num.add (minSlice num samples) (num.mul (num.ofInt 0) sp))
            (minSlice num samples) = true →
          num.le first.Low (minSlice num samples) = true) ∧
        (num.eq (maxSlice num samples) (maxSlice num samples) = true →
          num.le (maxSlice num samples) last.High = true)) := by
  constructor
  · intro k samples lo hi n hs hf ht hn hn'
    exact createLinear_brackets_int k samples lo hi n hs hf ht hn hn'
  · intro T num samples n hk hs hn
    obtain ⟨h, sp, first, last, hh, hfirst, hlast, hsp, hLow, hHigh⟩ :=
      createLinear_float_edges num hk samples n hs hn
    refine ⟨h, sp, first, last, hh, hfirst, hlast, hsp, hLow, hHigh, ?_, ?_⟩
    · intro he
      unfold Number.le
      rw [hLow, he, Bool.or_true]
    · intro he
      unfold Number.le
      rw [hHigh, he, Bool.or_true]

/-- C5 at `[]int{0, 1}` with 5 buckets, and at the floating slice `[0, 1]`
with 4 buckets (low edges 0, 1/4, 1/2, 3/4, last high edge 1). -/
theorem createLinear_brackets_witness :
    (∃ h, CreateLinear (intNumber IntKind.int) [0, 1] 5 = some h ∧
      ∀ first last, h.head? = some first → h.getLast? = some last →
        first.Low ≤ 0 ∧ first.Low = 0 ∧ 1 ≤ last.High) ∧
    CreateLinear fltNumber [Flt.fin 0 1, Flt.fin 1 1] 4 ≠ none ∧
    fltNumber.eq (minSlice fltNumber [Flt.fin 0 1, Flt.fin 1 1])
      (minSlice fltNumber [Flt.fin 0 1, Flt.fin 1 1]) = true ∧
    ∃ h sp first last, CreateLinear fltNumber [Flt.fin 0 1, Flt.fin 1 1] 4 = some h ∧
      h.head? = some first ∧ h.getLast? = some last ∧
      fltNumber.div
        (fltNumber.sub (maxSlice fltNumber [Flt.fin 0 1, Flt.fin 1 1])
          (minSlice fltNumber [Flt.fin 0 1, Flt.fin 1 1])) (fltNumber.ofInt 4) = some sp ∧
      first.Low = fltNumber.add (minSlice fltNumber [Flt.fin 0 1, Flt.fin 1 1])
        (fltNumber.mul (fltNumber.ofInt 0) sp) ∧
      last.High = maxSlice fltNumber [Flt.fin 0 1, Flt.fin 1 1] ∧
      (fltNumber.eq (fltNumber.add (minSlice fltNumber [Flt.fin 0 1, Flt.fin 1 1])
            (fltNumber.mul (fltNumber.ofInt 0) sp))
          (minSlice fltNumber [Flt.fin 0 1, Flt.fin 1 1]) = true →
        fltNumber.le first.Low (minSlice fltNumber [Flt.fin 0 1, Flt.fin 1 1]) = true) ∧
      (fltNumber.eq (maxSlice fltNumber [Flt.fin 0 1, Flt.fin 1 1])
          (maxSlice fltNumber [Flt.fin 0 1, Flt.fin 1 1]) = true →
        fltNumber.le (maxSlice fltNumber [Flt.fin 0 1, Flt.fin 1 1]) last.High = true) :=
  ⟨createLinear_brackets.1 IntKind.int [0, 1] 0 1 5
      (samples_pair IntKind.int 0 1 (by decide) (by decide) (by decide))
      (by decide) (by decide) (by decide) (by decide),
    by decide, by decide,
    createLinear_brackets.2 Flt fltNumber [Flt.fin 0 1, Flt.fin 1 1] 4 floatKind_fltNumber
      (by decide) (by decide)⟩

/-- C5 as stated fails.  For `[]uint8{250, 255}` with 10 buckets `max++`
wraps to 0, so the last high edge is 0, below the maximum 255.  For the
floating slice `[0, +Inf]` with 2 buckets the spacing is `+Inf` and the first
low edge is `0 + 0*Inf`, which is NaN: `Low <= min` is false.  For the
floating slice `[1, NaN]` with 1 bucket the maximum and the last high edge
are NaN: `max <= High` is false. -/
theorem createLinear_brackets_counterexample :
    (∃ h last, CreateLinear (intNumber IntKind.uint8) [250, 255] 10 = some h ∧
      h.getLast? = some last ∧ last.High = 0 ∧
      maxSlice (intNumber IntKind.uint8) [250, 255] = 255 ∧
      ¬ (maxSlice (intNumber IntKind.uint8) [250, 255] ≤ last.High)) ∧
    (∃ h first, CreateLinear fltNumber [Flt.fin 0 1, Flt.posInf] 2 = some h ∧
      h.head? = some first ∧ first.Low = Flt.nan ∧
      minSlice fltNumber [Flt.fin 0 1, Flt.posInf] = Flt.fin 0 1 ∧
      fltNumber.le first.Low (minSlice fltNumber [Flt.fin 0 1, Flt.posInf]) = false) ∧
    (∃ h last, CreateLinear fltNumber [Flt.fin 1 1, Flt.nan] 1 = some h ∧
      h.getLast? = some last ∧ last.High = Flt.nan ∧
      maxSlice fltNumber [Flt.fin 1 1, Flt.nan] = Flt.nan ∧
      fltNumber.le (maxSlice fltNumber [Flt.fin 1 1, Flt.nan]) last.High = false) :=
  ⟨⟨_, _, rfl, rfl, rfl, rfl, by decide⟩,
    ⟨_, _, rfl, rfl, rfl, rfl, by decide⟩,
    ⟨_, _, rfl, rfl, rfl, rfl, by decide⟩⟩

/-! ## C6: the last high edge -/

/-- C6 (amended): for every sample kind, every non-empty slice and
`binCount ≥ 1`, the `High` of the last bucket returned by `CreateLinear` is
the maximum of the samples when the integer edge-count correction does not
apply (so for every floating-point kind), and the maximum plus one when it
does apply. -/
theorem createLinear_last_high {T : Type} (num : Number T)
    (samples : List T) (binCount : Int) (hne : samples ≠ []) (hb : 1 ≤ binCount) :
    (∀ h last, CreateLinear num samples binCount = some h → h.getLast? = some last →
      last.High =
        if isInt num &&
            decide (num.toInt (num.sub (maxSlice num samples) (minSlice num samples))
              < binCount)
        then num.add (maxSlice num samples) (num.ofInt 1)
        else maxSlice num samples) ∧
    (isInt num = false →
      ∀ h last, CreateLinear num samples binCount = some h → h.getLast? = some last →
        last.High = maxSlice num samples) := by
  have _ := hb
  have key : ∀ h last, CreateLinear num samples binCount = some h → h.getLast? = some last →
      last.High = effMax num samples binCount := by
    intro h last hc hlast
    have := (create_inv num _ samples binCount none none h hne hc).2.2.2.1
    rw [List.getLast?_map, hlast] at this
    simpa using this
  constructor
  · intro h last hc hlast
    exact key h last hc hlast
  · intro hni h last hc hlast
    rw [key h last hc hlast, effMax_of_not_isInt num samples binCount hni]

/-- C6 at `[]int{0, 0, 1, 2, 8}` with 4 buckets: no correction, the last high
edge is the maximum 8. -/
theorem createLinear_last_high_witness :
    ([0, 0, 1, 2, 8] : List Int) ≠ [] ∧ (1 : Int) ≤ 4 ∧
    ∃ h last, CreateLinear (intNumber IntKind.int) [0, 0, 1, 2, 8] 4 = some h ∧
      h.getLast? = some last ∧ last.High = 8 :=
  ⟨by decide, by decide, _, _, rfl, rfl,
    ((createLinear_last_high (intNumber IntKind.int) [0, 0, 1, 2, 8] 4
      (by decide) (by decide)).1 _ _ rfl rfl).trans (by decide)⟩

/-- C6 as stated fails: for `[]int{0, 1}` with 5 buckets the correction
applies and the last high edge is 2, not the maximum 1 (the package test
expects the edges `[0 1 2]`). -/
theorem createLinear_last_high_counterexample :
    ∃ h last, CreateLinear (intNumber IntKind.int) [0, 1] 5 = some h ∧
      h.getLast? = some last ∧ last.High = 2 ∧
      maxSlice (intNumber IntKind.int) [0, 1] = 1 ∧ Edges h = [0, 1, 2] :=
  ⟨_, _, rfl, rfl, rfl, rfl, rfl⟩

/-! ## C7: a range narrower than the bucket count -/

/-- C7 (amended): for an integer slice with minimum `lo` and maximum `hi`
and a bucket count `n > hi - lo`, where `hi - lo` is representable in the
sample kind and in `int` and `hi + 1` is representable in the sample kind,
`CreateLinear` returns `hi - lo + 1` buckets; bucket `i` has `Low = lo + i`,
`High = lo + i + 1` and counts exactly the samples equal to `lo + i`. -/
theorem createLinear_narrow (k : IntKind) (samples : List Int) (lo hi n : Int)
    (hs : Samples k samples lo hi) (hf : SpanFits k lo hi) (ht : hi + 1 ≤ k.maxVal)
    (hc : hi - lo < n) (hn' : n ≤ maxInt) :
    ∃ h, CreateLinear (intNumber k) samples n = some h ∧
      (h.length : Int) = hi - lo + 1 ∧
      ∀ (i : Nat) b, h[i]? = some b →
        b.Low = lo + i ∧ b.High = lo + i + 1 ∧ b.Count = samples.count (lo + i) := by
  have hle := hs.lo_le_hi
  obtain ⟨h, hh, hlen, hcols⟩ := createLinear_int hs hf (fun _ => ht) (by omega) hn'
  have hcnt : linCount lo hi n = hi - lo + 1 := by unfold linCount; rw [if_pos hc]
  have hsp : linSpacing lo hi n = 1 := by unfold linSpacing; rw [if_pos hc]
  have hlow : ∀ j : Nat, linLow lo hi n j = lo + j := by
    intro j; unfold linLow; rw [hsp]; ring
  have hlenI : (h.length : Int) = hi - lo + 1 := by rw [hlen, hcnt]; omega
  refine ⟨h, hh, hlenI, ?_⟩
  intro i b hb
  obtain ⟨hLow, hHigh, hCount⟩ := hcols i b hb
  have hib := getElem?_lt hb
  refine ⟨by rw [hLow, hlow], ?_, ?_⟩
  · rw [hHigh]
    split
    · rw [hlow]; push_cast; ring
    · unfold linTop
      rw [if_pos hc]
      omega
  · rw [hCount, List.count_eq_countP]
    unfold slotCount
    apply List.countP_congr
    intro v hv
    have h1 := hs.le_hi v hv
    simp only [decide_eq_true_eq, beq_iff_eq, hlow]
    constructor
    · rintro ⟨a1, a2⟩
      by_cases hnext : i + 1 < h.length
      · have := a2 hnext
        push_cast at this
        omega
      · omega
    · intro e
      subst e
      refine ⟨le_refl _, fun _ => ?_⟩
      push_cast
      omega

/-- C7 at `[]int{0, 1}` with 5 buckets. -/
theorem createLinear_narrow_witness :
    ∃ h, CreateLinear (intNumber IntKind.int) [0, 1] 5 = some h ∧
      (h.length : Int) = 1 - 0 + 1 ∧
      ∀ (i : Nat) b, h[i]? = some b →
        b.Low = 0 + i ∧ b.High = 0 + i + 1 ∧ b.Count = ([0, 1] : List Int).count (0 + (i : Int)) :=
  createLinear_narrow IntKind.int [0, 1] 0 1 5
    (samples_pair IntKind.int 0 1 (by decide) (by decide) (by decide))
    (by decide) (by decide) (by decide) (by decide)

/-- C7 as stated fails: for `[]uint8{0, 255}` with 256 buckets the corrected
bucket count 256 converts to `uint8(256) = 0` and the spacing division
panics; no histogram is returned. -/
theorem createLinear_narrow_counterexample :
    Samples IntKind.uint8 [0, 255] 0 255 ∧ (255 : Int) - 0 < 256 ∧
    CreateLinear (intNumber IntKind.uint8) [0, 255] 256 = none :=
  ⟨samples_pair IntKind.uint8 0 255 (by decide) (by decide) (by decide), by decide, by decide⟩

/-! ## C8: the low edges when the range is wide enough -/

/-- C8 (amended): for an integer slice with minimum `lo` and maximum `hi`,
where `hi - lo` is representable in the sample kind and in `int`, and
`1 ≤ n ≤ hi - lo`, `CreateLinear` returns `n` buckets and bucket `i` has
`Low = lo + i * ((hi - lo) / n)` with truncating division; `[0,0,1,2,8]` with
4 buckets gives the edges `[0,2,4,6,8]` and the counts `[3,1,0,1]`. -/
theorem createLinear_lows (k : IntKind) (samples : List Int) (lo hi n : Int)
    (hs : Samples k samples lo hi) (hf : SpanFits k lo hi) (hn : 1 ≤ n) (hc : n ≤ hi - lo) :
    (∃ h, CreateLinear (intNumber k) samples n = some h ∧
      (h.length : Int) = n ∧
      ∀ (i : Nat) b, h[i]? = some b → b.Low = lo + i * Int.tdiv (hi - lo) n) ∧
    (CreateLinear (intNumber IntKind.int) [0, 0, 1, 2, 8] 4).map
      (fun h => (Edges h, h.map Bucket.Count)) = some ([0, 2, 4, 6, 8], [3, 1, 0, 1]) := by
  refine ⟨?_, by decide⟩
  have hn' : n ≤ maxInt := by have := hf.2; omega
  obtain ⟨h, hh, hlen, hcols⟩ := createLinear_int hs hf (fun hlt => by omega) hn hn'
  have hcnt : linCount lo hi n = n := by unfold linCount; rw [if_neg (by omega)]
  have hsp : linSpacing lo hi n = Int.tdiv (hi - lo) n := by
    unfold linSpacing; rw [if_neg (by omega)]
  refine ⟨h, hh, by rw [hlen, hcnt]; omega, ?_⟩
  intro i b hb
  rw [(hcols i b hb).1]
  unfold linLow
  rw [hsp]

/-- C8 at `[]int{0, 0, 1, 2, 8}` with 4 buckets. -/
theorem createLinear_lows_witness :
    ∃ h, CreateLinear (intNumber IntKind.int) [0, 0, 1, 2, 8] 4 = some h ∧
      (h.length : Int) = 4 ∧
      ∀ (i : Nat) b, h[i]? = some b → b.Low = 0 + i * Int.tdiv (8 - 0) 4 :=
  (createLinear_lows IntKind.int [0, 0, 1, 2, 8] 0 8 4
    ⟨by decide, by decide, by decide, by decide, by decide⟩
    (by decide) (by decide) (by decide)).1

/-- C8 as stated fails: for `[]int8{-100, 100}` with 3 buckets (`3 ≤ 200`),
`max - min` wraps to `-56`, the correction sets the bucket count to `-55` and
`make` panics; no low edge is set. -/
theorem createLinear_lows_counterexample :
    Samples IntKind.int8 [-100, 100] (-100) 100 ∧ (1 : Int) ≤ 3 ∧ (3 : Int) ≤ 100 - (-100) ∧
    CreateLinear (intNumber IntKind.int8) [-100, 100] 3 = none :=
  ⟨samples_pair IntKind.int8 (-100) 100 (by decide) (by decide) (by decide),
    by decide, by decide, by decide⟩

/-! ## C9: ordered edges -/

/-- A span that fits the sample kind but not `int` (only possible for the
64-bit unsigned kinds) makes `int(max-min)` negative: the correction then
sets a negative bucket count and `make` panics. -/
theorem createLinear_int_wrapped {k : IntKind} {s : List Int} {lo hi n : Int}
    (hs : Samples k s lo hi) (h1 : hi - lo + 1 ≤ k.maxVal) (h2 : maxInt < hi - lo)
    (hn : 1 ≤ n) : CreateLinear (intNumber k) s n = none := by
  cases hc : CreateLinear (intNumber k) s n with
  | none => rfl
  | some h =>
    exfalso
    have hpos := (create_inv (intNumber k) _ s n none none h hs.ne_nil hc).1
    have hmax := k.maxVal_le
    have hmin := k.minVal_le
    unfold maxInt at h2
    have hspan : (intNumber k).toInt
        ((intNumber k).sub (maxSlice (intNumber k) s) (minSlice (intNumber k) s))
        = hi - lo - 18446744073709551616 := by
      rw [minSlice_int k s lo hi hs, maxSlice_int k s lo hi hs]
      show wrapInt (k.wrap (hi - lo)) = _
      rw [k.wrap_of_inRange _ ⟨by omega, by omega⟩]
      unfold wrapInt wrapS
      norm_num
      omega
    have hcorr : correctionApplies (intNumber k) s n = true := by
      unfold correctionApplies
      rw [hspan, isInt_intNumber]
      simp only [Bool.true_and, decide_eq_true_eq]
      omega
    unfold effBinCount at hpos
    rw [hcorr, if_pos rfl, hspan] at hpos
    have : wrapInt (hi - lo - 18446744073709551616 + 1) = hi - lo - 18446744073709551616 + 1 :=
      wrapInt_of_range _ (by omega) (by omega)
    rw [this] at hpos
    omega

/-- C9 (amended): for an integer slice with minimum `lo` and maximum `hi`
and `1 ≤ n`, where `hi - lo + 1` is representable in the sample kind and, when
`hi - lo < n`, so is `hi + 1`, every bucket of a histogram returned by
`CreateLinear` has `Low ≤ High` and the low edges increase strictly; a
histogram is returned whenever `hi - lo` is also representable in `int`. -/
theorem createLinear_ordered (k : IntKind) (samples : List Int) (lo hi n : Int)
    (hs : Samples k samples lo hi) (hspan : hi - lo + 1 ≤ k.maxVal)
    (ht : TopFits k lo hi n) (hn : 1 ≤ n) (hn' : n ≤ maxInt) :
    (∀ h, CreateLinear (intNumber k) samples n = some h →
      (∀ b, b ∈ h → b.Low ≤ b.High) ∧
      (∀ (i j : Nat) (bi bj : Bucket Int), i < j → h[i]? = some bi → h[j]? = some bj →
        bi.Low < bj.Low)) ∧
    (hi - lo ≤ maxInt → ∃ h, CreateLinear (intNumber k) samples n = some h) := by
  have hle := hs.lo_le_hi
  constructor
  · intro h hc
    by_cases hfit : hi - lo ≤ maxInt
    · have hf : SpanFits k lo hi := ⟨by omega, hfit⟩
      obtain ⟨h', hh', hlen, hcols⟩ := createLinear_int hs hf ht hn hn'
      rw [hc] at hh'
      simp only [Option.some.injEq] at hh'
      subst hh'
      have hmono := fun i j hij => linLow_strictMono lo hi n hle hn i j hij
      constructor
      · intro b hb
        obtain ⟨i, hib⟩ := List.mem_iff_getElem?.mp hb
        obtain ⟨hLow, hHigh, _⟩ := hcols i b hib
        have hilt := getElem?_lt hib
        rw [hLow, hHigh]
        split
        · exact le_of_lt (hmono i (i + 1) (by omega))
        · obtain ⟨_, _, _, _, f5⟩ := lin_facts lo hi n hle hn
          have hb1 := (lin_index_bound lo hi n hle hn i (by omega)).2
          have htop : hi ≤ linTop lo hi n := by unfold linTop; split <;> omega
          unfold linLow
          omega
      · intro i j bi bj hij hbi hbj
        rw [(hcols i bi hbi).1, (hcols j bj hbj).1]
        exact hmono i j hij
    · rw [createLinear_int_wrapped hs hspan (by omega) hn] at hc
      cases hc
  · intro hfit
    obtain ⟨h, hh, _⟩ := createLinear_int hs ⟨by omega, hfit⟩ ht hn hn'
    exact ⟨h, hh⟩

/-- C9 at `[]int{0, 0, 1, 2, 8}` with 4 buckets. -/
theorem createLinear_ordered_witness :
    ∃ h, CreateLinear (intNumber IntKind.int) [0, 0, 1, 2, 8] 4 = some h ∧
      (∀ b, b ∈ h → b.Low ≤ b.High) ∧
      (∀ (i j : Nat) (bi bj : Bucket Int), i < j → h[i]? = some bi → h[j]? = some bj →
        bi.Low < bj.Low) :=
  ⟨_, rfl,
    (createLinear_ordered IntKind.int [0, 0, 1, 2, 8] 0 8 4
      ⟨by decide, by decide, by decide, by decide, by decide⟩
      (by decide) (by decide) (by decide) (by decide)).1 _ rfl⟩

/-- C9 as stated fails: for `[]int16{32760, 32767}` with 10 buckets,
`hi - lo + 1 = 8` does not overflow, but `max++` wraps to `-32768`: the last
bucket has `Low = 32767` and `High = -32768`. -/
theorem createLinear_ordered_counterexample :
    Samples IntKind.int16 [32760, 32767] 32760 32767 ∧
    (32767 : Int) - 32760 + 1 ≤ IntKind.int16.maxVal ∧
    ∃ h last, CreateLinear (intNumber IntKind.int16) [32760, 32767] 10 = some h ∧
      h.getLast? = some last ∧ last.Low = 32767 ∧ last.High = -32768 ∧
      ¬ (last.Low ≤ last.High) :=
  ⟨samples_pair IntKind.int16 32760 32767 (by decide) (by decide) (by decide), by decide,
    _, _, rfl, rfl, rfl, rfl, by decide⟩

/-! ## C10: the statistics kept by `Bucket.add` -/

/-- In an integer kind the package's `sum` is the exact sum reduced into the
kind; it is the exact sum whenever every running sum is representable. -/
theorem sum_intNumber (k : IntKind) (vs : List Int) :
    sum (intNumber k) vs = k.wrap vs.sum := by
  have hadd : ∀ a b : Int, k.wrap (k.wrap a + b) = k.wrap (a + b) := by
    intro a b
    unfold IntKind.wrap wrapS wrapU
    cases k <;> simp only [IntKind.signed, IntKind.bits] <;> norm_num <;> omega
  have key : ∀ (l : List Int) (a : Int),
      l.foldl (intNumber k).add (k.wrap a) = k.wrap (a + l.sum) := by
    intro l
    induction l with
    | nil => intro a; simp
    | cons x xs ih =>
      intro a
      simp only [List.foldl_cons, List.sum_cons]
      show xs.foldl (intNumber k).add (k.wrap (k.wrap a + x)) = _
      rw [hadd, ih]
      congr 1
      ring
  have := key vs 0
  simpa [sum, intNumber] using this

section BucketAdd

variable {T : Type} [LinearOrder T]

/-- One call of `add` on a bucket that summarises the values `seen`. -/
theorem Bucket.add_step (num : Number T) (hlt : ∀ a b, num.lt a b = decide (a < b))
    (b : Bucket T) (seen : List T) (v : T)
    (hcount : b.Count = seen.length)
    (hstat : seen ≠ [] → (b.Min ∈ seen ∧ ∀ x, x ∈ seen → b.Min ≤ x) ∧
      (b.Max ∈ seen ∧ ∀ x, x ∈ seen → x ≤ b.Max)) :
    ((b.add num v).Min ∈ seen ++ [v] ∧ ∀ x, x ∈ seen ++ [v] → (b.add num v).Min ≤ x) ∧
    ((b.add num v).Max ∈ seen ++ [v] ∧ ∀ x, x ∈ seen ++ [v] → x ≤ (b.add num v).Max) := by
  unfold Bucket.add
  simp only [hlt, decide_eq_true_eq]
  cases seen with
  | nil =>
    simp only [List.length_nil] at hcount
    simp [hcount]
  | cons y ys =>
    obtain ⟨⟨hm1, hm2⟩, ⟨hM1, hM2⟩⟩ := hstat (List.cons_ne_nil y ys)
    have hmM : b.Min ≤ b.Max := hM2 _ hm1
    have hc : ¬ b.Count + 1 = 1 := by
      rw [hcount]; simp
    rw [if_neg hc]
    by_cases h1 : v < b.Min
    · rw [if_pos h1]
      simp only [List.mem_append, List.mem_singleton]
      refine ⟨⟨Or.inr trivial, ?_⟩, ⟨Or.inl hM1, ?_⟩⟩
      · rintro x (hx | rfl)
        · exact le_of_lt (lt_of_lt_of_le h1 (hm2 x hx))
        · exact le_refl _
      · rintro x (hx | rfl)
        · exact hM2 x hx
        · exact le_of_lt (lt_of_lt_of_le h1 hmM)
    · rw [if_neg h1]
      by_cases h2 : b.Max < v
      · rw [if_pos h2]
        simp only [List.mem_append, List.mem_singleton]
        refine ⟨⟨Or.inl hm1, ?_⟩, ⟨Or.inr trivial, ?_⟩⟩
        · rintro x (hx | rfl)
          · exact hm2 x hx
          · exact le_of_not_lt h1
        · rintro x (hx | rfl)
          · exact le_of_lt (lt_of_le_of_lt (hM2 x hx) h2)
          · exact le_refl _
      · rw [if_neg h2]
        simp only [List.mem_append, List.mem_singleton]
        refine ⟨⟨Or.inl hm1, ?_⟩, ⟨Or.inl hM1, ?_⟩⟩
        · rintro x (hx | rfl)
          · exact hm2 x hx
          · exact le_of_not_lt h1
        · rintro x (hx | rfl)
          · exact hM2 x hx
          · exact le_of_not_lt h2

theorem Bucket.add_foldl (num : Number T) (hlt : ∀ a b, num.lt a b = decide (a < b)) :
    ∀ (vs seen : List T) (b : Bucket T),
      b.Count = seen.length →
      b.Sum = seen.foldl num.add (num.ofInt 0) →
      (seen ≠ [] → (b.Min ∈ seen ∧ ∀ x, x ∈ seen → b.Min ≤ x) ∧
        (b.Max ∈ seen ∧ ∀ x, x ∈ seen → x ≤ b.Max)) →
      (vs.foldl (fun b v => b.add num v) b).Count = (seen ++ vs).length ∧
      (vs.foldl (fun b v => b.add num v) b).Sum = (seen ++ vs).foldl num.add (num.ofInt 0) ∧
      (seen ++ vs ≠ [] →
        ((vs.foldl (fun b v => b.add num v) b).Min ∈ seen ++ vs ∧
          ∀ x, x ∈ seen ++ vs → (vs.foldl (fun b v => b.add num v) b).Min ≤ x) ∧
        ((vs.foldl (fun b v => b.add num v) b).Max ∈ seen ++ vs ∧
          ∀ x, x ∈ seen ++ vs → x ≤ (vs.foldl (fun b v => b.add num v) b).Max))
  | [], seen, b, h1, h2, h3 => by
    simp only [List.foldl_nil, List.append_nil]
    exact ⟨h1, h2, h3⟩
  | v :: vs, seen, b, h1, h2, h3 => by
    have e : seen ++ v :: vs = (seen ++ [v]) ++ vs := by simp
    rw [e, List.foldl_cons]
    apply Bucket.add_foldl num hlt vs (seen ++ [v]) (b.add num v)
    · rw [Bucket.add_Count, h1]; simp
    · rw [Bucket.add_Sum, h2, List.foldl_append]; rfl
    · intro _
      exact Bucket.add_step num hlt b seen v h1 h3

end BucketAdd

/-- The statistics of `Bucket.add` for a kind whose `<` is a linear order
(every integer kind), with the order of the kind itself. -/
theorem bucket_add_stats_linear {T : Type} [LinearOrder T] (num : Number T)
    (hlt : ∀ a b, num.lt a b = decide (a < b)) (vs : List T) (hne : vs ≠ []) :
    (vs.foldl (fun b v => b.add num v) (Bucket.zero num)).Count = vs.length ∧
    (vs.foldl (fun b v => b.add num v) (Bucket.zero num)).Sum = sum num vs ∧
    ((vs.foldl (fun b v => b.add num v) (Bucket.zero num)).Min ∈ vs ∧
      ∀ x, x ∈ vs → (vs.foldl (fun b v => b.add num v) (Bucket.zero num)).Min ≤ x) ∧
    ((vs.foldl (fun b v => b.add num v) (Bucket.zero num)).Max ∈ vs ∧
      ∀ x, x ∈ vs → x ≤ (vs.foldl (fun b v => b.add num v) (Bucket.zero num)).Max) ∧
    (vs.foldl (fun b v => b.add num v) (Bucket.zero num)).Min ≤
      (vs.foldl (fun b v => b.add num v) (Bucket.zero num)).Max := by
  obtain ⟨h1, h2, h3⟩ := Bucket.add_foldl num hlt vs [] (Bucket.zero num) rfl rfl
    (fun h => absurd rfl h)
  simp only [List.nil_append] at h1 h2 h3
  obtain ⟨hmin, hmax⟩ := h3 hne
  exact ⟨h1, h2, hmin, hmax, hmax.2 _ hmin.1⟩

theorem lt_trans_intNumber (k : IntKind) (a b c : Int)
    (h1 : (intNumber k).lt a b = true) (h2 : (intNumber k).lt b c = true) :
    (intNumber k).lt a c = true := by
  simp only [intNumber, decide_eq_true_eq] at h1 h2 ⊢
  omega


theorem totalOn_intNumber (k : IntKind) (vs : List Int) : TotalOn (intNumber k) vs :=
  ⟨fun a _ b _ h => ltAsymm_intNumber k a b h,
    fun a _ b _ c _ h1 h2 => lt_trans_intNumber k a b c h1 h2,
    fun a _ b _ => by
      simp only [intNumber, decide_eq_true_eq]
      omega⟩

section BucketAddTotal

variable {T : Type}

/-- One call of `add` on a bucket whose `Min` and `Max` are values seen with
none below `Min` and none above `Max`. -/
theorem Bucket.add_step_total (num : Number T) (all : List T) (ht : TotalOn num all)
    (b : Bucket T) (seen : List T) (v : T)
    (hsub : ∀ x, x ∈ seen → x ∈ all) (hv : v ∈ all)
    (hcount : b.Count = seen.length)
    (hstat : seen ≠ [] → (b.Min ∈ seen ∧ ∀ x, x ∈ seen → num.lt x b.Min = false) ∧
      (b.Max ∈ seen ∧ ∀ x, x ∈ seen → num.lt b.Max x = false)) :
    ((b.add num v).Min ∈ seen ++ [v] ∧
      ∀ x, x ∈ seen ++ [v] → num.lt x (b.add num v).Min = false) ∧
    ((b.add num v).Max ∈ seen ++ [v] ∧
      ∀ x, x ∈ seen ++ [v] → num.lt (b.add num v).Max x = false) := by
  have hirr : num.lt v v = false := by
    cases h : num.lt v v with
    | false => rfl
    | true => rw [← h]; exact ht.asymm v hv v hv h
  unfold Bucket.add
  cases seen with
  | nil =>
    simp only [List.length_nil] at hcount
    simp [hcount, hirr]
  | cons y ys =>
    obtain ⟨⟨hm1, hm2⟩, ⟨hM1, hM2⟩⟩ := hstat (List.cons_ne_nil y ys)
    have hmA := hsub _ hm1
    have hMA := hsub _ hM1
    have hc : ¬ b.Count + 1 = 1 := by
      rw [hcount]; simp
    cases h1 : num.lt v b.Min with
    | true =>
      simp only [hc, h1, if_false, if_true, List.mem_append, List.mem_singleton]
      refine ⟨⟨Or.inr trivial, ?_⟩, ⟨Or.inl hM1, ?_⟩⟩
      · rintro x (hx | rfl)
        · cases hxv : num.lt x v with
          | false => rfl
          | true =>
            have := ht.trans x (hsub x hx) v hv b.Min hmA hxv h1
            rw [hm2 x hx] at this; cases this
        · exact hirr
      · rintro x (hx | rfl)
        · exact hM2 x hx
        · cases hMv : num.lt b.Max x with
          | false => rfl
          | true =>
            have := ht.trans b.Max hMA x hv b.Min hmA hMv h1
            rw [hm2 _ hM1] at this; cases this
    | false =>
      cases h2 : num.lt b.Max v with
      | true =>
        simp only [hc, h1, h2, if_false, if_true, Bool.false_eq_true, List.mem_append,
          List.mem_singleton]
        refine ⟨⟨Or.inl hm1, ?_⟩, ⟨Or.inr trivial, ?_⟩⟩
        · rintro x (hx | rfl)
          · exact hm2 x hx
          · exact h1
        · rintro x (hx | rfl)
          · cases hvx : num.lt v x with
            | false => rfl
            | true =>
              have := ht.trans b.Max hMA v hv x (hsub x hx) h2 hvx
              rw [hM2 x hx] at this; cases this
          · exact hirr
      | false =>
        simp only [hc, h1, h2, if_false, Bool.false_eq_true, List.mem_append,
          List.mem_singleton]
        refine ⟨⟨Or.inl hm1, ?_⟩, ⟨Or.inl hM1, ?_⟩⟩
        · rintro x (hx | rfl)
          · exact hm2 x hx
          · exact h1
        · rintro x (hx | rfl)
          · exact hM2 x hx
          · exact h2

theorem Bucket.add_foldl_total (num : Number T) (all : List T) (ht : TotalOn num all) :
    ∀ (vs seen : List T) (b : Bucket T),
      (∀ x, x ∈ seen ++ vs → x ∈ all) →
      b.Count = seen.length →
      b.Sum = seen.foldl num.add (num.ofInt 0) →
      (seen ≠ [] → (b.Min ∈ seen ∧ ∀ x, x ∈ seen → num.lt x b.Min = false) ∧
        (b.Max ∈ seen ∧ ∀ x, x ∈ seen → num.lt b.Max x = false)) →
      (vs.foldl (fun b v => b.add num v) b).Count = (seen ++ vs).length ∧
      (vs.foldl (fun b v => b.add num v) b).Sum = (seen ++ vs).foldl num.add (num.ofInt 0) ∧
      (seen ++ vs ≠ [] →
        ((vs.foldl (fun b v => b.add num v) b).Min ∈ seen ++ vs ∧
          ∀ x, x ∈ seen ++ vs →
            num.lt x (vs.foldl (fun b v => b.add num v) b).Min = false) ∧
        ((vs.foldl (fun b v => b.add num v) b).Max ∈ seen ++ vs ∧
          ∀ x, x ∈ seen ++ vs →
            num.lt (vs.foldl (fun b v => b.add num v) b).Max x = false))
  | [], seen, b, _, h1, h2, h3 => by
    simp only [List.foldl_nil, List.append_nil]
    exact ⟨h1, h2, h3⟩
  | v :: vs, seen, b, hsub, h1, h2, h3 => by
    have e : seen ++ v :: vs = (seen ++ [v]) ++ vs := by simp
    rw [e, List.foldl_cons]
    apply Bucket.add_foldl_total num all ht vs (seen ++ [v]) (b.add num v)
    · intro x hx
      exact hsub x (by rw [e]; exact hx)
    · rw [Bucket.add_Count, h1]; simp
    · rw [Bucket.add_Sum, h2, List.foldl_append]; rfl
    · intro _
      exact Bucket.add_step_total num all ht b seen v
        (fun x hx => hsub x (List.mem_append_left _ hx))
        (hsub v (by simp)) h1 h3

end BucketAddTotal

/-- C10 (amended): for every non-empty sequence of values that the kind's
comparisons order totally (every sequence of an integer kind, and every
floating-point sequence without NaN), added one after another with
`Bucket.add` to a zero-valued bucket, the bucket ends with `Count` the number
of values, `Sum` their sum (as the package's `sum` adds them up), `Min` their
minimum and `Max` their maximum: each is one of the values, `Min <= v` and
`v <= Max` for every value `v`, and `Min <= Max`. -/
theorem bucket_add_stats {T : Type} (num : Number T) (vs : List T) (hne : vs ≠ [])
    (ht : TotalOn num vs) :
    (vs.foldl (fun b v => b.add num v) (Bucket.zero num)).Count = vs.length ∧
    (vs.foldl (fun b v => b.add num v) (Bucket.zero num)).Sum = sum num vs ∧
    ((vs.foldl (fun b v => b.add num v) (Bucket.zero num)).Min ∈ vs ∧
      ∀ x, x ∈ vs →
        num.le (vs.foldl (fun b v => b.add num v) (Bucket.zero num)).Min x = true) ∧
    ((vs.foldl (fun b v => b.add num v) (Bucket.zero num)).Max ∈ vs ∧
      ∀ x, x ∈ vs →
        num.le x (vs.foldl (fun b v => b.add num v) (Bucket.zero num)).Max = true) ∧
    num.le (vs.foldl (fun b v => b.add num v) (Bucket.zero num)).Min
      (vs.foldl (fun b v => b.add num v) (Bucket.zero num)).Max = true := by
  obtain ⟨h1, h2, h3⟩ := Bucket.add_foldl_total num vs ht vs [] (Bucket.zero num)
    (fun x hx => by simpa using hx) rfl rfl (fun h => absurd rfl h)
  simp only [List.nil_append] at h1 h2 h3
  obtain ⟨⟨m1, m2⟩, ⟨M1, M2⟩⟩ := h3 hne
  have hmin : ∀ x, x ∈ vs →
      num.le (vs.foldl (fun b v => b.add num v) (Bucket.zero num)).Min x = true := by
    intro x hx
    unfold Number.le
    rcases ht.total _ m1 x hx with h | h | h
    · rw [h]; rfl
    · rw [m2 x hx] at h; cases h
    · rw [h, Bool.or_true]
  have hmax : ∀ x, x ∈ vs →
      num.le x (vs.foldl (fun b v => b.add num v) (Bucket.zero num)).Max = true := by
    intro x hx
    unfold Number.le
    rcases ht.total x hx _ M1 with h | h | h
    · rw [h]; rfl
    · rw [M2 x hx] at h; cases h
    · rw [h, Bool.or_true]
  exact ⟨h1, h2, ⟨m1, hmin⟩, ⟨M1, hmax⟩, hmin _ M1⟩

/-- C10 at the values `3, 1, 2` of kind `int` (count 3, sum 6, minimum 1,
maximum 3) and at the floating values `5/2, -Inf, 7`. -/
theorem bucket_add_stats_witness :
    ([3, 1, 2] : List Int) ≠ [] ∧
    ([3, 1, 2].foldl (fun b v => b.add (intNumber IntKind.int) v)
      (Bucket.zero (intNumber IntKind.int))) =
      { Low := 0, High := 0, Min := 1, Max := 3, Count := 3, Sum := 6 } ∧
    ([3, 1, 2].foldl (fun b v => b.add (intNumber IntKind.int) v)
      (Bucket.zero (intNumber IntKind.int))).Count = ([3, 1, 2] : List Int).length ∧
    ([Flt.fin 5 2, Flt.negInf, Flt.fin 7 1].foldl (fun b v => b.add fltNumber v)
      (Bucket.zero fltNumber)) =
      { Low := Flt.fin 0 1, High := Flt.fin 0 1, Min := Flt.negInf, Max := Flt.fin 7 1,
        Count := 3, Sum := Flt.negInf } ∧
    fltNumber.le
      ([Flt.fin 5 2, Flt.negInf, Flt.fin 7 1].foldl (fun b v => b.add fltNumber v)
        (Bucket.zero fltNumber)).Min
      ([Flt.fin 5 2, Flt.negInf, Flt.fin 7 1].foldl (fun b v => b.add fltNumber v)
        (Bucket.zero fltNumber)).Max = true :=
  ⟨by decide, by decide,
    (bucket_add_stats (intNumber IntKind.int) [3, 1, 2] (by decide)
      (totalOn_intNumber IntKind.int [3, 1, 2])).1,
    by decide,
    (bucket_add_stats fltNumber [Flt.fin 5 2, Flt.negInf, Flt.fin 7 1] (by decide)
      ⟨by decide, by decide, by decide⟩).2.2.2.2⟩

/-- C10 as stated fails: for the `float64` values `NaN, 1, 5` every comparison
with the stored NaN is false, so the bucket ends with `Min = Max = NaN` (and
`Sum = NaN`), while the package's own `minSlice` and `maxSlice` give 1 and 5;
`Min <= Max` is false. -/
theorem bucket_add_stats_counterexample :
    ([Flt.nan, Flt.fin 1 1, Flt.fin 5 1].foldl (fun b v => b.add fltNumber v)
      (Bucket.zero fltNumber)) =
      { Low := Flt.fin 0 1, High := Flt.fin 0 1, Min := Flt.nan, Max := Flt.nan,
        Count := 3, Sum := Flt.nan } ∧
    minSlice fltNumber [Flt.nan, Flt.fin 1 1, Flt.fin 5 1] = Flt.fin 1 1 ∧
    maxSlice fltNumber [Flt.nan, Flt.fin 1 1, Flt.fin 5 1] = Flt.fin 5 1 ∧
    fltNumber.le Flt.nan Flt.nan = false :=
  ⟨by decide, by decide, by decide, by decide⟩

/-! ## C11: the edges of a histogram -/

section EdgesSec

variable {T F : Type}

theorem edges_foldl_succ : ∀ (rest : Histogram T) (k : Nat) (acc : List T),
    (rest.enumFrom (k + 1)).foldl
      (fun ret ib =>
        let ret := if ib.1 = 0 then ret ++ [ib.2.Low] else ret
        ret ++ [ib.2.High]) acc = acc ++ rest.map Bucket.High
  | [], _, acc => by simp
  | b :: rest, k, acc => by
    simp only [List.enumFrom_cons, List.foldl_cons, Nat.add_one_ne_zero, if_false,
      List.map_cons]
    rw [edges_foldl_succ rest (k + 1) (acc ++ [b.High])]
    simp

theorem Edges_nil : Edges ([] : Histogram T) = [] := rfl

theorem Edges_cons (b : Bucket T) (rest : Histogram T) :
    Edges (b :: rest) = b.Low :: b.High :: rest.map Bucket.High := by
  unfold Edges
  simp only [List.enum, List.enumFrom_cons, List.foldl_cons, if_true, List.nil_append]
  rw [edges_foldl_succ rest 0 ([b.Low] ++ [b.High])]
  simp

/-- In a contiguous histogram the high edges are the low edges shifted by one,
closed by the last high edge. -/
theorem contiguous_map_High : ∀ (b : Bucket T) (rest : Histogram T),
    Contiguous (b :: rest) →
    (b :: rest).map Bucket.High =
      rest.map Bucket.Low ++ (((b :: rest).getLast?).map Bucket.High).toList
  | b, [], _ => by simp
  | b, c :: rest, hc => by
    have hc' : Contiguous (c :: rest) := by
      intro i x y hx hy
      exact hc (i + 1) x y (by simpa using hx) (by simpa using hy)
    have ih := contiguous_map_High c rest hc'
    have h0 : b.High = c.Low := hc 0 b c (by simp) (by simp)
    have hl : (b :: c :: rest).getLast? = (c :: rest).getLast? := by
      simp [List.getLast?_cons_cons]
    rw [hl, List.map_cons, ih, h0]
    simp

theorem edges_of_contiguous (h : Histogram T) (hc : Contiguous h) :
    Edges h = h.map Bucket.Low ++ ((h.getLast?).map Bucket.High).toList ∧
    (h ≠ [] → (Edges h).length = h.length + 1) := by
  cases h with
  | nil => exact ⟨rfl, fun hne => absurd rfl hne⟩
  | cons b rest =>
    refine ⟨?_, fun _ => by rw [Edges_cons]; simp⟩
    rw [Edges_cons]
    have := contiguous_map_High b rest hc
    rw [List.map_cons] at this
    rw [List.map_cons, List.cons_append, ← this]

end EdgesSec

/-- C11: for every sample kind, a histogram `h` returned by `CreateLinear` or
by `CreateLog` on a non-empty slice is not empty, `Edges h` has `len(h) + 1`
values and is the list of every bucket's `Low` in order followed by the last
bucket's `High`; for the empty histogram `Edges` is empty. -/
theorem edges_of_created {T F : Type} (num : Number T) (fl : Float64 F T)
    (samples : List T) (binCount : Int) (hne : samples ≠ []) :
    (∀ h, CreateLinear num samples binCount = some h →
      h ≠ [] ∧ (Edges h).length = h.length + 1 ∧
      ∃ last, h.getLast? = some last ∧ Edges h = h.map Bucket.Low ++ [last.High]) ∧
    (∀ h, CreateLog num fl samples binCount = some h →
      h ≠ [] ∧ (Edges h).length = h.length + 1 ∧
      ∃ last, h.getLast? = some last ∧ Edges h = h.map Bucket.Low ++ [last.High]) ∧
    Edges ([] : Histogram T) = [] := by
  have key : ∀ h : Histogram T, 1 ≤ h.length → Contiguous h →
      h ≠ [] ∧ (Edges h).length = h.length + 1 ∧
      ∃ last, h.getLast? = some last ∧ Edges h = h.map Bucket.Low ++ [last.High] := by
    intro h hlen hc
    have hne' : h ≠ [] := by
      intro h0; rw [h0] at hlen; simp at hlen
    obtain ⟨e1, e2⟩ := edges_of_contiguous h hc
    refine ⟨hne', e2 hne', ?_⟩
    cases hl : h.getLast? with
    | none => exact absurd (List.getLast?_eq_none_iff.mp hl) hne'
    | some last =>
      refine ⟨last, rfl, ?_⟩
      rw [e1, hl]
      rfl
  refine ⟨?_, ?_, rfl⟩
  · intro h hc
    obtain ⟨i1, i2, i3, _⟩ := create_inv num _ samples binCount none none h hne hc
    exact key h (by omega) i3
  · intro h hc
    obtain ⟨before, after, h0, hh0, rfl⟩ := createLog_some num fl samples binCount h hc
    obtain ⟨i1, i2, i3, _⟩ := create_inv num fl samples binCount _ _ h0 hne hh0
    exact key _ (by rw [setFirstLow_length]; omega) (setFirstLow_contiguous _ h0 i3)

/-- C11 at `[]int{0, 1, 10, 100, 1000, 5, 50}` with 3 buckets. -/
theorem edges_of_created_witness :
    ([0, 1, 10, 100, 1000, 5, 50] : List Int) ≠ [] ∧
    (∃ h, CreateLinear (intNumber IntKind.int) [0, 1, 10, 100, 1000, 5, 50] 3 = some h ∧
      Edges h = [0, 333, 666, 1000] ∧ (Edges h).length = h.length + 1) ∧
    (∃ h, CreateLog (intNumber IntKind.int) intFloat [0, 1, 10, 100, 1000, 5, 50] 3 = some h ∧
      Edges h = [0, 10, 100, 1000] ∧ (Edges h).length = h.length + 1) :=
  ⟨by decide,
    ⟨_, rfl, rfl,
      ((edges_of_created (intNumber IntKind.int) intFloat [0, 1, 10, 100, 1000, 5, 50] 3
        (by decide)).1 _ rfl).2.1⟩,
    ⟨_, rfl, rfl,
      ((edges_of_created (intNumber IntKind.int) intFloat [0, 1, 10, 100, 1000, 5, 50] 3
        (by decide)).2.1 _ rfl).2.1⟩⟩

/-! ## C12: the first low edge of `CreateLog` -/

section LogScan

variable {T : Type} [LinearOrder T]

theorem ltAsymm_of_linearOrder (num : Number T) (hlt : ∀ a b, num.lt a b = decide (a < b)) :
    LtAsymm num := by
  intro a b h
  rw [hlt] at h ⊢
  simp only [decide_eq_true_eq, decide_eq_false_iff_not] at h ⊢
  exact not_lt_of_lt h

/-- The scan of `CreateLog` keeps in `absMin` the minimum of the values seen,
and `absMinFound` tells whether any was seen. -/
theorem logScan_foldl (num : Number T) (hlt : ∀ a b, num.lt a b = decide (a < b)) :
    ∀ (s seen : List T) (st : T × Bool × T),
      (st.2.1 = true ↔ seen ≠ []) →
      (seen ≠ [] → st.2.2 ∈ seen ∧ ∀ x, x ∈ seen → st.2.2 ≤ x) →
      (seen ++ s ≠ [] →
        (s.foldl
          (fun st s =>
            let nonzeroMin :=
              if num.lt (num.ofInt 0) s then
                (if num.eq st.1 (num.ofInt 0) || num.lt s st.1 then s else st.1)
              else st.1
            if !st.2.1 || num.lt s st.2.2 then (nonzeroMin, true, s)
            else (nonzeroMin, st.2.1, st.2.2)) st).2.2 ∈ seen ++ s ∧
        ∀ x, x ∈ seen ++ s →
          (s.foldl
            (fun st s =>
              let nonzeroMin :=
                if num.lt (num.ofInt 0) s then
                  (if num.eq st.1 (num.ofInt 0) || num.lt s st.1 then s else st.1)
                else st.1
              if !st.2.1 || num.lt s st.2.2 then (nonzeroMin, true, s)
              else (nonzeroMin, st.2.1, st.2.2)) st).2.2 ≤ x)
  | [], seen, st, _, h2 => by
    simpa using h2
  | v :: s, seen, st, h1, h2 => by
    have e : seen ++ v :: s = (seen ++ [v]) ++ s := by simp
    rw [e, List.foldl_cons]
    apply logScan_foldl num hlt s (seen ++ [v])
    · simp only []
      split <;> simp
      rename_i hc
      simp only [Bool.or_eq_true, Bool.not_eq_true', not_or, Bool.not_eq_false] at hc
      exact hc.1
    · intro _
      simp only []
      by_cases hseen : seen = []
      · subst hseen
        have hf : st.2.1 = false := by
          cases hb : st.2.1 with
          | false => rfl
          | true => exact absurd rfl (h1.mp hb)
        simp [hf]
      · obtain ⟨m1, m2⟩ := h2 hseen
        have hf : st.2.1 = true := h1.mpr hseen
        simp only [hf, Bool.not_true, Bool.false_or, hlt, decide_eq_true_eq]
        by_cases hv : v < st.2.2
        · rw [if_pos hv]
          simp only [List.mem_append, List.mem_singleton]
          refine ⟨Or.inr trivial, ?_⟩
          rintro x (hx | rfl)
          · exact le_of_lt (lt_of_lt_of_le hv (m2 x hx))
          · exact le_refl _
        · rw [if_neg hv]
          simp only [List.mem_append, List.mem_singleton]
          refine ⟨Or.inl m1, ?_⟩
          rintro x (hx | rfl)
          · exact m2 x hx
          · exact le_of_not_lt hv

theorem logScan_absMin (num : Number T) (hlt : ∀ a b, num.lt a b = decide (a < b))
    (s : List T) (hs : s ≠ []) :
    (logScan num s).2.2 ∈ s ∧ ∀ x, x ∈ s → (logScan num s).2.2 ≤ x := by
  have := logScan_foldl num hlt s [] (num.ofInt 0, false, num.ofInt 0)
    (by simp) (fun h => absurd rfl h)
  simp only [List.nil_append] at this
  exact this hs

end LogScan

/-- The first low edge of `CreateLog` for a kind whose `<` is a linear order
(every integer kind), with the order of the kind itself. -/
theorem createLog_first_low_linear {T F : Type} [LinearOrder T] (num : Number T)
    (fl : Float64 F T) (hlt : ∀ a b, num.lt a b = decide (a < b))
    (samples : List T) (binCount : Int) (hne : samples ≠ []) (hb : 1 ≤ binCount) :
    (∀ h, CreateLog num fl samples binCount = some h →
      ∃ first, h.head? = some first ∧ first.Low ∈ samples ∧
        ∀ v, v ∈ samples → first.Low ≤ v) ∧
    (1 ≤ effBinCount num samples binCount →
      ∃ h, CreateLog num fl samples binCount = some h) := by
  have _ := hb
  constructor
  · intro h hc
    obtain ⟨before, after, h0, hh0, rfl⟩ := createLog_some num fl samples binCount h hc
    obtain ⟨i1, i2, _⟩ := create_inv num fl samples binCount _ _ h0 hne hh0
    obtain ⟨m1, m2⟩ := logScan_absMin num hlt samples hne
    cases h0 with
    | nil => simp at i2; omega
    | cons b rest => exact ⟨_, rfl, m1, m2⟩
  · intro he
    exact createLog_isSome num fl (ltAsymm_of_linearOrder num hlt) samples binCount hne he

section LogScanTotal

variable {T : Type}

/-- The scan of `CreateLog` over values that the comparisons order totally
keeps in `absMin` a value seen with none below it. -/
theorem logScan_foldl_total (num : Number T) (all : List T) (ht : TotalOn num all) :
    ∀ (s seen : List T) (st : T × Bool × T),
      (∀ x, x ∈ seen ++ s → x ∈ all) →
      (st.2.1 = true ↔ seen ≠ []) →
      (seen ≠ [] → st.2.2 ∈ seen ∧ ∀ x, x ∈ seen → num.lt x st.2.2 = false) →
      (seen ++ s ≠ [] →
        (s.foldl
          (fun st s =>
            let nonzeroMin :=
              if num.lt (num.ofInt 0) s then
                (if num.eq st.1 (num.ofInt 0) || num.lt s st.1 then s else st.1)
              else st.1
            if !st.2.1 || num.lt s st.2.2 then (nonzeroMin, true, s)
            else (nonzeroMin, st.2.1, st.2.2)) st).2.2 ∈ seen ++ s ∧
        ∀ x, x ∈ seen ++ s →
          num.lt x (s.foldl
            (fun st s =>
              let nonzeroMin :=
                if num.lt (num.ofInt 0) s then
                  (if num.eq st.1 (num.ofInt 0) || num.lt s st.1 then s else st.1)
                else st.1
              if !st.2.1 || num.lt s st.2.2 then (nonzeroMin, true, s)
              else (nonzeroMin, st.2.1, st.2.2)) st).2.2 = false)
  | [], seen, st, _, _, h2 => by
    simpa using h2
  | v :: s, seen, st, hsub, h1, h2 => by
    have e : seen ++ v :: s = (seen ++ [v]) ++ s := by simp
    have hv : v ∈ all := hsub v (by simp)
    have hirr : num.lt v v = false := by
      cases h : num.lt v v with
      | false => rfl
      | true => rw [← h]; exact ht.asymm v hv v hv h
    rw [e, List.foldl_cons]
    apply logScan_foldl_total num all ht s (seen ++ [v])
    · intro x hx
      exact hsub x (by rw [e]; exact hx)
    · simp only []
      split <;> simp
      rename_i hc
      simp only [Bool.or_eq_true, Bool.not_eq_true', not_or, Bool.not_eq_false] at hc
      exact hc.1
    · intro _
      simp only []
      by_cases hseen : seen = []
      · subst hseen
        have hf : st.2.1 = false := by
          cases hb : st.2.1 with
          | false => rfl
          | true => exact absurd rfl (h1.mp hb)
        simp [hf, hirr]
      · obtain ⟨m1, m2⟩ := h2 hseen
        have hmA : st.2.2 ∈ all := hsub _ (List.mem_append_left _ m1)
        have hf : st.2.1 = true := h1.mpr hseen
        simp only [hf, Bool.not_true, Bool.false_or]
        cases hlt : num.lt v st.2.2 with
        | true =>
          rw [if_pos rfl]
          simp only [List.mem_append, List.mem_singleton]
          refine ⟨Or.inr trivial, ?_⟩
          rintro x (hx | rfl)
          · cases hxv : num.lt x v with
            | false => rfl
            | true =>
              have := ht.trans x (hsub x (List.mem_append_left _ hx)) v hv _ hmA hxv hlt
              rw [m2 x hx] at this; cases this
          · exact hirr
        | false =>
          rw [if_neg (by simp)]
          simp only [List.mem_append, List.mem_singleton]
          refine ⟨Or.inl m1, ?_⟩
          rintro x (hx | rfl)
          · exact m2 x hx
          · exact hlt

theorem logScan_absMin_total (num : Number T) (s : List T) (hs : s ≠ [])
    (ht : TotalOn num s) :
    (logScan num s).2.2 ∈ s ∧ ∀ x, x ∈ s → num.le (logScan num s).2.2 x = true := by
  have := logScan_foldl_total num s ht s [] (num.ofInt 0, false, num.ofInt 0)
    (fun x hx => by simpa using hx) (by simp) (fun h => absurd rfl h)
  simp only [List.nil_append] at this
  have key : (logScan num s).2.2 ∈ s ∧ ∀ x, x ∈ s → num.lt x (logScan num s).2.2 = false :=
    this hs
  obtain ⟨m1, m2⟩ := key
  refine ⟨m1, ?_⟩
  intro x hx
  unfold Number.le
  rcases ht.total _ m1 x hx with h | h | h
  · rw [h]; rfl
  · rw [m2 x hx] at h; cases h
  · rw [h, Bool.or_true]

end LogScanTotal

/-- C12 (amended): for every sample kind, every non-empty sample slice whose
values the kind's comparisons order totally (every slice of an integer kind,
and every floating-point slice without NaN) and every `binCount ≥ 1`, a
histogram returned by `CreateLog` has a first bucket, and its `Low` is the
minimum of the samples, clamped or not: it is one of the samples and
`Low <= v` for every sample `v`.  A histogram is returned as soon as the
bucket count after the integer correction is positive. -/
theorem createLog_first_low {T F : Type} (num : Number T) (fl : Float64 F T)
    (hasym : LtAsymm num) (samples : List T) (binCount : Int)
    (hne : samples ≠ []) (hb : 1 ≤ binCount) (ht : TotalOn num samples) :
    (∀ h, CreateLog num fl samples binCount = some h →
      ∃ first, h.head? = some first ∧ first.Low ∈ samples ∧
        ∀ v, v ∈ samples → num.le first.Low v = true) ∧
    (1 ≤ effBinCount num samples binCount →
      ∃ h, CreateLog num fl samples binCount = some h) := by
  have _ := hb
  constructor
  · intro h hc
    obtain ⟨before, after, h0, hh0, rfl⟩ := createLog_some num fl samples binCount h hc
    obtain ⟨i1, i2, _⟩ := create_inv num fl samples binCount _ _ h0 hne hh0
    obtain ⟨m1, m2⟩ := logScan_absMin_total num samples hne ht
    cases h0 with
    | nil => simp at i2; omega
    | cons b rest => exact ⟨_, rfl, m1, m2⟩
  · intro he
    exact createLog_isSome num fl hasym samples binCount hne he

/-- C12 at `[]int{5, 0, 1, 10, 100, 1000, -3, 50}` with 3 buckets: the samples
below 1 are clamped for the logarithm and the first low edge is `-3`; and at
`[]float64{2.5, 1, +Inf, 10}` with 3 buckets, whatever the `float64`
operations give: a histogram is returned and its first low edge is `1`. -/
theorem createLog_first_low_witness :
    ([5, 0, 1, 10, 100, 1000, -3, 50] : List Int) ≠ [] ∧ (1 : Int) ≤ 3 ∧
    (∃ h, CreateLog (intNumber IntKind.int) intFloat [5, 0, 1, 10, 100, 1000, -3, 50] 3
        = some h ∧
      h.map Bucket.Low = [-3, 10, 100] ∧
      ∃ first, h.head? = some first ∧
        first.Low ∈ ([5, 0, 1, 10, 100, 1000, -3, 50] : List Int) ∧
        ∀ v, v ∈ ([5, 0, 1, 10, 100, 1000, -3, 50] : List Int) →
          (intNumber IntKind.int).le first.Low v = true) ∧
    (∀ (F : Type) (fl : Float64 F Flt),
      (∃ h, CreateLog fltNumber fl [Flt.fin 5 2, Flt.fin 1 1, Flt.posInf, Flt.fin 10 1] 3
        = some h) ∧
      ∀ h, CreateLog fltNumber fl [Flt.fin 5 2, Flt.fin 1 1, Flt.posInf, Flt.fin 10 1] 3
          = some h →
        ∃ first, h.head? = some first ∧
          first.Low ∈ [Flt.fin 5 2, Flt.fin 1 1, Flt.posInf, Flt.fin 10 1] ∧
          ∀ v, v ∈ [Flt.fin 5 2, Flt.fin 1 1, Flt.posInf, Flt.fin 10 1] →
            fltNumber.le first.Low v = true) :=
  ⟨by decide, by decide,
    ⟨_, rfl, rfl,
      (createLog_first_low (intNumber IntKind.int) intFloat
        (ltAsymm_intNumber IntKind.int)
        [5, 0, 1, 10, 100, 1000, -3, 50] 3 (by decide) (by decide)
        (totalOn_intNumber IntKind.int _)).1 _ rfl⟩,
    fun _ fl =>
      ⟨(createLog_first_low fltNumber fl ltAsymm_fltNumber
          [Flt.fin 5 2, Flt.fin 1 1, Flt.posInf, Flt.fin 10 1] 3 (by decide) (by decide)
          ⟨by decide, by decide, by decide⟩).2 (by decide),
        (createLog_first_low fltNumber fl ltAsymm_fltNumber
          [Flt.fin 5 2, Flt.fin 1 1, Flt.posInf, Flt.fin 10 1] 3 (by decide) (by decide)
          ⟨by decide, by decide, by decide⟩).1⟩⟩

/-- C12 as stated fails: for `[]float64{NaN, 1, 10, 100}` the scan keeps
`absMin = NaN` (`s < NaN` is never true), so, whatever the `float64`
operations give, `CreateLog` returns a histogram whose first `Low` is NaN,
while the package's own `minSlice` gives 1; `Low <= 1` is false. -/
theorem createLog_first_low_counterexample :
    logScan fltNumber [Flt.nan, Flt.fin 1 1, Flt.fin 10 1, Flt.fin 100 1]
      = (Flt.fin 1 1, true, Flt.nan) ∧
    minSlice fltNumber [Flt.nan, Flt.fin 1 1, Flt.fin 10 1, Flt.fin 100 1] = Flt.fin 1 1 ∧
    fltNumber.le Flt.nan (Flt.fin 1 1) = false ∧
    ∀ (F : Type) (fl : Float64 F Flt),
      ∃ h first,
        CreateLog fltNumber fl [Flt.nan, Flt.fin 1 1, Flt.fin 10 1, Flt.fin 100 1] 3
          = some h ∧
        h.head? = some first ∧ first.Low = Flt.nan := by
  refine ⟨by decide, by decide, by decide, ?_⟩
  intro F fl
  obtain ⟨h, hc⟩ := createLog_isSome fltNumber fl ltAsymm_fltNumber
    [Flt.nan, Flt.fin 1 1, Flt.fin 10 1, Flt.fin 100 1] 3 (by decide) (by decide)
  obtain ⟨before, after, h0, hh0, rfl⟩ := createLog_some fltNumber fl _ 3 h hc
  obtain ⟨i1, i2, _⟩ := create_inv fltNumber fl _ 3 _ _ h0 (by decide) hh0
  have he : effBinCount fltNumber [Flt.nan, Flt.fin 1 1, Flt.fin 10 1, Flt.fin 100 1] 3 = 3 := by
    decide
  have hm : (logScan fltNumber [Flt.nan, Flt.fin 1 1, Flt.fin 10 1, Flt.fin 100 1]).2.2
      = Flt.nan := by decide
  cases h0 with
  | nil => rw [he] at i2; simp at i2
  | cons b rest => exact ⟨_, _, hc, rfl, hm⟩

/-! ## C13: the empty histogram -/

/-- C13: for every sample kind and every `binCount ≥ 1`, `CreateLinear` and
`CreateLog` return a histogram with no buckets if and only if the sample slice
is empty. -/
theorem create_empty_iff {T F : Type} (num : Number T) (fl : Float64 F T)
    (samples : List T) (binCount : Int) (hb : 1 ≤ binCount) :
    (CreateLinear num samples binCount = some [] ↔ samples = []) ∧
    (CreateLog num fl samples binCount = some [] ↔ samples = []) := by
  have _ := hb
  constructor
  · constructor
    · intro hc
      by_contra hne
      obtain ⟨i1, i2, _⟩ := create_inv num _ samples binCount none none [] hne hc
      simp at i2
      omega
    · intro hs
      subst hs
      rfl
  · constructor
    · intro hc
      by_contra hne
      obtain ⟨before, after, h0, hh0, e⟩ := createLog_some num fl samples binCount [] hc
      obtain ⟨i1, i2, _⟩ := create_inv num fl samples binCount _ _ h0 hne hh0
      have : h0.length = 0 := by
        rw [← setFirstLow_length (logScan num samples).2.2 h0, ← e]; rfl
      omega
    · intro hs
      subst hs
      rfl

/-- C13 at 4 buckets: the empty slice gives the empty histogram, and
`[]int{0, 0, 1, 2, 8}` does not. -/
theorem create_empty_iff_witness :
    (1 : Int) ≤ 4 ∧
    CreateLinear (intNumber IntKind.int) [] 4 = some [] ∧
    CreateLog (intNumber IntKind.int) intFloat [] 4 = some [] ∧
    CreateLinear (intNumber IntKind.int) [0, 0, 1, 2, 8] 4 ≠ some [] :=
  ⟨by decide,
    (create_empty_iff (intNumber IntKind.int) intFloat [] 4 (by decide)).1.mpr rfl,
    (create_empty_iff (intNumber IntKind.int) intFloat [] 4 (by decide)).2.mpr rfl,
    fun h => absurd
      ((create_empty_iff (intNumber IntKind.int) intFloat [0, 0, 1, 2, 8] 4 (by decide)).1.mp h)
      (by decide)⟩

/-! ## C14: `CreateLinear` on `int` samples does not panic -/

section IntSafe

variable {k : IntKind} {s : List Int} {lo hi n : Int}

/-- The spacing division of the linear branch when the span fits: the divisor
is non-zero as soon as the corrected bucket count does not wrap to zero, which
can only happen in an unsigned kind spanning its whole range. -/
theorem int_spacing_isSome (hs : Samples k s lo hi) (hf : SpanFits k lo hi)
    (hz : hi - lo < n → k.minVal = 0 → hi - lo + 1 ≤ k.maxVal)
    (hn : 1 ≤ n) (hn' : n ≤ maxInt) :
    (intNumber k).ofInt (effBinCount (intNumber k) s n) ≠ 0 ∧
    ((intNumber k).div
      ((intNumber k).sub (effMax (intNumber k) s n) (minSlice (intNumber k) s))
      ((intNumber k).ofInt (effBinCount (intNumber k) s n))).isSome = true := by
  rw [int_effBinCount hs hf hn']
  have hle := hs.lo_le_hi
  have hne : k.wrap (linCount lo hi n) ≠ 0 := by
    unfold linCount
    by_cases hc : hi - lo < n
    · rw [if_pos hc]
      exact k.wrap_ne_zero _ (by omega) (by have := hf.1; omega) (hz hc)
    · rw [if_neg hc]
      have hnr : k.InRange n := ⟨by have := k.minVal_le; omega, by have := hf.1; omega⟩
      rw [k.wrap_of_inRange n hnr]
      omega
  refine ⟨hne, ?_⟩
  show (if k.wrap (linCount lo hi n) = 0 then none else some _).isSome = true
  rw [if_neg hne]
  rfl

end IntSafe

/-- C14: for every non-empty slice of `int` samples with minimum `lo` and
maximum `hi` and every `binCount ≥ 1`, with `hi - lo` not overflowing `int`,
`CreateLinear` completes without a run-time failure: the spacing divisor is
not zero, the bucket count after the correction is at least 1 (so the write
to the last bucket's `High` is in range), the index computed for a sample in a
non-empty slice of buckets is always in range, and a histogram with at least
one bucket is returned. -/
theorem createLinear_int_safe (samples : List Int) (lo hi binCount : Int)
    (hs : Samples IntKind.int samples lo hi) (hspan : hi - lo ≤ maxInt)
    (hb : 1 ≤ binCount) (hb' : binCount ≤ maxInt) :
    (intNumber IntKind.int).ofInt (effBinCount (intNumber IntKind.int) samples binCount) ≠ 0 ∧
    1 ≤ effBinCount (intNumber IntKind.int) samples binCount ∧
    (∀ (ret : Histogram Int) (v : Int), ret ≠ [] →
      ∃ r, assign (intNumber IntKind.int) ret v = some r ∧ r.length = ret.length) ∧
    ∃ h, CreateLinear (intNumber IntKind.int) samples binCount = some h ∧ 1 ≤ h.length := by
  have hf : SpanFits IntKind.int lo hi := ⟨hspan, hspan⟩
  have hz : hi - lo < binCount → IntKind.int.minVal = 0 → hi - lo + 1 ≤ IntKind.int.maxVal :=
    fun _ h0 => absurd h0 (by decide)
  obtain ⟨d1, d2⟩ := int_spacing_isSome hs hf hz hb hb'
  have he : 1 ≤ effBinCount (intNumber IntKind.int) samples binCount := by
    rw [int_effBinCount hs hf hb']
    exact (lin_facts lo hi binCount hs.lo_le_hi hb).2.1
  refine ⟨d1, he, ?_, ?_⟩
  · intro ret v hne
    obtain ⟨r, hr⟩ := assign_isSome (intNumber IntKind.int) (ltAsymm_intNumber _) ret v hne
    exact ⟨r, hr, assign_length _ ret r v hr⟩
  · obtain ⟨h, hh⟩ := create_linear_isSome (intNumber IntKind.int) _
      (ltAsymm_intNumber _) samples binCount hs.ne_nil he d2
    refine ⟨h, hh, ?_⟩
    have := (create_inv (intNumber IntKind.int) _ samples binCount none none h hs.ne_nil hh).2.1
    omega

/-- C14 at `[]int{2^63 - 6, 2^63 - 1}` with 10 buckets: `max++` wraps, and
still no run-time failure occurs. -/
theorem createLinear_int_safe_witness :
    ∃ h, CreateLinear (intNumber IntKind.int)
        [9223372036854775802, 9223372036854775807] 10 = some h ∧ 1 ≤ h.length :=
  (createLinear_int_safe [9223372036854775802, 9223372036854775807]
    9223372036854775802 9223372036854775807 10
    (samples_pair IntKind.int _ _ (by decide) (by decide) (by decide))
    (by decide) (by decide) (by decide)).2.2.2

/-! ## C20: a constructed histogram has a positive count -/

theorem exists_pos_of_sum_pos : ∀ (l : List Nat), 1 ≤ l.sum → ∃ x, x ∈ l ∧ 1 ≤ x
  | [], h => by simp at h
  | x :: l, h => by
    by_cases hx : 1 ≤ x
    · exact ⟨x, List.mem_cons_self x l, hx⟩
    · simp only [List.sum_cons] at h
      obtain ⟨y, hy, hy1⟩ := exists_pos_of_sum_pos l (by omega)
      exact ⟨y, List.mem_cons_of_mem x hy, hy1⟩

theorem maxSlice_int_ge (k : IntKind) (l : List Int) (y : Int) (hy : y ∈ l) :
    y ≤ maxSlice (intNumber k) l := by
  cases l with
  | nil => exact absurd hy (List.not_mem_nil y)
  | cons x rest =>
    obtain ⟨_, h2, h3⟩ := foldl_max_int k rest x
    show y ≤ rest.foldl (max (intNumber k)) x
    rcases List.mem_cons.mp hy with e | e
    · rw [e]; exact h2
    · exact h3 y e

theorem printCounts_max_pos {T : Type} (h : Histogram T) (hpos : 1 ≤ totalCount h) :
    (∃ b, b ∈ h ∧ 1 ≤ b.Count) ∧ 1 ≤ maxSlice (intNumber IntKind.int) (printCounts h) := by
  obtain ⟨c, hc, hc1⟩ := exists_pos_of_sum_pos (h.map Bucket.Count) hpos
  obtain ⟨b, hb, rfl⟩ := List.mem_map.mp hc
  refine ⟨⟨b, hb, hc1⟩, ?_⟩
  have hmem : (b.Count : Int) ∈ printCounts h := List.mem_map.mpr ⟨b, hb, rfl⟩
  have := maxSlice_int_ge IntKind.int (printCounts h) _ hmem
  omega

/-- C20: for every sample kind, every non-empty sample slice and
`binCount ≥ 1`, a histogram returned by `CreateLinear` or by `CreateLog` has a
bucket with `Count ≥ 1`, and the maximum of the `counts` slice of `Print`,
which `normToWidth` divides by, is at least 1. -/
theorem created_has_count {T F : Type} (num : Number T) (fl : Float64 F T)
    (samples : List T) (binCount : Int) (hne : samples ≠ []) (hb : 1 ≤ binCount) :
    (∀ h, CreateLinear num samples binCount = some h →
      (∃ b, b ∈ h ∧ 1 ≤ b.Count) ∧ 1 ≤ maxSlice (intNumber IntKind.int) (printCounts h)) ∧
    (∀ h, CreateLog num fl samples binCount = some h →
      (∃ b, b ∈ h ∧ 1 ≤ b.Count) ∧ 1 ≤ maxSlice (intNumber IntKind.int) (printCounts h)) := by
  have hlen : 1 ≤ samples.length := by
    cases samples with
    | nil => exact absurd rfl hne
    | cons x xs => simp
  have _ := hb
  constructor
  · intro h hc
    have c := (create_inv num _ samples binCount none none h hne hc).2.2.2.2
    exact printCounts_max_pos h (by rw [c]; exact hlen)
  · intro h hc
    obtain ⟨before, after, h0, hh0, rfl⟩ := createLog_some num fl samples binCount h hc
    have c := (create_inv num fl samples binCount _ _ h0 hne hh0).2.2.2.2
    exact printCounts_max_pos _ (by rw [setFirstLow_totalCount, c]; exact hlen)

/-- C20 at `[]int{0, 0, 1, 2, 8}` with 4 buckets: the counts are `[3, 1, 0, 1]`
and their maximum is 3. -/
theorem created_has_count_witness :
    ([0, 0, 1, 2, 8] : List Int) ≠ [] ∧ (1 : Int) ≤ 4 ∧
    ∃ h, CreateLinear (intNumber IntKind.int) [0, 0, 1, 2, 8] 4 = some h ∧
      printCounts h = [3, 1, 0, 1] ∧
      (∃ b, b ∈ h ∧ 1 ≤ b.Count) ∧ 1 ≤ maxSlice (intNumber IntKind.int) (printCounts h) :=
  ⟨by decide, by decide, _, rfl, rfl,
    (created_has_count (intNumber IntKind.int) intFloat [0, 0, 1, 2, 8] 4
      (by decide) (by decide)).1 _ rfl⟩

/-! ## C19: the else-if chain of `Bucket.add` -/

section AddChain

variable {T : Type}

/-- One call of `add` agrees with the independent checks on a bucket whose
`Min` and `Max` are equal or ordered, and leaves them equal or ordered. -/
theorem Bucket.add_eq_addIndependent (num : Number T) (hasym : LtAsymm num)
    (htrans : ∀ a b c, num.lt a b = true → num.lt b c = true → num.lt a c = true)
    (b : Bucket T) (v : T)
    (hJ : b.Count = 0 ∨ b.Min = b.Max ∨ num.lt b.Min b.Max = true) :
    b.add num v = b.addIndependent num v ∧
    ((b.add num v).Min = (b.add num v).Max ∨
      num.lt (b.add num v).Min (b.add num v).Max = true) := by
  unfold Bucket.add Bucket.addIndependent
  by_cases hc : b.Count + 1 = 1
  · simp [hc]
  · have hJ' : b.Min = b.Max ∨ num.lt b.Min b.Max = true := by
      rcases hJ with h0 | h
      · omega
      · exact h
    cases h1 : num.lt v b.Min with
    | false =>
      cases h2 : num.lt b.Max v with
      | false =>
        simp only [hc, h1, h2, if_false, Bool.false_eq_true, true_and]
        exact hJ'
      | true =>
        simp only [hc, h1, h2, if_false, if_true, Bool.false_eq_true, true_and]
        right
        rcases hJ' with e | e
        · rw [e]; exact h2
        · exact htrans _ _ _ e h2
    | true =>
      have hvM : num.lt v b.Max = true := by
        rcases hJ' with e | e
        · rw [← e]; exact h1
        · exact htrans _ _ _ h1 e
      have h2 : num.lt b.Max v = false := hasym _ _ hvM
      simp only [hc, h1, h2, if_false, if_true, Bool.false_eq_true, true_and]
      exact Or.inr hvM

theorem Bucket.add_foldl_eq_addIndependent (num : Number T) (hasym : LtAsymm num)
    (htrans : ∀ a b c, num.lt a b = true → num.lt b c = true → num.lt a c = true) :
    ∀ (vs : List T) (b : Bucket T),
      (b.Count = 0 ∨ b.Min = b.Max ∨ num.lt b.Min b.Max = true) →
      vs.foldl (fun b v => b.add num v) b = vs.foldl (fun b v => b.addIndependent num v) b
  | [], _, _ => rfl
  | v :: vs, b, hJ => by
    obtain ⟨e, hJ'⟩ := Bucket.add_eq_addIndependent num hasym htrans b v hJ
    simp only [List.foldl_cons]
    rw [← e]
    exact Bucket.add_foldl_eq_addIndependent num hasym htrans vs (b.add num v) (Or.inr hJ')

end AddChain

/-- C19 (amended): for every kind whose `<` is asymmetric and transitive
(every integer kind, and IEEE floating point with NaN), and every sequence of
values added one by one with `Bucket.add` to a zero-valued bucket, the else-if
chain gives the same bucket, so the same `Min` and `Max`, as two independent
checks: a value below `Min` is never above `Max`. -/
theorem bucket_add_chain_eq {T : Type} (num : Number T) (hasym : LtAsymm num)
    (htrans : ∀ a b c, num.lt a b = true → num.lt b c = true → num.lt a c = true)
    (vs : List T) :
    vs.foldl (fun b v => b.add num v) (Bucket.zero num) =
      vs.foldl (fun b v => b.addIndependent num v) (Bucket.zero num) :=
  Bucket.add_foldl_eq_addIndependent num hasym htrans vs (Bucket.zero num) (Or.inl rfl)

/-- C19 at the values `5, 9, 1, 7` of kind `int`. -/
theorem bucket_add_chain_eq_witness :
    LtAsymm (intNumber IntKind.int) ∧
    ([5, 9, 1, 7] : List Int).foldl (fun b v => b.add (intNumber IntKind.int) v)
        (Bucket.zero (intNumber IntKind.int)) =
      { Low := 0, High := 0, Min := 1, Max := 9, Count := 4, Sum := 22 } ∧
    ([5, 9, 1, 7] : List Int).foldl (fun b v => b.add (intNumber IntKind.int) v)
        (Bucket.zero (intNumber IntKind.int)) =
      ([5, 9, 1, 7] : List Int).foldl (fun b v => b.addIndependent (intNumber IntKind.int) v)
        (Bucket.zero (intNumber IntKind.int)) :=
  ⟨ltAsymm_intNumber IntKind.int, by decide,
    bucket_add_chain_eq (intNumber IntKind.int) (ltAsymm_intNumber IntKind.int)
      (lt_trans_intNumber IntKind.int) [5, 9, 1, 7]⟩

/-- C19 as stated fails: no kind with an asymmetric and transitive `<` has a
sequence of values for which the else-if chain and the independent checks end
with a different `Min` or a different `Max`. -/
theorem bucket_add_chain_counterexample :
    ¬ ∃ (T : Type) (num : Number T) (vs : List T),
      LtAsymm num ∧
      (∀ a b c, num.lt a b = true → num.lt b c = true → num.lt a c = true) ∧
      ((vs.foldl (fun b v => b.add num v) (Bucket.zero num)).Min ≠
          (vs.foldl (fun b v => b.addIndependent num v) (Bucket.zero num)).Min ∨
        (vs.foldl (fun b v => b.add num v) (Bucket.zero num)).Max ≠
          (vs.foldl (fun b v => b.addIndependent num v) (Bucket.zero num)).Max) := by
  rintro ⟨T, num, vs, hasym, htrans, hne⟩
  have e := Bucket.add_foldl_eq_addIndependent num hasym htrans vs (Bucket.zero num)
    (Or.inl rfl)
  rw [e] at hne
  rcases hne with h | h <;> exact h rfl

/-! ## C16: the rendered bar -/

section Bar

theorem runeString_single (r : Int) (h0 : 0 ≤ r) (h1 : r < 128) : runeString r = [r.toNat] := by
  unfold runeString
  rw [if_neg (by omega), if_pos h1]

theorem Repeat_single (a : Nat) : ∀ n, Repeat [a] n = List.replicate n a
  | 0 => rfl
  | n + 1 => by simp [Repeat, Repeat_single a n, List.replicate_succ]

theorem padSpaces_eq : ∀ (fuel : Nat) (ret : GoString) (width : Int),
    (width - ret.length).toNat ≤ fuel →
    padSpaces fuel ret width = ret ++ List.replicate (width - ret.length).toNat 32
  | 0, ret, width, h => by
    have : (width - ret.length).toNat = 0 := by omega
    simp [padSpaces, this]
  | fuel + 1, ret, width, h => by
    unfold padSpaces
    by_cases hlt : (ret.length : Int) < width
    · rw [if_pos hlt, padSpaces_eq fuel (ret ++ [32]) width (by simp; omega)]
      have e : (width - ((ret ++ [32]).length : Nat)).toNat + 1 = (width - ret.length).toNat := by
        simp; omega
      rw [← e, List.replicate_succ]
      simp
    · rw [if_neg hlt]
      have : (width - ret.length).toNat = 0 := by omega
      simp [this]

/-- The bar before the secondary glyph is placed: `val1` pad glyphs, the
primary glyph, spaces up to `width`. -/
theorem bar_base (width val1 : Nat) (pad c1 : Nat) (hv : val1 < width) :
    padSpaces ((width : Int) - ((List.replicate val1 pad ++ [c1]).length : Nat)).toNat
      (List.replicate val1 pad ++ [c1]) width =
      List.replicate val1 pad ++ [c1] ++ List.replicate (width - val1 - 1) 32 := by
  rw [padSpaces_eq _ _ _ (le_refl _)]
  congr 2
  simp
  omega

theorem take_cons_drop_eq_set (l : GoString) (n : Nat) (a : Nat) (h : n < l.length) :
    l.take n ++ [a] ++ l.drop (n + 1) = l.set n a := by
  rw [List.set_eq_take_append_cons_drop, if_pos h]
  simp

end Bar

/-- C16: for every `width ≥ 1`, every `val1` and `val2` in `[0, width - 1]`
and glyphs that encode to a single byte (runes in `[0, 127]`), `bar` returns a
string of exactly `width` bytes; its column `c` holds the pad glyph (a space
when the pad glyph is zero) for `c < val1`, the primary glyph for `c = val1`
and a space after it, except that, when the secondary glyph is not zero,
column `val2` holds the secondary glyph, or the combined glyph when
`val1 = val2` and the combined glyph is not zero. -/
theorem bar_columns (width val1 val2 val1pad char1 char2 combinedChar : Int)
    (hw : 1 ≤ width) (h1 : 0 ≤ val1 ∧ val1 ≤ width - 1) (h2 : 0 ≤ val2 ∧ val2 ≤ width - 1)
    (hpad : 0 ≤ val1pad ∧ val1pad < 128) (hc1 : 0 ≤ char1 ∧ char1 < 128)
    (hc2 : 0 ≤ char2 ∧ char2 < 128) (hcc : 0 ≤ combinedChar ∧ combinedChar < 128) :
    ∃ r, bar width val1 val2 val1pad char1 char2 combinedChar = some r ∧
      (r.length : Int) = width ∧
      ∀ c : Nat, (c : Int) < width →
        r[c]? = some
          (if char2 ≠ 0 ∧ (c : Int) = val2 then
            (if val1 = val2 ∧ combinedChar ≠ 0 then combinedChar.toNat else char2.toNat)
          else if (c : Int) < val1 then (if val1pad = 0 then 32 else val1pad.toNat)
          else if (c : Int) = val1 then char1.toNat
          else 32) := by
  obtain ⟨w, rfl⟩ : ∃ w : Nat, width = w := ⟨width.toNat, by omega⟩
  obtain ⟨a, rfl⟩ : ∃ a : Nat, val1 = a := ⟨val1.toNat, by omega⟩
  obtain ⟨d, rfl⟩ : ∃ d : Nat, val2 = d := ⟨val2.toNat, by omega⟩
  have ha : a < w := by omega
  have hd : d < w := by omega
  -- the pad glyph in use
  obtain ⟨p, hp⟩ : ∃ p : Nat, runeString (if val1pad = 0 then 32 else val1pad) = [p] ∧
      p = (if val1pad = 0 then 32 else val1pad.toNat) := by
    by_cases h0 : val1pad = 0
    · exact ⟨32, by simp [h0, runeString], by simp [h0]⟩
    · exact ⟨val1pad.toNat, by
        rw [if_neg h0]; exact runeString_single _ hpad.1 hpad.2, by simp [h0]⟩
  obtain ⟨hp1, hp2⟩ := hp
  have hrep : (if (a : Int) > 0 then
      Repeat (runeString (if val1pad = 0 then 32 else val1pad)) (a : Int).toNat else [])
      = List.replicate a p := by
    by_cases ha0 : (a : Int) > 0
    · rw [if_pos ha0, hp1, Repeat_single]
      simp
    · have : a = 0 := by omega
      subst this
      simp
  -- the bar before the overlay
  have hbase := bar_base w a p char1.toNat ha
  have hblen : (List.replicate a p ++ [char1.toNat] ++ List.replicate (w - a - 1) 32).length
      = w := by
    simp; omega
  have hbcol : ∀ c : Nat, c < w →
      (List.replicate a p ++ [char1.toNat] ++ List.replicate (w - a - 1) 32)[c]? =
        some (if c < a then p else if c = a then char1.toNat else 32) := by
    intro c hc
    by_cases hca : c < a
    · rw [if_pos hca, List.append_assoc, List.getElem?_append_left (by simpa using hca)]
      simp [List.getElem?_replicate, hca]
    · rw [if_neg hca, List.append_assoc, List.getElem?_append_right (by simpa using hca)]
      simp only [List.length_replicate]
      by_cases hce : c = a
      · subst hce
        simp
      · rw [if_neg hce]
        have : c - a = (c - a - 1) + 1 := by omega
        rw [this]
        simp only [List.singleton_append, List.getElem?_cons_succ, List.getElem?_replicate]
        rw [if_pos (by omega)]
  unfold bar
  simp only [hrep, runeString_single char1 hc1.1 hc1.2]
  rw [hbase]
  by_cases hz : char2 = 0
  · -- no secondary glyph
    simp only [hz, ne_eq, not_true_eq_false, if_false]
    refine ⟨_, rfl, by rw [hblen], ?_⟩
    intro c hc
    rw [hbcol c (by omega)]
    simp only [false_and, if_false, Nat.cast_lt, Nat.cast_inj, hp2]
  · simp only [ne_eq, hz, not_false_eq_true, if_true]
    obtain ⟨g, hg1, hg2⟩ : ∃ g : Nat,
        runeString (if (a : Int) = d ∧ combinedChar ≠ 0 then combinedChar else char2) = [g] ∧
        g = (if (a : Int) = d ∧ combinedChar ≠ 0 then combinedChar.toNat else char2.toNat) := by
      by_cases hcomb : (a : Int) = d ∧ combinedChar ≠ 0
      · exact ⟨combinedChar.toNat, by
          rw [if_pos hcomb]; exact runeString_single _ hcc.1 hcc.2, by rw [if_pos hcomb]⟩
      · exact ⟨char2.toNat, by
          rw [if_neg hcomb]; exact runeString_single _ hc2.1 hc2.2, by rw [if_neg hcomb]⟩
    simp only [ne_eq] at hg1
    rw [hg1]
    have hto : sliceTo
        (List.replicate a p ++ [char1.toNat] ++ List.replicate (w - a - 1) 32) (d : Int)
        = some ((List.replicate a p ++ [char1.toNat] ++ List.replicate (w - a - 1) 32).take d) := by
      unfold sliceTo
      rw [if_pos ⟨by omega, by rw [hblen]; omega⟩]
      simp
    have hfrom : sliceFrom
        (List.replicate a p ++ [char1.toNat] ++ List.replicate (w - a - 1) 32) ((d : Int) + 1)
        = some ((List.replicate a p ++ [char1.toNat] ++
            List.replicate (w - a - 1) 32).drop (d + 1)) := by
      unfold sliceFrom
      rw [if_pos ⟨by omega, by rw [hblen]; omega⟩]
      congr 2
    rw [hto, hfrom]
    simp only [Option.some_bind, Option.map_some']
    rw [take_cons_drop_eq_set _ d g (by rw [hblen]; exact hd)]
    refine ⟨_, rfl, by rw [List.length_set, hblen], ?_⟩
    intro c hc
    rw [List.getElem?_set, hblen]
    by_cases hcd : d = c
    · subst hcd
      rw [if_pos rfl, if_pos hd]
      simp only [and_self, if_true, true_and, ← hg2, ne_eq]
    · rw [if_neg hcd, hbcol c (by omega)]
      have : ¬ ((c : Int) = (d : Int)) := by omega
      simp only [this, and_false, if_false, Nat.cast_lt, Nat.cast_inj, hp2]

/-- C16 at width 3 with both marks in column 2: the combined glyph `$` is
placed after two pad glyphs. -/
theorem bar_columns_witness :
    bar 3 2 2 45 124 83 36 = some [45, 45, 36] ∧
    ∃ r, bar 3 2 2 45 124 83 36 = some r ∧ (r.length : Int) = 3 ∧
      ∀ c : Nat, (c : Int) < 3 →
        r[c]? = some
          (if (83 : Int) ≠ 0 ∧ (c : Int) = 2 then
            (if (2 : Int) = 2 ∧ (36 : Int) ≠ 0 then (36 : Int).toNat else (83 : Int).toNat)
          else if (c : Int) < 2 then (if (45 : Int) = 0 then 32 else (45 : Int).toNat)
          else if (c : Int) = 2 then (124 : Int).toNat
          else 32) :=
  ⟨by decide,
    bar_columns 3 2 2 45 124 83 36 (by decide) (by decide) (by decide) (by decide)
      (by decide) (by decide) (by decide)⟩

/-! ## C17: what `Print` writes -/

section PrintSec

variable {T F : Type}

theorem leftPad_eq : ∀ (fuel : Nat) (s : GoString) (len : Nat), len - s.length ≤ fuel →
    leftPad fuel s len = List.replicate (len - s.length) 32 ++ s
  | 0, s, len, h => by
    have : len - s.length = 0 := by omega
    simp [leftPad, this]
  | fuel + 1, s, len, h => by
    unfold leftPad
    by_cases hlt : s.length < len
    · rw [if_pos hlt, leftPad_eq fuel (32 :: s) len (by simp; omega)]
      have e : len - s.length = (len - (32 :: s).length) + 1 := by simp; omega
      rw [e, List.replicate_succ']
      simp
    · rw [if_neg hlt]
      have : len - s.length = 0 := by omega
      simp [this]

theorem sumText_eq (opt : PrintOptions T) (format : T → GoString) (mcs : GoString)
    (b : Bucket T) :
    sumText opt format mcs b =
      List.replicate (mcs.length - (Itoa b.Count).length) 32 ++ Itoa b.Count ++
        (if opt.SumSymbol ≠ 0 then [59, 32] ++ format b.Sum else []) := by
  unfold sumText
  simp only [leftPad_eq _ _ _ (le_refl _)]
  split <;> simp

theorem normToWidth_length {α : Type} (num : Number α) (conv : α → F) (fl : Float64 F T)
    (s : List α) (width : Int) : (normToWidth num conv fl s width).length = s.length := by
  simp [normToWidth]

/-- Without a secondary glyph `bar` slices nothing and cannot panic. -/
theorem bar_of_no_sum (width val1 val2 val1pad char1 combinedChar : Int) :
    (bar width val1 val2 val1pad char1 0 combinedChar).isSome = true := by
  unfold bar
  simp

theorem printRows_ok (opt : PrintOptions T) (format : T → GoString) (mcs : GoString) :
    ∀ rows : List (Bucket T × Int × Int),
      (∀ row, row ∈ rows →
        (bar opt.Width row.2.1 row.2.2 opt.PadSymbol opt.Symbol opt.SumSymbol
          opt.CombinedSymbol).isSome = true) →
      (printRows opt format mcs rows).returned = true ∧
      (printRows opt format mcs rows).writes.length = rows.length ∧
      ∀ (j : Nat) (row : Bucket T × Int × Int), rows[j]? = some row →
        ∃ barStr, (printRows opt format mcs rows).writes[j]? =
          some (printLine opt format mcs row.1 barStr)
  | [], _ => by simp [printRows]
  | (b, c1, c2) :: rest, hall => by
    have h0 := hall (b, c1, c2) (List.mem_cons_self _ _)
    obtain ⟨barStr, hbar⟩ := Option.isSome_iff_exists.mp h0
    simp only at hbar
    obtain ⟨i1, i2, i3⟩ := printRows_ok opt format mcs rest
      (fun row hrow => hall row (List.mem_cons_of_mem _ hrow))
    unfold printRows
    simp only [hbar]
    refine ⟨i1, by simp [i2], ?_⟩
    intro j row hj
    cases j with
    | zero =>
      simp only [List.getElem?_cons_zero, Option.some.injEq] at hj
      subst hj
      exact ⟨barStr, by simp⟩
    | succ j =>
      simp only [List.getElem?_cons_succ] at hj ⊢
      exact i3 j row hj

end PrintSec

/-- C17 (amended): `Print` writes nothing when the histogram is empty.  For a
non-empty histogram `h` of `n` buckets it first writes the header: the
prefix, two spaces, `Format(h[n-1].High)` and a newline.  When every bar is
rendered, which is always so when the sum glyph is zero, it returns after
exactly `n + 1` newline-terminated writes, the line of bucket `i` being write
`n - i` (bucket `n-1` first, bucket 0 last): the prefix, `"> "`,
`Format(Low)`, `": "`, the bar, `" ("`, the count padded on the left with
spaces to the width of the largest count and, when the sum glyph is not zero,
`"; "` and `Format(Sum)`, then `")"` and a newline. -/
theorem print_lines {T F : Type} (num : Number T) (fl : Float64 F T)
    (sprint : T → GoString) (h : Histogram T) (opt : PrintOptions T) :
    (h = [] → Print num fl sprint h opt = { writes := [], returned := true }) ∧
    (∀ last, h.getLast? = some last →
      (Print num fl sprint h opt).writes.head? =
        some (opt.Prefix ++ [32, 32] ++ (opt.Format.getD sprint) last.High ++ [10])) ∧
    (h ≠ [] →
      (opt.SumSymbol = 0 ∨
        ∀ row, row ∈ h.zip
            ((normToWidth (intNumber IntKind.int) fl.ofInt fl (printCounts h) opt.Width).zip
              (normToWidth num fl.ofT fl (printSums h) opt.Width)) →
          (bar opt.Width row.2.1 row.2.2 opt.PadSymbol opt.Symbol opt.SumSymbol
            opt.CombinedSymbol).isSome = true) →
      (Print num fl sprint h opt).returned = true ∧
      (Print num fl sprint h opt).writes.length = h.length + 1 ∧
      (∀ w, w ∈ (Print num fl sprint h opt).writes → w.getLast? = some 10) ∧
      ∀ i b, h[i]? = some b →
        ∃ barStr, (Print num fl sprint h opt).writes[h.length - i]? =
          some (opt.Prefix ++ [62, 32] ++ (opt.Format.getD sprint) b.Low ++ [58, 32] ++
            barStr ++ [32, 40] ++
            List.replicate
              ((Itoa (maxSlice (intNumber IntKind.int) (printCounts h))).length -
                (Itoa b.Count).length) 32 ++
            Itoa b.Count ++
            (if opt.SumSymbol ≠ 0 then [59, 32] ++ (opt.Format.getD sprint) b.Sum else []) ++
            [41, 10])) := by
  have hfmt : (match opt.Format with
      | none => sprint
      | some f => f) = opt.Format.getD sprint := by
    cases opt.Format <;> rfl
  refine ⟨?_, ?_, ?_⟩
  · intro h0
    subst h0
    rfl
  · intro last hlast
    unfold Print
    simp only [hlast, hfmt, List.head?_cons]
  · intro hne hbars
    obtain ⟨last, hlast⟩ : ∃ last, h.getLast? = some last := by
      cases hl : h.getLast? with
      | none => exact absurd (List.getLast?_eq_none_iff.mp hl) hne
      | some last => exact ⟨last, rfl⟩
    have hall : ∀ row, row ∈ (h.zip
        ((normToWidth (intNumber IntKind.int) fl.ofInt fl (printCounts h) opt.Width).zip
          (normToWidth num fl.ofT fl (printSums h) opt.Width))).reverse →
        (bar opt.Width row.2.1 row.2.2 opt.PadSymbol opt.Symbol opt.SumSymbol
          opt.CombinedSymbol).isSome = true := by
      intro row hrow
      rcases hbars with h0 | hb
      · rw [h0]; exact bar_of_no_sum _ _ _ _ _ _
      · exact hb row (List.mem_reverse.mp hrow)
    have hzlen : (h.zip
        ((normToWidth (intNumber IntKind.int) fl.ofInt fl (printCounts h) opt.Width).zip
          (normToWidth num fl.ofT fl (printSums h) opt.Width))).length = h.length := by
      simp [List.length_zip, normToWidth_length, printCounts, printSums]
    obtain ⟨r1, r2, r3⟩ := printRows_ok opt (opt.Format.getD sprint)
      (Itoa (maxSlice (intNumber IntKind.int) (printCounts h))) _ hall
    rw [List.length_reverse, hzlen] at r2
    -- every bucket line, by its position
    have hline : ∀ i b, h[i]? = some b →
        ∃ barStr, (printRows opt (opt.Format.getD sprint)
            (Itoa (maxSlice (intNumber IntKind.int) (printCounts h)))
            (h.zip
              ((normToWidth (intNumber IntKind.int) fl.ofInt fl (printCounts h) opt.Width).zip
                (normToWidth num fl.ofT fl (printSums h) opt.Width))).reverse).writes[
              h.length - 1 - i]? =
          some (printLine opt (opt.Format.getD sprint)
            (Itoa (maxSlice (intNumber IntKind.int) (printCounts h))) b barStr) := by
      intro i b hb
      have hi := getElem?_lt hb
      have hzi : i < (h.zip
          ((normToWidth (intNumber IntKind.int) fl.ofInt fl (printCounts h) opt.Width).zip
            (normToWidth num fl.ofT fl (printSums h) opt.Width))).length := by
        rw [hzlen]; exact hi
      have hrow := List.getElem?_eq_getElem hzi
      have hrow1 := (List.getElem?_zip_eq_some.mp hrow).1
      rw [hb] at hrow1
      simp only [Option.some.injEq] at hrow1
      have hrev : (h.zip
          ((normToWidth (intNumber IntKind.int) fl.ofInt fl (printCounts h) opt.Width).zip
            (normToWidth num fl.ofT fl (printSums h) opt.Width))).reverse[h.length - 1 - i]? =
          some ((h.zip
          ((normToWidth (intNumber IntKind.int) fl.ofInt fl (printCounts h) opt.Width).zip
            (normToWidth num fl.ofT fl (printSums h) opt.Width)))[i]) := by
        rw [List.getElem?_reverse (by rw [hzlen]; omega), hzlen, ← hrow]
        congr 1
        omega
      obtain ⟨barStr, hw⟩ := r3 _ _ hrev
      rw [← hrow1] at hw
      exact ⟨barStr, hw⟩
    unfold Print
    simp only [hlast, hfmt]
    refine ⟨r1, by simp [r2], ?_, ?_⟩
    · intro w hw
      rcases List.mem_cons.mp hw with e | e
      · rw [e]; exact List.getLast?_concat _
      · obtain ⟨j, hj⟩ := List.mem_iff_getElem?.mp e
        have hjlt := getElem?_lt hj
        rw [r2] at hjlt
        cases hrj : (h.zip
            ((normToWidth (intNumber IntKind.int) fl.ofInt fl (printCounts h) opt.Width).zip
              (normToWidth num fl.ofT fl (printSums h) opt.Width))).reverse[j]? with
        | none =>
          have hge := List.getElem?_eq_none_iff.mp hrj
          rw [List.length_reverse, hzlen] at hge
          omega
        | some row =>
          obtain ⟨barStr, hw'⟩ := r3 _ _ hrj
          rw [hj] at hw'
          simp only [Option.some.injEq] at hw'
          rw [hw']
          unfold printLine
          rw [show ∀ x : GoString, x ++ [41, 10] = (x ++ [41]) ++ [10] from fun x => by simp]
          exact List.getLast?_concat _
    · intro i b hb
      have hi := getElem?_lt hb
      obtain ⟨barStr, hw⟩ := hline i b hb
      refine ⟨barStr, ?_⟩
      have e : h.length - i = (h.length - 1 - i) + 1 := by omega
      rw [e, List.getElem?_cons_succ, hw]
      unfold printLine
      rw [sumText_eq]
      simp only [List.append_assoc]

/-- C17 at the one-bucket histogram of `[]int{8}`, width 3, with a sum glyph:
the header `"  9\n"` and the line `"> 8: --$ (1; 8)\n"`. -/
theorem print_lines_witness :
    Print (intNumber IntKind.int) intFloat Itoa oneBucket (sumOptions 3) =
      { writes := [[32, 32, 57, 10],
          [62, 32, 56, 58, 32, 45, 45, 36, 32, 40, 49, 59, 32, 56, 41, 10]],
        returned := true } ∧
    (Print (intNumber IntKind.int) intFloat Itoa oneBucket (sumOptions 3)).returned = true ∧
    (Print (intNumber IntKind.int) intFloat Itoa oneBucket (sumOptions 3)).writes.length =
      oneBucket.length + 1 :=
  ⟨by decide,
    ((print_lines (intNumber IntKind.int) intFloat Itoa oneBucket (sumOptions 3)).2.2
      (by decide) (Or.inr (by decide))).1,
    ((print_lines (intNumber IntKind.int) intFloat Itoa oneBucket (sumOptions 3)).2.2
      (by decide) (Or.inr (by decide))).2.1⟩

/-- C17 as stated fails.  With a sum glyph the line of the one-bucket
histogram of `[]int{8}` at width 3 is `"> 8: --$ (1; 8)\n"`: it does not end
with the count in parentheses, `"(1)\n"`.  With the zero-value width 0 the
normalised sum is `-1`, `bar` panics on `ret[:-1]`, and only the header has
been written, not `n + 1 = 2` lines.  (The `float64` operations involved,
`1/1`, `8/8`, a product with 2 or -1 and the rounding of an integer, are
exact.) -/
theorem print_lines_counterexample :
    CreateLinear (intNumber IntKind.int) [8] 1 = some oneBucket ∧
    Print (intNumber IntKind.int) intFloat Itoa oneBucket (sumOptions 3) =
      { writes := [[32, 32, 57, 10],
          [62, 32, 56, 58, 32, 45, 45, 36, 32, 40, 49, 59, 32, 56, 41, 10]],
        returned := true } ∧
    ([40, 49, 41, 10] : List Nat).isSuffixOf
      [62, 32, 56, 58, 32, 45, 45, 36, 32, 40, 49, 59, 32, 56, 41, 10] = false ∧
    Print (intNumber IntKind.int) intFloat Itoa oneBucket (sumOptions 0) =
      { writes := [[32, 32, 57, 10]], returned := false } :=
  ⟨by decide, by decide, by decide, by decide⟩

end Hist
